import Mathlib

/-!
# Multiplayer tic-tac-toe: the server's room store and move handler

A shallow embedding of `src/server/server.js`, `src/server/utils/roomManager.js`
and of the client evaluator in `src/public/js/game.js`.

Conventions of the embedding:

* JavaScript `null` is `none`; where a lookup can also give `undefined`
  (an array index outside the array, a missing object key) the result is
  an `Option` whose outer `none` is `undefined`.
* Objects that the server mutates in place (`room`, `room.gameState`) live in
  the room store, so a handler is a function from the store to the new store,
  the answer passed to the callback and the events it emits.
* `Date.now()` is a parameter `now`.
-/

namespace TicTacToe

/-! ## Data model -/

/-- The two player symbols, the strings `'X'` and `'O'`. -/
inductive Symbol where
  | X
  | O
  deriving DecidableEq, Repr

/-- One board slot; `none` is `null` (an empty cell). -/
abbrev Cell := Option Symbol

/-- The board, a JavaScript array of cells (`Array(9).fill(null)` when fresh). -/
abbrev Board := List Cell

/-- The value of `board[i]` for an integer `i`; the outer `none` is
`undefined`, which is what an index outside the array reads as. -/
def boardGet (board : Board) (i : Int) : Option Cell :=
  if i < 0 then none else board[i.toNat]?

/-- What `checkWinner` returns when it does not return `null`: the symbol
found on a line, or the string `'draw'`. -/
inductive Outcome where
  | symbol (s : Symbol)
  | draw
  deriving DecidableEq, Repr

/-! ## The evaluators -/

/-- The array `winPatterns` of `checkWinner` (server.js) and of
`checkWinnerFromBoard` (game.js): rows, columns, diagonals. -/
def winPatterns : List (Nat × Nat × Nat) :=
  [(0, 1, 2), (3, 4, 5), (6, 7, 8),
   (0, 3, 6), (1, 4, 7), (2, 5, 8),
   (0, 4, 8), (2, 4, 6)]

/-- The loop test `board[a] && board[a] === board[b] && board[a] === board[c]`
for one pattern `[a, b, c]`; when it passes the result is `board[a]`. -/
def lineSymbol (board : Board) (p : Nat × Nat × Nat) : Option Symbol :=
  match board[p.1]? with
  | some (some s) =>
    if board[p.2.1]? = some (some s) ∧ board[p.2.2]? = some (some s) then some s else none
  | _ => none

/-- The `for (const pattern of ...)` loop with its early `return board[a]`. -/
def checkPatterns (board : Board) : List (Nat × Nat × Nat) → Option Symbol
  | [] => none
  | p :: rest =>
    match lineSymbol board p with
    | some s => some s
    | none => checkPatterns board rest

/-- The function `checkWinner(board)` of server.js. -/
def checkWinner (board : Board) : Option Outcome :=
  match checkPatterns board winPatterns with
  | some s => some (Outcome.symbol s)
  | none => if board.all (fun cell => cell != none) then some Outcome.draw else none

/-- The method `checkWinnerFromBoard(board)` of game.js, as a function of the
board: the highlighting done inside the loop does not change what is
returned. It returns `board[a]` or `null`. -/
def checkWinnerFromBoard (board : Board) : Option Symbol :=
  checkPatterns board winPatterns

/-! ## Rooms and game states (roomManager.js) -/

/-- A connection identifier, the string `socket.id`. -/
abbrev ConnId := String

/-- The status strings `'waiting'`, `'active'` and `'finished'`, used both by
`room.status` and by `gameState.status`. -/
inductive Status where
  | waiting
  | active
  | finished
  deriving DecidableEq, Repr

/-- One entry of `room.players`. -/
structure PlayerInfo where
  id : ConnId
  username : String
  symbol : Symbol
  ready : Bool
  deriving DecidableEq, Repr

/-- The object `room.settings`. -/
structure Settings where
  allowSpectators : Bool
  timerEnabled : Bool
  timeLimit : Nat
  deriving DecidableEq, Repr

/-- The properties that `createRoom` reads of its `settings` object; a
property that is missing, `undefined` or `null` is `none`. -/
structure SettingsInput where
  allowSpectators : Option Bool
  timerEnabled : Option Bool
  timeLimit : Option Nat
  deriving DecidableEq, Repr

/-- The value that arrives as the argument `settings` of `createRoom`, which
the handler passes on as the client sent it: `undefined` when none was sent,
`null`, or an object. -/
inductive SettingsArg where
  | undefined
  | null
  | object (fields : SettingsInput)
  deriving DecidableEq, Repr

/-- The object `room.gameState`. -/
structure GameState where
  board : Board
  currentPlayer : Option ConnId
  moveCount : Nat
  timeLeft : Option Nat
  startTime : Nat
  lastMoveTime : Nat
  status : Status
  winner : Option Outcome
  deriving DecidableEq, Repr

/-- A room object. `players` is the object keyed by connection id, kept as
an association list in insertion order; `isMatchmaking` is `false` where the
source leaves the property out. -/
structure Room where
  code : String
  host : ConnId
  player1 : ConnId
  player2 : Option ConnId
  players : List (ConnId × PlayerInfo)
  spectators : List ConnId
  settings : Settings
  gameState : Option GameState
  createdAt : Nat
  status : Status
  isMatchmaking : Bool
  deriving DecidableEq, Repr

/-- The `Map` held in `this.rooms`, in insertion order. -/
abbrev RoomStore := List (String × Room)

/-- The lookups `map.get(key)` and `object[key]`; `none` is `undefined`. -/
def mapGet {α : Type} (m : List (String × α)) (key : String) : Option α :=
  m.lookup key

/-- The test `map.has(key)`. -/
def mapHas {α : Type} (m : List (String × α)) (key : String) : Bool :=
  (mapGet m key).isSome

/-- The updates `map.set(key, value)` and `object[key] = value`: an existing
key keeps its place, a new key goes last. -/
def mapSet {α : Type} (m : List (String × α)) (key : String) (value : α) : List (String × α) :=
  if mapHas m key then m.map (fun e => if e.1 = key then (key, value) else e)
  else m ++ [(key, value)]

/-- The removal `map.delete(key)`. -/
def mapDelete {α : Type} (m : List (String × α)) (key : String) : List (String × α) :=
  m.filter (fun e => e.1 != key)

/-- JavaScript truthiness of a value that is a string or `null`. -/
def truthy : Option String → Bool
  | some s => s != ""
  | none => false

/-- What a `catch` block receives: an `Error` made by the server code with
the given message, or a `TypeError` raised by the runtime when a property of
`null` or `undefined` is read (its message is the engine's own text). -/
inductive Exception where
  | error (message : String)
  | typeError
  deriving DecidableEq, Repr

/-- The string `chars` of `generateRoomCode`. -/
def chars : List Char :=
  "ABCDEFGHIJKLMNOPQRSTUVWXYZ0123456789".toList

/-- One pass of the body of the `do` loop: six characters, the `i`-th picked by
the draw number `pos + i` of the random source. A draw is the value of
`Math.floor(Math.random() * chars.length)`, a number from 0 to 35. -/
def drawCode (rnd : Nat → Fin 36) (pos : Nat) : String :=
  String.mk ((List.range 6).map (fun i => chars.getD (rnd (pos + i)).val 'A'))

/-- The method `generateRoomCode()`: draw codes until one is not a key of the
store. `fuel` bounds the number of passes (the loop itself has no bound);
the result is the code and the position of the next unused draw. -/
def generateRoomCode (rooms : RoomStore) (rnd : Nat → Fin 36) : Nat → Nat → Option (String × Nat)
  | 0, _ => none
  | fuel + 1, pos =>
    let code := drawCode rnd pos
    if mapHas rooms code then generateRoomCode rooms rnd fuel (pos + 6)
    else some (code, pos + 6)

/-- The object whose properties the body of `createRoom` reads: the
parameter default `settings = {}` stands in for `undefined` only, and reading
a property of `null` throws, which is `none` here. -/
def settingsFields : SettingsArg → Option SettingsInput
  | SettingsArg.undefined => some ⟨none, none, none⟩
  | SettingsArg.null => none
  | SettingsArg.object fields => some fields

/-- The method `createRoom(hostId, hostUsername, settings)`; the result is
the room, the store afterwards and the next unused draw, or the `TypeError`
thrown when `settings` is `null`: the code is drawn first, and the room
literal reads `settings.allowSpectators` before `rooms.set` is reached. The
result is `none` when the code loop does not end within the fuel. -/
def createRoom (rooms : RoomStore) (rnd : Nat → Fin 36) (fuel pos : Nat) (now : Nat)
    (hostId : ConnId) (hostUsername : String) (settings : SettingsArg) :
    Option (Except Exception (Room × RoomStore × Nat)) :=
  match generateRoomCode rooms rnd fuel pos with
  | none => none
  | some (code, pos1) =>
    match settingsFields settings with
    | none => some (Except.error Exception.typeError)
    | some fields =>
      let room : Room :=
        { code := code
          host := hostId
          player1 := hostId
          player2 := none
          players := [(hostId, { id := hostId, username := hostUsername, symbol := Symbol.X, ready := true })]
          spectators := []
          settings :=
            { allowSpectators := fields.allowSpectators.getD true
              timerEnabled := fields.timerEnabled.getD true
              timeLimit := fields.timeLimit.getD 60 }
          gameState := none
          createdAt := now
          status := Status.waiting
          isMatchmaking := false }
      some (Except.ok (room, mapSet rooms code room, pos1))

/-- The method `createMatchmakingRoom(player1Id, player2Id, player1Username,
player2Username)`; the result is the code, the store afterwards and the next
unused draw. -/
def createMatchmakingRoom (rooms : RoomStore) (rnd : Nat → Fin 36) (fuel pos : Nat) (now : Nat)
    (player1Id player2Id : ConnId) (player1Username player2Username : String) :
    Option (String × RoomStore × Nat) :=
  match generateRoomCode rooms rnd fuel pos with
  | none => none
  | some (code, pos1) =>
    let room : Room :=
      { code := code
        host := player1Id
        player1 := player1Id
        player2 := some player2Id
        players :=
          mapSet [(player1Id, { id := player1Id, username := player1Username, symbol := Symbol.X, ready := true })]
            player2Id { id := player2Id, username := player2Username, symbol := Symbol.O, ready := true }
        spectators := []
        settings := { allowSpectators := true, timerEnabled := true, timeLimit := 60 }
        gameState := none
        createdAt := now
        status := Status.waiting
        isMatchmaking := true }
    some (code, mapSet rooms code room, pos1)

/-- The method `joinRoom(code, playerId, username)`. -/
def joinRoom (rooms : RoomStore) (code : String) (playerId : ConnId) (username : String) :
    Except Exception (Room × RoomStore) :=
  match mapGet rooms code with
  | none => Except.error (Exception.error "Room not found")
  | some room =>
    if truthy room.player2 then Except.error (Exception.error "Room is full")
    else
      let room1 : Room :=
        { room with
          player2 := some playerId
          players := mapSet room.players playerId
            { id := playerId, username := username, symbol := Symbol.O, ready := true } }
      Except.ok (room1, mapSet rooms code room1)

/-- The method `startGame(code)`; both reads of the clock give `now`. -/
def startGame (rooms : RoomStore) (now : Nat) (code : String) :
    Except Exception (GameState × RoomStore) :=
  match mapGet rooms code with
  | none => Except.error (Exception.error "Room not found")
  | some room =>
    if !truthy (some room.player1) || !truthy room.player2 then
      Except.error (Exception.error "Not enough players")
    else
      let gameState : GameState :=
        { board := List.replicate 9 none
          currentPlayer := some room.player1
          moveCount := 0
          timeLeft := if room.settings.timerEnabled then some room.settings.timeLimit else none
          startTime := now
          lastMoveTime := now
          status := Status.active
          winner := none }
      Except.ok (gameState, mapSet rooms code { room with status := Status.active, gameState := some gameState })

/-- The method `getRoom(code)`. -/
def getRoom (rooms : RoomStore) (code : String) : Option Room :=
  mapGet rooms code

/-- The method `removeRoom(code)`. -/
def removeRoom (rooms : RoomStore) (code : String) : RoomStore :=
  mapDelete rooms code

/-- The method `getActiveRoomsCount()`. -/
def getActiveRoomsCount (rooms : RoomStore) : Nat :=
  (rooms.filter (fun e => e.2.status == Status.active)).length

/-- The constant `maxAge` of `cleanupOldRooms`, 30 minutes in milliseconds. -/
def maxAge : Int :=
  30 * 60 * 1000

/-- The test of `cleanupOldRooms` on one room:
`now - room.createdAt > maxAge && room.status !== 'active'`. -/
def isOldRoom (now : Nat) (room : Room) : Bool :=
  decide ((now : Int) - (room.createdAt : Int) > maxAge) && room.status != Status.active

/-- The method `cleanupOldRooms()` run at the time `now`: the loop deletes the
key of every entry that passes the test; the keys of a `Map` being distinct,
what stays is the list of the entries that fail it. -/
def cleanupOldRooms (rooms : RoomStore) (now : Nat) : RoomStore :=
  rooms.filter (fun e => !isOldRoom now e.2)

/-! ## The socket handlers (server.js) -/

/-- What a handler passes to its callback, without the payload of a success:
`{ success: true, ... }` or `{ success: false, error: error.message }`. -/
inductive Response where
  | success
  | failure (e : Exception)
  deriving DecidableEq, Repr

/-- The payload of the `gameOver` event. -/
inductive WinnerData where
  | draw
  | win (winner : Symbol) (winnerId : ConnId)
  deriving DecidableEq, Repr

/-- The events that the `makeMove` handler sends to the room. -/
inductive Event where
  | gameOver (roomCode : String) (data : WinnerData)
  | moveMade (roomCode : String) (cellIndex : Int) (symbol : Symbol)
      (nextPlayer : Option ConnId) (gameState : GameState)
  deriving DecidableEq, Repr

/-- The store after a handler ran, its answer and the events it sent. -/
structure MoveResult where
  rooms : RoomStore
  response : Response
  events : List Event
  deriving DecidableEq, Repr

/-- The expression
`room.players[Object.keys(room.players).find(id => room.players[id].symbol === winner)].id`;
`none` when `find` gives `undefined`, in which case reading `.id` throws. -/
def findWinnerId (players : List (ConnId × PlayerInfo)) (winner : Symbol) : Option ConnId :=
  match (players.map (fun e => e.1)).find?
      (fun id => match mapGet players id with
        | some info => info.symbol == winner
        | none => false) with
  | some id => (mapGet players id).map (fun info => info.id)
  | none => none

/-- The handler `socket.on('makeMove', (data, callback) => ...)` for
`data = { roomCode, cellIndex }` sent by the connection `socketId`. Every
exit of the `try` block is an answer to the callback; the `catch` block turns
an exception into a failure answer and keeps what was written before it. -/
def makeMove (now : Nat) (socketId : ConnId) (roomCode : String) (cellIndex : Int)
    (rooms : RoomStore) : MoveResult :=
  match getRoom rooms roomCode with
  | none => { rooms := rooms, response := Response.failure (Exception.error "Room not found"), events := [] }
  | some room =>
    match room.gameState with
    | none => { rooms := rooms, response := Response.failure Exception.typeError, events := [] }
    | some gameState =>
      if boardGet gameState.board cellIndex ≠ some none then
        { rooms := rooms, response := Response.failure (Exception.error "Cell already taken"), events := [] }
      else if gameState.currentPlayer ≠ some socketId then
        { rooms := rooms, response := Response.failure (Exception.error "Not your turn"), events := [] }
      else
        match mapGet room.players socketId with
        | none => { rooms := rooms, response := Response.failure Exception.typeError, events := [] }
        | some info =>
          let playerSymbol := info.symbol
          let moved : GameState :=
            { gameState with
              board := gameState.board.set cellIndex.toNat (some playerSymbol)
              moveCount := gameState.moveCount + 1
              lastMoveTime := now }
          match checkWinner moved.board with
          | some winner =>
            let finished : GameState := { moved with winner := some winner, status := Status.finished }
            let rooms1 := mapSet rooms roomCode { room with gameState := some finished }
            match winner with
            | Outcome.draw =>
              { rooms := rooms1, response := Response.success,
                events := [Event.gameOver roomCode WinnerData.draw] }
            | Outcome.symbol w =>
              match findWinnerId room.players w with
              | none => { rooms := rooms1, response := Response.failure Exception.typeError, events := [] }
              | some winnerId =>
                { rooms := rooms1, response := Response.success,
                  events := [Event.gameOver roomCode (WinnerData.win w winnerId)] }
          | none =>
            let nextPlayer : Option ConnId :=
              if moved.currentPlayer = some room.player1 then room.player2 else some room.player1
            let switched : GameState :=
              { moved with
                currentPlayer := nextPlayer
                timeLeft := if room.settings.timerEnabled then some 60 else moved.timeLeft }
            { rooms := mapSet rooms roomCode { room with gameState := some switched },
              response := Response.success,
              events := [Event.moveMade roomCode cellIndex playerSymbol nextPlayer switched] }

/-- The store after the handler `socket.on('joinRoom', ...)`: `joinRoom`, then
`startGame`; an exception of either leaves what was written before it. -/
def joinRoomHandler (rooms : RoomStore) (now : Nat) (socketId : ConnId) (username : String)
    (roomCode : String) : RoomStore × Response :=
  match joinRoom rooms roomCode socketId username with
  | Except.error e => (rooms, Response.failure e)
  | Except.ok (_, rooms1) =>
    match startGame rooms1 now roomCode with
    | Except.error e => (rooms1, Response.failure e)
    | Except.ok (_, rooms2) => (rooms2, Response.success)

/-- The store after the handler `socket.on('restartGame', ...)`; it has no
`try` block, so an exception of `startGame` leaves the handler. -/
def restartGame (rooms : RoomStore) (now : Nat) (roomCode : String) : Except Exception RoomStore :=
  match getRoom rooms roomCode with
  | none => Except.ok rooms
  | some _ =>
    match startGame rooms now roomCode with
    | Except.error e => Except.error e
    | Except.ok (_, rooms1) => Except.ok rooms1

/-- The store after the handler `socket.on('spectateRoom', ...)`. -/
def spectateRoom (rooms : RoomStore) (socketId : ConnId) (roomCode : String) : RoomStore × Response :=
  match getRoom rooms roomCode with
  | none => (rooms, Response.failure (Exception.error "Room not found"))
  | some room =>
    if !room.settings.allowSpectators then
      (rooms, Response.failure (Exception.error "Spectators not allowed"))
    else
      (mapSet rooms roomCode { room with spectators := room.spectators ++ [socketId] }, Response.success)

/-- The store after the part of the handler `socket.on('joinMatchmaking', ...)`
that runs when a match was found: `createMatchmakingRoom`, then `startGame`
(an exception of `startGame` is caught and leaves the new room in place). -/
def matchFound (rooms : RoomStore) (rnd : Nat → Fin 36) (fuel pos : Nat) (now : Nat)
    (player1Id player2Id : ConnId) (player1Username player2Username : String) :
    Option (RoomStore × Nat) :=
  match createMatchmakingRoom rooms rnd fuel pos now player1Id player2Id
      player1Username player2Username with
  | none => none
  | some (code, rooms1, pos1) =>
    match startGame rooms1 now code with
    | Except.error _ => some (rooms1, pos1)
    | Except.ok (_, rooms2) => some (rooms2, pos1)

/-- One change of the room store by a handler of server.js. The session
registry and the matchmaking queue are not part of the state here: what they
feed into the store (the user name, the room a leaving or disconnecting
connection is in, the matched pair) is left free, so every run of the server
is a run of this relation. -/
inductive Step : RoomStore → RoomStore → Prop where
  | createRoom (rooms : RoomStore) (rnd : Nat → Fin 36) (fuel pos now : Nat) (socketId : ConnId)
      (username : String) (settings : SettingsArg) (room : Room) (rooms1 : RoomStore) (pos1 : Nat) :
      createRoom rooms rnd fuel pos now socketId username settings
        = some (Except.ok (room, rooms1, pos1)) →
      Step rooms rooms1
  | joinRoom (rooms : RoomStore) (now : Nat) (socketId : ConnId) (username roomCode : String) :
      Step rooms (joinRoomHandler rooms now socketId username roomCode).1
  | leaveRoom (rooms : RoomStore) (roomCode : String) :
      Step rooms (removeRoom rooms roomCode)
  | matchFound (rooms : RoomStore) (rnd : Nat → Fin 36) (fuel pos now : Nat)
      (player1Id player2Id : ConnId) (player1Username player2Username : String)
      (rooms1 : RoomStore) (pos1 : Nat) :
      matchFound rooms rnd fuel pos now player1Id player2Id player1Username player2Username
        = some (rooms1, pos1) →
      Step rooms rooms1
  | makeMove (rooms : RoomStore) (now : Nat) (socketId : ConnId) (roomCode : String) (cellIndex : Int) :
      Step rooms (makeMove now socketId roomCode cellIndex rooms).rooms
  | restartGame (rooms : RoomStore) (now : Nat) (roomCode : String) (rooms1 : RoomStore) :
      restartGame rooms now roomCode = Except.ok rooms1 →
      Step rooms rooms1
  | spectateRoom (rooms : RoomStore) (socketId : ConnId) (roomCode : String) :
      Step rooms (spectateRoom rooms socketId roomCode).1

/-- The room stores that the server can be in, starting from the empty store
of `new RoomManager()`. -/
inductive Reachable : RoomStore → Prop where
  | init : Reachable []
  | step {rooms rooms1 : RoomStore} : Reachable rooms → Step rooms rooms1 → Reachable rooms1

/-! ## The matchmaking queue (matchmakingController.js) -/

/-- One entry of `this.queue`. -/
structure QueueEntry where
  id : ConnId
  username : String
  points : Int
  joinedAt : Nat
  deriving DecidableEq, Repr

/-- The argument `playerData` of `addToQueue`, of which `username` and
`points` are read; `points` is `none` when the property is missing. -/
structure PlayerData where
  username : String
  points : Option Int
  deriving DecidableEq, Repr

/-- The array `this.queue`. -/
abbrev Queue := List QueueEntry

/-- The field `matchRange`, the points difference for matching. -/
def matchRange : Int :=
  100

/-- The value `Math.abs(a.points - player.points)`. -/
def pointsDiff (a player : QueueEntry) : Nat :=
  (a.points - player.points).natAbs

/-- The copy `[...this.queue].sort(...)` of `findMatch`: the queue in the
order of increasing points difference to `player`, entries of equal
difference keeping their queue order (`sort` is stable). -/
def sortedQueue (queue : Queue) (player : QueueEntry) : Queue :=
  queue.insertionSort (fun a b => pointsDiff a player ≤ pointsDiff b player)

/-- The test `pointsDiff <= adjustedRange` of `findMatch` at the time `now`,
where `waitTime = now - candidate.joinedAt` and
`adjustedRange = matchRange + (waitTime / 1000) * 10`; stated in exact
arithmetic with both sides multiplied by 100. -/
def withinRange (now : Nat) (candidate player : QueueEntry) : Bool :=
  decide ((pointsDiff candidate player : Int) * 100
    ≤ matchRange * 100 + ((now : Int) - (candidate.joinedAt : Int)))

/-- The method `findMatch(player)` run at the time `now`. -/
def findMatch (queue : Queue) (now : Nat) (player : QueueEntry) : Option QueueEntry :=
  (sortedQueue queue player).find? (fun candidate => withinRange now candidate player)

/-- The object `{ player1, player2 }` that `addToQueue` returns for a match. -/
structure MatchPair where
  player1 : QueueEntry
  player2 : QueueEntry
  deriving DecidableEq, Repr

/-- The statements `findIndex(p => p.id === id)` and `splice(index, 1)` for an
entry that is there, and nothing for an entry that is not: the first entry
with the id is taken out. -/
def spliceId (queue : Queue) (id : ConnId) : Queue :=
  queue.eraseP (fun p => p.id == id)

/-- The method `addToQueue(playerId, playerData)` run at the time `now`: the
value returned (`none` is `null`) and the queue afterwards. -/
def addToQueue (queue : Queue) (now : Nat) (playerId : ConnId) (playerData : PlayerData) :
    Option MatchPair × Queue :=
  let queue1 := spliceId queue playerId
  let player : QueueEntry :=
    { id := playerId
      username := playerData.username
      points := playerData.points.getD 0
      joinedAt := now }
  match findMatch queue1 now player with
  | some found => (some { player1 := player, player2 := found }, spliceId queue1 found.id)
  | none => (none, queue1 ++ [player])

/-- The method `removeFromQueue(playerId)`: the value returned and the queue
afterwards. -/
def removeFromQueue (queue : Queue) (playerId : ConnId) : Bool × Queue :=
  if queue.any (fun p => p.id == playerId) then (true, spliceId queue playerId)
  else (false, queue)

/-- The method `getQueuePosition(playerId)`. -/
def getQueuePosition (queue : Queue) (playerId : ConnId) : Nat :=
  match queue.findIdx? (fun p => p.id == playerId) with
  | some index => index + 1
  | none => 0

/-- The method `getQueueSize()`. -/
def getQueueSize (queue : Queue) : Nat :=
  queue.length

/-- The method `getEstimatedWaitTime(position)`. -/
def getEstimatedWaitTime (position : Nat) : Nat :=
  if position ≤ 1 then 5
  else if position ≤ 3 then 15
  else if position ≤ 5 then 30
  else 60

/-- The constant `maxWaitTime` of `cleanupQueue`, 5 minutes in milliseconds. -/
def maxWaitTime : Int :=
  5 * 60 * 1000

/-- The method `cleanupQueue()` run at the time `now`. -/
def cleanupQueue (queue : Queue) (now : Nat) : Queue :=
  queue.filter (fun player => decide ((now : Int) - (player.joinedAt : Int) < maxWaitTime))

/-- One call of a method that changes the queue. -/
inductive QueueStep : Queue → Queue → Prop where
  | addToQueue (queue : Queue) (now : Nat) (playerId : ConnId) (playerData : PlayerData) :
      QueueStep queue (addToQueue queue now playerId playerData).2
  | removeFromQueue (queue : Queue) (playerId : ConnId) :
      QueueStep queue (removeFromQueue queue playerId).2
  | cleanupQueue (queue : Queue) (now : Nat) :
      QueueStep queue (cleanupQueue queue now)

/-- The queues that calls of `addToQueue`, `removeFromQueue` and
`cleanupQueue` produce from the empty queue of `new MatchmakingController()`. -/
inductive QueueReachable : Queue → Prop where
  | init : QueueReachable []
  | step {queue queue1 : Queue} : QueueReachable queue → QueueStep queue queue1 →
      QueueReachable queue1

/-! ## The session registry and the handlers that read it (server.js) -/

/-- One value of the map `connectedUsers`; `currentRoom` is `none` while the
property is missing or `null`. -/
structure User where
  id : ConnId
  username : String
  points : Int
  inGame : Bool
  currentRoom : Option String
  deriving DecidableEq, Repr

/-- The three stores of the server: `connectedUsers`, the rooms of
`roomManager` and the queue of `matchmaking`. -/
structure Server where
  users : List (String × User)
  rooms : RoomStore
  queue : Queue
  deriving DecidableEq, Repr

/-- How a handler run ends: the stores afterwards, the answer passed to the
callback if one was passed, and the exception that left the handler if one
did (a handler without `try` does not catch what its body throws). The
events sent to the sockets are not part of this record. -/
structure HandlerResult where
  server : Server
  response : Option Response
  uncaught : Option Exception
  deriving DecidableEq, Repr

/-- The body of `io.on('connection', ...)` for the new connection `socketId`;
`username` is the name `Player<n>` made from a random number. -/
def onConnection (server : Server) (socketId : ConnId) (username : String) : Server :=
  { server with
    users := mapSet server.users socketId
      { id := socketId, username := username, points := 0, inGame := false, currentRoom := none } }

/-- The handler `socket.on('createRoom', (settings, callback) => ...)`; `none`
when the code loop of `createRoom` does not end within the fuel. What
`createRoom` throws is caught and handed to the callback. -/
def onCreateRoom (server : Server) (rnd : Nat → Fin 36) (fuel pos now : Nat) (socketId : ConnId)
    (settings : SettingsArg) : Option HandlerResult :=
  match mapGet server.users socketId with
  | none =>
    some { server := server, response := some (Response.failure Exception.typeError),
           uncaught := none }
  | some user =>
    match createRoom server.rooms rnd fuel pos now socketId user.username settings with
    | none => none
    | some (Except.error e) =>
      some { server := server, response := some (Response.failure e), uncaught := none }
    | some (Except.ok (room, rooms1, _)) =>
      some
        { server :=
            { server with
              rooms := rooms1
              users := mapSet server.users socketId
                { user with inGame := true, currentRoom := some room.code } }
          response := some Response.success
          uncaught := none }

/-- The handler `socket.on('joinRoom', (roomCode, callback) => ...)`. -/
def onJoinRoom (server : Server) (now : Nat) (socketId : ConnId) (roomCode : String) :
    HandlerResult :=
  match mapGet server.users socketId with
  | none =>
    { server := server, response := some (Response.failure Exception.typeError), uncaught := none }
  | some user =>
    match joinRoom server.rooms roomCode socketId user.username with
    | Except.error e =>
      { server := server, response := some (Response.failure e), uncaught := none }
    | Except.ok (_, rooms1) =>
      let users1 := mapSet server.users socketId
        { user with inGame := true, currentRoom := some roomCode }
      match startGame rooms1 now roomCode with
      | Except.error e =>
        { server := { server with rooms := rooms1, users := users1 },
          response := some (Response.failure e), uncaught := none }
      | Except.ok (_, rooms2) =>
        { server := { server with rooms := rooms2, users := users1 },
          response := some Response.success, uncaught := none }

/-- The handler `socket.on('leaveRoom', () => ...)`. -/
def onLeaveRoom (server : Server) (socketId : ConnId) : HandlerResult :=
  match mapGet server.users socketId with
  | none => { server := server, response := none, uncaught := none }
  | some user =>
    if truthy user.currentRoom then
      match user.currentRoom with
      | none => { server := server, response := none, uncaught := none }
      | some roomCode =>
        match getRoom server.rooms roomCode with
        | none => { server := server, response := none, uncaught := none }
        | some _ =>
          { server :=
              { server with
                rooms := removeRoom server.rooms roomCode
                users := mapSet server.users socketId
                  { user with inGame := false, currentRoom := none } }
            response := none
            uncaught := none }
    else { server := server, response := none, uncaught := none }

/-- The handler `socket.on('disconnect', () => ...)`. It has no `try`: when
the room of the session has no game state, reading `room.gameState.status`
throws, and what follows in the handler (`removeRoom`, the deletion of the
session) does not run. -/
def onDisconnect (server : Server) (socketId : ConnId) : HandlerResult :=
  match mapGet server.users socketId with
  | none => { server := server, response := none, uncaught := none }
  | some user =>
    let queue1 := (removeFromQueue server.queue socketId).2
    let gone : Server :=
      { server with queue := queue1, users := mapDelete server.users socketId }
    if truthy user.currentRoom then
      match user.currentRoom with
      | none => { server := gone, response := none, uncaught := none }
      | some roomCode =>
        match getRoom server.rooms roomCode with
        | none => { server := gone, response := none, uncaught := none }
        | some room =>
          match room.gameState with
          | none =>
            { server := { server with queue := queue1 }, response := none,
              uncaught := some Exception.typeError }
          | some _ =>
            { server := { gone with rooms := removeRoom server.rooms roomCode },
              response := none, uncaught := none }
    else { server := gone, response := none, uncaught := none }

/-- The handler `socket.on('restartGame', (roomCode) => ...)` registered for
the connection `socketId`. The handler never reads `socket.id`, and it has no
`try`: what `startGame` throws leaves the handler. -/
def onRestartGame (server : Server) (now : Nat) (_socketId : ConnId) (roomCode : String) :
    HandlerResult :=
  match restartGame server.rooms now roomCode with
  | Except.ok rooms1 =>
    { server := { server with rooms := rooms1 }, response := none, uncaught := none }
  | Except.error e => { server := server, response := none, uncaught := some e }

/-- The handler `socket.on('makeMove', (data, callback) => ...)` registered
for the connection `socketId`, on the stores of the server: it touches the
rooms only, and its `try` hands every exception to the callback. -/
def onMakeMove (server : Server) (now : Nat) (socketId : ConnId) (roomCode : String)
    (cellIndex : Int) : HandlerResult :=
  let result := makeMove now socketId roomCode cellIndex server.rooms
  { server := { server with rooms := result.rooms }, response := some result.response,
    uncaught := none }

/-! ## Vocabulary of the statements about the evaluators -/

/-- All three cells of the triple `p` hold the symbol `s`. -/
def Uniform (board : Board) (p : Nat × Nat × Nat) (s : Symbol) : Prop :=
  board[p.1]? = some (some s) ∧ board[p.2.1]? = some (some s) ∧ board[p.2.2]? = some (some s)

instance (board : Board) (p : Nat × Nat × Nat) (s : Symbol) : Decidable (Uniform board p s) := by
  unfold Uniform; infer_instance

/-- Some triple of the eight is uniform and non-empty. -/
def HasLine (board : Board) : Prop :=
  ∃ p ∈ winPatterns, ∃ s, Uniform board p s

/-- The three rows of the 3x3 grid, top to bottom. -/
def rows : List (Nat × Nat × Nat) :=
  (List.range 3).map (fun r => (3 * r, 3 * r + 1, 3 * r + 2))

/-- The three columns of the 3x3 grid, left to right. -/
def columns : List (Nat × Nat × Nat) :=
  (List.range 3).map (fun c => (c, c + 3, c + 6))

/-- The two diagonals. -/
def diagonals : List (Nat × Nat × Nat) :=
  [(0, 4, 8), (2, 4, 6)]

/-- The board `X O X / X O O / O X X`. -/
def drawBoard : Board :=
  [some Symbol.X, some Symbol.O, some Symbol.X,
   some Symbol.X, some Symbol.O, some Symbol.O,
   some Symbol.O, some Symbol.X, some Symbol.X]

/-- The board of `Array(9).fill(null)`. -/
def emptyBoard : Board :=
  List.replicate 9 none

/-- The symbol that moves when `k` moves were made: X moves first. -/
def symbolToMove (k : Nat) : Symbol :=
  if k % 2 = 0 then Symbol.X else Symbol.O

/-- Place the moves of the list in turn, the first of them being move number
`k`, each on a cell that is still empty; `none` when a move addresses a cell
that is taken or is no cell. -/
def placeMoves : Board → Nat → List Nat → Option Board
  | board, _, [] => some board
  | board, k, i :: rest =>
    if board[i]? = some none then placeMoves (board.set i (some (symbolToMove k))) (k + 1) rest
    else none

/-- A board that alternating X/O moves produce from the empty board. -/
def AlternatingReachable (board : Board) : Prop :=
  ∃ moves, placeMoves emptyBoard 0 moves = some board

/-- The value of the client evaluator read as a value of the server
evaluator: a symbol is that symbol, `null` is `null`. -/
def clientAsOutcome (r : Option Symbol) : Option Outcome :=
  r.map Outcome.symbol

/-! ## Vocabulary of the statements about the move handler -/

/-- The move passes every check of the handler: the room exists and has a
game state, `board[cellIndex]` reads `null`, the sender is
`gameState.currentPlayer` and has an entry in `room.players`. -/
structure Accepted (rooms : RoomStore) (socketId : ConnId) (roomCode : String) (cellIndex : Int)
    (room : Room) (gameState : GameState) (info : PlayerInfo) : Prop where
  room_eq : getRoom rooms roomCode = some room
  game_eq : room.gameState = some gameState
  cell_empty : boardGet gameState.board cellIndex = some none
  turn_eq : gameState.currentPlayer = some socketId
  info_eq : mapGet room.players socketId = some info

/-- The game state of the room stored under `code`; `none` when there is no
such room or the room has no game state. -/
def gameOf (rooms : RoomStore) (code : String) : Option GameState :=
  (getRoom rooms code).bind (fun room => room.gameState)

/-- The board after the accepted move: `board[cellIndex] = playerSymbol`. -/
def boardAfter (gameState : GameState) (cellIndex : Int) (info : PlayerInfo) : Board :=
  gameState.board.set cellIndex.toNat (some info.symbol)

/-- What holds of every room of a reachable store: a game state has a board
of nine slots, is only there when the second seat is taken, and every uniform
triple on its board holds the symbol of the player whose turn it is. -/
def RoomInv (room : Room) : Prop :=
  ∀ gameState, room.gameState = some gameState →
    gameState.board.length = 9 ∧ truthy room.player2 = true ∧
    ∀ p ∈ winPatterns, ∀ t, Uniform gameState.board p t →
      ∃ c info, gameState.currentPlayer = some c ∧ mapGet room.players c = some info ∧
        info.symbol = t

/-- Every room of the store satisfies `RoomInv`. -/
def StoreInv (rooms : RoomStore) : Prop :=
  ∀ e ∈ rooms, RoomInv e.2

/-! ## A game between the host `H` and the guest `G` -/

/-- A random source that counts up: its first six draws spell `ABCDEF`. -/
def rndCount : Nat → Fin 36 :=
  fun n => ⟨n % 36, Nat.mod_lt n (by decide)⟩

/-- The store after `H` created a room with the settings object `{}`. -/
def roomsCreated : RoomStore :=
  match createRoom [] rndCount 1 0 1000 "H" "Host" (SettingsArg.object ⟨none, none, none⟩) with
  | some (Except.ok (_, rooms, _)) => rooms
  | _ => []

/-- The store after `G` joined that room, which starts the game. -/
def roomsStarted : RoomStore :=
  (joinRoomHandler roomsCreated 2000 "G" "Guest" "ABCDEF").1

/-- The store after the given `makeMove` requests (sender, cell) on room `ABCDEF`. -/
def play (rooms : RoomStore) (moves : List (ConnId × Int)) : RoomStore :=
  moves.foldl (fun r m => (makeMove 3000 m.1 "ABCDEF" m.2 r).rooms) rooms

/-- After `H` played cell 0. -/
def roomsAfterFirstMove : RoomStore :=
  play roomsStarted [("H", 0)]

/-- After `H` 0, `G` 3, `H` 1, `G` 4. -/
def roomsBeforeWin : RoomStore :=
  play roomsStarted [("H", 0), ("G", 3), ("H", 1), ("G", 4)]

/-- After `H` 0, `G` 3, `H` 1, `G` 4, `H` 2: `H` has won with the top row. -/
def roomsAfterWin : RoomStore :=
  play roomsStarted [("H", 0), ("G", 3), ("H", 1), ("G", 4), ("H", 2)]

/-- After `H` 0, `G` 1, `H` 2, `G` 4, `H` 3, `G` 5, `H` 7, `G` 6: only cell 8
is empty and no triple is uniform. -/
def roomsBeforeDraw : RoomStore :=
  play roomsStarted
    [("H", 0), ("G", 1), ("H", 2), ("G", 4), ("H", 3), ("G", 5), ("H", 7), ("G", 6)]

/-! ## Vocabulary of the statements about the room manager -/

/-- The seats of a room are as the source assigns them: the entry of
`player1` in `players` has symbol X and, when `player2` is set, the entry of
`player2` has symbol O. -/
def SeatInv (room : Room) : Prop :=
  (mapGet room.players room.player1).map (fun info => info.symbol) = some Symbol.X ∧
  ∀ id, room.player2 = some id →
    (mapGet room.players id).map (fun info => info.symbol) = some Symbol.O

/-- Successive calls of `createRoom` and `createMatchmakingRoom` with no
removal in between: `Created rooms codes rooms1` says that they lead from the
store `rooms` to the store `rooms1` and returned the codes `codes`, in this
order. -/
inductive Created : RoomStore → List String → RoomStore → Prop where
  | none (rooms : RoomStore) : Created rooms [] rooms
  | room {rooms rooms1 rooms2 : RoomStore} {codes : List String} (rnd : Nat → Fin 36)
      (fuel pos now : Nat) (hostId : ConnId) (hostUsername : String) (settings : SettingsArg)
      (room : Room) (pos1 : Nat) :
      Created rooms codes rooms1 →
      createRoom rooms1 rnd fuel pos now hostId hostUsername settings
        = some (Except.ok (room, rooms2, pos1)) →
      Created rooms (codes ++ [room.code]) rooms2
  | matchRoom {rooms rooms1 rooms2 : RoomStore} {codes : List String} (rnd : Nat → Fin 36)
      (fuel pos now : Nat) (player1Id player2Id : ConnId) (player1Username player2Username : String)
      (code : String) (pos1 : Nat) :
      Created rooms codes rooms1 →
      createMatchmakingRoom rooms1 rnd fuel pos now player1Id player2Id
        player1Username player2Username = some (code, rooms2, pos1) →
      Created rooms (codes ++ [code]) rooms2

/-- The store after a call of `startGame`, also when the call throws: an
exception is raised before anything is written. -/
def storeAfterStart (rooms : RoomStore) (now : Nat) (code : String) : RoomStore :=
  match startGame rooms now code with
  | Except.ok (_, rooms1) => rooms1
  | Except.error _ => rooms

/-! ## More stores of the game between `H` and `G` -/

/-- The store after `H` created a room and then called `joinRoom` on it
itself. -/
def roomsSelfJoined : RoomStore :=
  match joinRoom roomsCreated "ABCDEF" "H" "Host" with
  | Except.ok (_, rooms) => rooms
  | Except.error _ => roomsCreated

/-- The store after `H` created a room with `timeLimit: 30` and `G` joined
it, which starts the game. -/
def roomsShortTimer : RoomStore :=
  match createRoom [] rndCount 1 0 1000 "H" "Host" (SettingsArg.object ⟨none, none, some 30⟩) with
  | some (Except.ok (_, rooms, _)) => (joinRoomHandler rooms 2000 "G" "Guest" "ABCDEF").1
  | _ => []

/-! ## Vocabulary of the statements about the sweep and the queue -/

/-- Every room of the store has status `'waiting'` or `'active'`. -/
def StatusInv (rooms : RoomStore) : Prop :=
  ∀ e ∈ rooms, e.2.status = Status.waiting ∨ e.2.status = Status.active

/-- The queue after `A` (0 points) and then `B` (1000 points) joined at the
time 0; they are too far apart to be matched. -/
def queueTwo : Queue :=
  (addToQueue (addToQueue [] 0 "A" ⟨"Ann", some 0⟩).2 0 "B" ⟨"Bob", some 1000⟩).2

/-- The entry that `addToQueue` builds for the arriving player. -/
def newEntry (now : Nat) (playerId : ConnId) (playerData : PlayerData) : QueueEntry :=
  { id := playerId
    username := playerData.username
    points := playerData.points.getD 0
    joinedAt := now }

/-- The candidate that the specification of `findMatch` describes, computed
from the end of the queue: of the entries that pass the tolerance test, the
one of least points difference, the earliest in the queue among equals. -/
def bestCandidate (now : Nat) (player : QueueEntry) : Queue → Option QueueEntry
  | [] => none
  | a :: rest =>
    match bestCandidate now player rest with
    | none => if withinRange now a player then some a else none
    | some c =>
      if withinRange now a player ∧ pointsDiff a player ≤ pointsDiff c player then some a
      else some c

/-- The number of board slots that are not empty. -/
def filledSlots (board : Board) : Nat :=
  (board.filter (fun cell => cell != none)).length

/-- What holds of the game state of every room of a reachable store: the
game state is absent exactly while the status of the room is `'waiting'`; a
game state has a board of nine slots of which `moveCount` are filled, and its
`currentPlayer` is one of the two seats of the room. -/
def GameInv (room : Room) : Prop :=
  (room.gameState = none ↔ room.status = Status.waiting) ∧
  ∀ gameState, room.gameState = some gameState →
    gameState.board.length = 9 ∧ filledSlots gameState.board = gameState.moveCount ∧
    (gameState.currentPlayer = some room.player1 ∨ gameState.currentPlayer = room.player2)

/-- Every room of the store satisfies `GameInv`. -/
def StoreGameInv (rooms : RoomStore) : Prop :=
  ∀ e ∈ rooms, GameInv e.2

/-! ## Runs of the server with its session registry -/

/-- The server after `H`, `G` and `K` connected. -/
def serverConnected : Server :=
  onConnection (onConnection (onConnection ⟨[], [], []⟩ "H" "Player1") "G" "Player2") "K" "Player3"

/-- The server after `H` created a room, which nobody joined yet. -/
def serverHostWaiting : Server :=
  match onCreateRoom serverConnected rndCount 1 0 1000 "H" (SettingsArg.object ⟨none, none, none⟩) with
  | some result => result.server
  | none => serverConnected

/-- The server after `G` joined the room of `H`: the game in `ABCDEF` is
started. -/
def serverStarted : Server :=
  (onJoinRoom serverHostWaiting 2000 "G" "ABCDEF").server

/-- The server after `H`, seated in the started room `ABCDEF`, created a
second room, `GHIJKL`, and `K` joined that one. -/
def serverTwoRooms : Server :=
  match onCreateRoom serverStarted rndCount 2 0 3000 "H" (SettingsArg.object ⟨none, none, none⟩) with
  | some result => (onJoinRoom result.server 4000 "K" "GHIJKL").server
  | none => serverStarted

/-- The server after `H` played cell 0 in the started room `ABCDEF`; `K` is
connected and seated nowhere. -/
def serverAfterFirstMove : Server :=
  (onMakeMove serverStarted 3000 "H" "ABCDEF" 0).server

/-! ## Lemmas about the evaluators -/

theorem lineSymbol_eq_some {board : Board} {p : Nat × Nat × Nat} {s : Symbol} :
    lineSymbol board p = some s ↔ Uniform board p s := by
  unfold lineSymbol Uniform
  constructor
  · intro h
    split at h
    · next t ht =>
      split at h
      · next hc =>
        cases h
        exact ⟨ht, hc.1, hc.2⟩
      · cases h
    · cases h
  · rintro ⟨h1, h2, h3⟩
    rw [h1]
    simp [h2, h3]

theorem lineSymbol_eq_none {board : Board} {p : Nat × Nat × Nat} :
    lineSymbol board p = none ↔ ∀ s, ¬ Uniform board p s := by
  constructor
  · intro h s hs
    rw [lineSymbol_eq_some.mpr hs] at h
    cases h
  · intro h
    cases hl : lineSymbol board p with
    | none => rfl
    | some s => exact absurd (lineSymbol_eq_some.mp hl) (h s)

/-- The loop returns `s` exactly when the first uniform triple of the list
holds `s`. -/
theorem checkPatterns_eq_some {board : Board} {s : Symbol} (ps : List (Nat × Nat × Nat)) :
    checkPatterns board ps = some s ↔
      ∃ pre p post, ps = pre ++ p :: post ∧ Uniform board p s ∧
        ∀ q ∈ pre, ∀ t, ¬ Uniform board q t := by
  induction ps with
  | nil =>
    simp [checkPatterns]
  | cons p rest ih =>
    unfold checkPatterns
    cases hl : lineSymbol board p with
    | some t =>
      simp only
      constructor
      · intro h
        cases h
        exact ⟨[], p, rest, rfl, lineSymbol_eq_some.mp hl, by simp⟩
      · rintro ⟨pre, q, post, heq, hu, hpre⟩
        cases pre with
        | nil =>
          simp only [List.nil_append, List.cons.injEq] at heq
          obtain ⟨rfl, -⟩ := heq
          rw [lineSymbol_eq_some.mpr hu] at hl
          exact hl.symm
        | cons q0 pre0 =>
          simp only [List.cons_append, List.cons.injEq] at heq
          obtain ⟨rfl, -⟩ := heq
          exact absurd (lineSymbol_eq_some.mp hl) (hpre p (List.mem_cons_self _ _) t)
    | none =>
      simp only
      rw [ih]
      constructor
      · rintro ⟨pre, q, post, heq, hu, hpre⟩
        refine ⟨p :: pre, q, post, by simp [heq], hu, ?_⟩
        intro q0 hq0 t
        rcases List.mem_cons.mp hq0 with rfl | hq0
        · exact lineSymbol_eq_none.mp hl t
        · exact hpre q0 hq0 t
      · rintro ⟨pre, q, post, heq, hu, hpre⟩
        cases pre with
        | nil =>
          simp only [List.nil_append, List.cons.injEq] at heq
          obtain ⟨rfl, -⟩ := heq
          exact absurd hu (lineSymbol_eq_none.mp hl s)
        | cons q0 pre0 =>
          simp only [List.cons_append, List.cons.injEq] at heq
          obtain ⟨rfl, rfl⟩ := heq
          exact ⟨pre0, q, post, rfl, hu, fun q1 hq1 t => hpre q1 (List.mem_cons_of_mem _ hq1) t⟩

theorem checkPatterns_eq_none {board : Board} (ps : List (Nat × Nat × Nat)) :
    checkPatterns board ps = none ↔ ∀ p ∈ ps, ∀ s, ¬ Uniform board p s := by
  induction ps with
  | nil => simp [checkPatterns]
  | cons p rest ih =>
    unfold checkPatterns
    cases hl : lineSymbol board p with
    | some t =>
      simp only [List.mem_cons, forall_eq_or_imp, false_iff, not_and, reduceCtorEq]
      intro h
      exact absurd (lineSymbol_eq_some.mp hl) (h t)
    | none =>
      simp only [List.mem_cons, forall_eq_or_imp]
      rw [ih]
      exact ⟨fun h => ⟨lineSymbol_eq_none.mp hl, h⟩, fun h => h.2⟩

theorem checkPatterns_isSome_iff {board : Board} :
    (∃ s, checkPatterns board winPatterns = some s) ↔ HasLine board := by
  unfold HasLine
  constructor
  · rintro ⟨s, hs⟩
    obtain ⟨pre, p, post, heq, hu, -⟩ := (checkPatterns_eq_some winPatterns).mp hs
    exact ⟨p, by rw [heq]; simp, s, hu⟩
  · rintro ⟨p, hp, s, hu⟩
    cases hc : checkPatterns board winPatterns with
    | some t => exact ⟨t, rfl⟩
    | none => exact absurd hu ((checkPatterns_eq_none winPatterns).mp hc p hp s)

theorem checkPatterns_none_iff {board : Board} :
    checkPatterns board winPatterns = none ↔ ¬ HasLine board := by
  rw [← checkPatterns_isSome_iff]
  cases checkPatterns board winPatterns <;> simp

/-- On a board of nine cells, `board.every(cell => cell !== null)` says that
none of the indices 0..8 reads `null`. -/
theorem all_filled_iff {board : Board} (h : board.length = 9) :
    board.all (fun cell => cell != none) = true ↔ ∀ i, i < 9 → board[i]? ≠ some none := by
  rw [List.all_eq_true]
  constructor
  · intro hall i _ hi
    have hmem : (none : Cell) ∈ board := List.getElem?_mem hi
    have := hall none hmem
    simp at this
  · intro hidx cell hcell
    obtain ⟨i, hi, hget⟩ := List.getElem_of_mem hcell
    have hlt : i < 9 := h ▸ hi
    have h1 := hidx i hlt
    rw [List.getElem?_eq_getElem hi, hget] at h1
    cases cell with
    | none => exact absurd rfl h1
    | some s => rfl

/-! ## The evaluators: claims -/

/-- C1 as stated fails: on the board `X X X / O O O / _ _ _` the triple
(3, 4, 5) is one of the eight and holds O in all three cells, and
`checkWinner` returns X, the symbol of the first row, not O. -/
theorem checkWinner_two_lines :
    ([some Symbol.X, some Symbol.X, some Symbol.X, some Symbol.O, some Symbol.O, some Symbol.O,
      none, none, none] : Board).length = 9 ∧
    (3, 4, 5) ∈ winPatterns ∧
    Uniform [some Symbol.X, some Symbol.X, some Symbol.X, some Symbol.O, some Symbol.O,
      some Symbol.O, none, none, none] (3, 4, 5) Symbol.O ∧
    checkWinner [some Symbol.X, some Symbol.X, some Symbol.X, some Symbol.O, some Symbol.O,
      some Symbol.O, none, none, none] = some (Outcome.symbol Symbol.X) ∧
    checkWinner [some Symbol.X, some Symbol.X, some Symbol.X, some Symbol.O, some Symbol.O,
      some Symbol.O, none, none, none] ≠ some (Outcome.symbol Symbol.O) :=
  ⟨rfl, by decide, ⟨rfl, rfl, rfl⟩, by decide, by decide⟩

/-- C1, amended. On every board of nine cells `checkWinner` returns a symbol,
`'draw'` or `null`: the symbol `s` exactly when the first uniform triple, in
the order rows, columns, diagonals, holds `s`; some symbol exactly when at
least one of the eight triples is uniform and non-empty; `'draw'` exactly when
no triple is uniform and all nine cells are filled; `null` exactly when no
triple is uniform and some cell is empty. When all uniform triples of the
board hold one symbol, the symbol `s` is returned exactly when some triple
holds `s`. -/
theorem checkWinner_spec (board : Board) (h : board.length = 9) :
    winPatterns = rows ++ columns ++ diagonals ∧
    (∀ s, checkWinner board = some (Outcome.symbol s) ↔
      ∃ pre p post, winPatterns = pre ++ p :: post ∧ Uniform board p s ∧
        ∀ q ∈ pre, ∀ t, ¬ Uniform board q t) ∧
    ((∃ s, checkWinner board = some (Outcome.symbol s)) ↔ HasLine board) ∧
    (checkWinner board = some Outcome.draw ↔
      ¬ HasLine board ∧ ∀ i, i < 9 → board[i]? ≠ some none) ∧
    (checkWinner board = none ↔
      ¬ HasLine board ∧ ∃ i, i < 9 ∧ board[i]? = some none) ∧
    ((∀ p ∈ winPatterns, ∀ q ∈ winPatterns, ∀ s t,
        Uniform board p s → Uniform board q t → s = t) →
      ∀ s, checkWinner board = some (Outcome.symbol s) ↔
        ∃ p ∈ winPatterns, Uniform board p s) := by
  refine ⟨by decide, ?_, ?_, ?_, ?_, ?_⟩
  · intro s
    rw [← checkPatterns_eq_some]
    unfold checkWinner
    cases hc : checkPatterns board winPatterns with
    | some t => simp
    | none =>
      simp only
      split <;> simp
  · rw [← checkPatterns_isSome_iff]
    unfold checkWinner
    cases hc : checkPatterns board winPatterns with
    | some t => simp
    | none =>
      simp only
      split <;> simp
  · have hfill := all_filled_iff h
    rw [← checkPatterns_none_iff]
    unfold checkWinner
    cases hc : checkPatterns board winPatterns with
    | some t => simp
    | none =>
      simp only [true_and]
      by_cases hall : board.all (fun cell => cell != none) = true
      · simp only [hall, if_true, true_iff]
        exact hfill.mp hall
      · simp only [hall, Bool.false_eq_true, if_false, reduceCtorEq, false_iff]
        intro hcontra
        exact hall (hfill.mpr hcontra)
  · have hfill := all_filled_iff h
    rw [← checkPatterns_none_iff]
    unfold checkWinner
    cases hc : checkPatterns board winPatterns with
    | some t => simp
    | none =>
      simp only [true_and]
      by_cases hall : board.all (fun cell => cell != none) = true
      · simp only [hall, if_true, reduceCtorEq, false_iff, not_exists, not_and]
        exact hfill.mp hall
      · simp only [hall, Bool.false_eq_true, if_false, true_iff]
        by_contra hne
        apply hall
        apply hfill.mpr
        intro i hi hget
        exact hne ⟨i, hi, hget⟩
  · intro hsame s
    have hsym : ∀ t, checkWinner board = some (Outcome.symbol t) ↔
        checkPatterns board winPatterns = some t := by
      intro t
      unfold checkWinner
      cases hc : checkPatterns board winPatterns with
      | some u => simp
      | none =>
        simp only
        split <;> simp
    rw [hsym]
    constructor
    · intro hs
      obtain ⟨pre, p, post, heq, hu, -⟩ := (checkPatterns_eq_some winPatterns).mp hs
      exact ⟨p, by rw [heq]; simp, hu⟩
    · rintro ⟨p, hp, hu⟩
      obtain ⟨t, ht⟩ := checkPatterns_isSome_iff.mpr ⟨p, hp, s, hu⟩
      obtain ⟨pre, q, post, heq, hq, -⟩ := (checkPatterns_eq_some winPatterns).mp ht
      have hqmem : q ∈ winPatterns := by
        rw [heq]
        simp
      rw [ht, hsame p hp q hqmem s t hu hq]

/-- C1 amended, on the board `X O X / X O O / O X X`: the evaluator returns
`'draw'`. -/
theorem checkWinner_spec_witness :
    drawBoard.length = 9 ∧ checkWinner drawBoard = some Outcome.draw :=
  ⟨rfl, (checkWinner_spec drawBoard rfl).2.2.2.1.mpr
    ⟨checkPatterns_none_iff.mp (by decide), by decide⟩⟩

/-- C2 as stated fails: the board `X O X / X O O / O X X` is produced by
alternating moves, the server evaluator returns `'draw'` on it and the client
evaluator returns `null`. -/
theorem evaluators_differ_on_draw :
    AlternatingReachable drawBoard ∧
    checkWinner drawBoard = some Outcome.draw ∧
    checkWinnerFromBoard drawBoard = none ∧
    checkWinner drawBoard ≠ clientAsOutcome (checkWinnerFromBoard drawBoard) :=
  ⟨⟨[0, 1, 2, 4, 3, 5, 7, 6, 8], by decide⟩, by decide, by decide, by decide⟩

/-- C2, amended. On every board, reachable or not, the client evaluator
returns the winner symbol that the server evaluator returns, and returns
`null` both where the server returns `null` and where it returns `'draw'`;
so the two agree on a board exactly when the server does not return
`'draw'`. -/
theorem checkWinnerFromBoard_eq (board : Board) :
    (∀ s, checkWinnerFromBoard board = some s ↔ checkWinner board = some (Outcome.symbol s)) ∧
    (checkWinnerFromBoard board = none ↔
      checkWinner board = none ∨ checkWinner board = some Outcome.draw) ∧
    (clientAsOutcome (checkWinnerFromBoard board) = checkWinner board ↔
      checkWinner board ≠ some Outcome.draw) := by
  unfold checkWinnerFromBoard checkWinner clientAsOutcome
  cases hc : checkPatterns board winPatterns with
  | some t => simp
  | none =>
    simp only
    split <;> simp

/-! ## Lemmas about the maps -/

theorem mapGet_mem {α : Type} {m : List (String × α)} {key : String} {value : α}
    (h : mapGet m key = some value) : (key, value) ∈ m := by
  unfold mapGet at h
  induction m with
  | nil => simp [List.lookup] at h
  | cons e rest ih =>
    obtain ⟨k, v⟩ := e
    by_cases hk : key = k
    · subst hk
      simp [List.lookup] at h
      simp [h]
    · have hne : (key == k) = false := by simpa using hk
      simp only [List.lookup, hne] at h
      exact List.mem_cons_of_mem _ (ih h)

theorem mapGet_mapSet_self {α : Type} (m : List (String × α)) (key : String) (value : α) :
    mapGet (mapSet m key value) key = some value := by
  unfold mapSet mapHas mapGet
  induction m with
  | nil => simp [List.lookup]
  | cons e rest ih =>
    obtain ⟨k, v⟩ := e
    by_cases hk : key = k
    · subst hk
      simp [List.lookup]
    · have hne : (key == k) = false := by simpa using hk
      have hne2 : ¬ k = key := fun h => hk h.symm
      simp only [List.lookup, hne]
      split at ih
      · next hsome =>
        simp only [hsome, if_true, List.map_cons, hne2, if_false, List.lookup, hne]
        exact ih
      · next hnone =>
        simp only [hnone, if_false, List.cons_append, List.lookup, hne]
        exact ih

theorem lookup_map_replace {α : Type} (m : List (String × α)) {key other : String} (value : α)
    (h : other ≠ key) :
    List.lookup other (m.map (fun e => if e.1 = key then (key, value) else e))
      = List.lookup other m := by
  induction m with
  | nil => rfl
  | cons e rest ih =>
    obtain ⟨k, v⟩ := e
    by_cases hk : k = key
    · subst hk
      have hne : (other == k) = false := by simpa using h
      simp only [List.map_cons, if_true, List.lookup_cons, hne, ih]
    · simp only [List.map_cons, hk, if_false, List.lookup_cons, ih]

theorem lookup_append_other {α : Type} (m : List (String × α)) {key other : String} (value : α)
    (h : other ≠ key) :
    List.lookup other (m ++ [(key, value)]) = List.lookup other m := by
  induction m with
  | nil =>
    have hne : (other == key) = false := by simpa using h
    simp [List.lookup, hne]
  | cons e rest ih =>
    obtain ⟨k, v⟩ := e
    simp [List.lookup, ih]

theorem mapGet_mapSet_ne {α : Type} (m : List (String × α)) {key other : String} (value : α)
    (h : other ≠ key) : mapGet (mapSet m key value) other = mapGet m other := by
  unfold mapSet mapGet
  split
  · exact lookup_map_replace m value h
  · exact lookup_append_other m value h

theorem mem_mapSet {α : Type} {m : List (String × α)} {key : String} {value : α}
    {e : String × α} (h : e ∈ mapSet m key value) : e ∈ m ∨ e = (key, value) := by
  unfold mapSet at h
  split at h
  · rw [List.mem_map] at h
    obtain ⟨e0, he0, heq⟩ := h
    split at heq
    · exact Or.inr heq.symm
    · exact Or.inl (heq ▸ he0)
  · rw [List.mem_append] at h
    rcases h with h | h
    · exact Or.inl h
    · exact Or.inr (by simpa using h)

theorem mem_mapDelete {α : Type} {m : List (String × α)} {key : String}
    {e : String × α} (h : e ∈ mapDelete m key) : e ∈ m := by
  unfold mapDelete at h
  exact (List.mem_filter.mp h).1

/-! ## Lemmas about board slots -/

theorem boardGet_nonneg {board : Board} {i : Int} {c : Cell} (h : boardGet board i = some c) :
    0 ≤ i ∧ i.toNat < board.length := by
  unfold boardGet at h
  split at h
  · cases h
  · next hi =>
    refine ⟨by omega, ?_⟩
    by_contra hlen
    rw [List.getElem?_eq_none (by omega)] at h
    cases h

theorem boardGet_set_self {board : Board} {i : Int} {c : Cell} (v : Cell)
    (h : boardGet board i = some c) : boardGet (board.set i.toNat v) i = some v := by
  have hi := boardGet_nonneg h
  unfold boardGet
  rw [if_neg (by omega)]
  simp [hi.2]

theorem boardGet_set_ne {board : Board} {i j : Int} (v : Cell) (hi : 0 ≤ i) (hne : j ≠ i) :
    boardGet (board.set i.toNat v) j = boardGet board j := by
  unfold boardGet
  split
  · rfl
  · next hj =>
    have : i.toNat ≠ j.toNat := by omega
    simp [List.getElem?_set_ne this]

/-! ## Lemmas about the move handler -/

/-- A move on a cell that does not read `null` is answered `'Cell already
taken'` whoever sends it. -/
theorem makeMove_of_cell_taken {rooms : RoomStore} {roomCode : String} {room : Room}
    {gameState : GameState} (now : Nat) (socketId : ConnId) {cellIndex : Int}
    (hroom : getRoom rooms roomCode = some room) (hgame : room.gameState = some gameState)
    (hcell : boardGet gameState.board cellIndex ≠ some none) :
    makeMove now socketId roomCode cellIndex rooms =
      { rooms := rooms, response := Response.failure (Exception.error "Cell already taken"),
        events := [] } := by
  unfold makeMove
  simp only [hroom, hgame]
  rw [if_pos hcell]

/-- A move on an empty cell by a connection whose turn it is not is answered
`'Not your turn'`. -/
theorem makeMove_of_not_turn {rooms : RoomStore} {roomCode : String} {room : Room}
    {gameState : GameState} (now : Nat) {socketId : ConnId} {cellIndex : Int}
    (hroom : getRoom rooms roomCode = some room) (hgame : room.gameState = some gameState)
    (hcell : boardGet gameState.board cellIndex = some none)
    (hturn : gameState.currentPlayer ≠ some socketId) :
    makeMove now socketId roomCode cellIndex rooms =
      { rooms := rooms, response := Response.failure (Exception.error "Not your turn"),
        events := [] } := by
  unfold makeMove
  simp only [hroom, hgame]
  rw [if_neg (not_not.mpr hcell), if_pos hturn]

/-- The store after an accepted move on whose board `checkWinner` returns
`null`. -/
theorem makeMove_rooms_of_open {rooms : RoomStore} {socketId : ConnId} {roomCode : String}
    {cellIndex : Int} {room : Room} {gameState : GameState} {info : PlayerInfo} (now : Nat)
    (hacc : Accepted rooms socketId roomCode cellIndex room gameState info)
    (hopen : checkWinner (boardAfter gameState cellIndex info) = none) :
    (makeMove now socketId roomCode cellIndex rooms).rooms =
      mapSet rooms roomCode
        { room with
          gameState := some
            { gameState with
              board := boardAfter gameState cellIndex info
              moveCount := gameState.moveCount + 1
              lastMoveTime := now
              currentPlayer :=
                if gameState.currentPlayer = some room.player1 then room.player2
                else some room.player1
              timeLeft := if room.settings.timerEnabled then some 60 else gameState.timeLeft } } ∧
    (makeMove now socketId roomCode cellIndex rooms).response = Response.success := by
  unfold boardAfter at hopen
  unfold makeMove
  simp only [hacc.room_eq, hacc.game_eq, hacc.info_eq]
  rw [if_neg (not_not.mpr hacc.cell_empty), if_neg (not_not.mpr hacc.turn_eq)]
  simp only [hopen, boardAfter]
  exact ⟨trivial, trivial⟩

/-- The store after an accepted move on whose board `checkWinner` returns a
verdict. -/
theorem makeMove_rooms_of_over {rooms : RoomStore} {socketId : ConnId} {roomCode : String}
    {cellIndex : Int} {room : Room} {gameState : GameState} {info : PlayerInfo} (now : Nat)
    {winner : Outcome}
    (hacc : Accepted rooms socketId roomCode cellIndex room gameState info)
    (hover : checkWinner (boardAfter gameState cellIndex info) = some winner) :
    (makeMove now socketId roomCode cellIndex rooms).rooms =
      mapSet rooms roomCode
        { room with
          gameState := some
            { gameState with
              board := boardAfter gameState cellIndex info
              moveCount := gameState.moveCount + 1
              lastMoveTime := now
              winner := some winner
              status := Status.finished } } := by
  unfold boardAfter at hover
  unfold makeMove
  simp only [hacc.room_eq, hacc.game_eq, hacc.info_eq]
  rw [if_neg (not_not.mpr hacc.cell_empty), if_neg (not_not.mpr hacc.turn_eq)]
  simp only [hover, boardAfter]
  cases winner with
  | draw => rfl
  | symbol w =>
    simp only
    cases findWinnerId room.players w <;> rfl

/-- A successful answer is given to accepted moves only. -/
theorem accepted_of_success {rooms : RoomStore} {now : Nat} {socketId : ConnId} {roomCode : String}
    {cellIndex : Int}
    (h : (makeMove now socketId roomCode cellIndex rooms).response = Response.success) :
    ∃ room gameState info, Accepted rooms socketId roomCode cellIndex room gameState info := by
  unfold makeMove at h
  cases hroom : getRoom rooms roomCode with
  | none => simp [hroom] at h
  | some room =>
    cases hgame : room.gameState with
    | none => simp [hroom, hgame] at h
    | some gameState =>
      simp only [hroom, hgame] at h
      by_cases hcell : boardGet gameState.board cellIndex = some none
      · by_cases hturn : gameState.currentPlayer = some socketId
        · cases hinfo : mapGet room.players socketId with
          | none =>
            rw [if_neg (not_not.mpr hcell), if_neg (not_not.mpr hturn)] at h
            simp [hinfo] at h
          | some info => exact ⟨room, gameState, info, hroom, hgame, hcell, hturn, hinfo⟩
        · rw [if_neg (not_not.mpr hcell), if_pos hturn] at h
          cases h
      · rw [if_pos hcell] at h
        cases h

/-! ## The invariant of the rooms -/

theorem storeInv_mapSet {rooms : RoomStore} {code : String} {room : Room}
    (h : StoreInv rooms) (hroom : RoomInv room) : StoreInv (mapSet rooms code room) := by
  intro e he
  rcases mem_mapSet he with he | he
  · exact h e he
  · rw [he]
    exact hroom

theorem roomInv_of_mapGet {rooms : RoomStore} {code : String} {room : Room}
    (h : StoreInv rooms) (hroom : mapGet rooms code = some room) : RoomInv room :=
  h (code, room) (mapGet_mem hroom)

theorem roomInv_of_no_game {room : Room} (h : room.gameState = none) : RoomInv room := by
  intro gameState hgame
  rw [h] at hgame
  cases hgame

theorem not_uniform_emptyBoard (p : Nat × Nat × Nat) (t : Symbol) :
    ¬ Uniform (List.replicate 9 none) p t := by
  intro h
  have h1 := h.1
  rw [List.getElem?_replicate] at h1
  split at h1 <;> cases h1

theorem storeInv_startGame {rooms rooms1 : RoomStore} {now : Nat} {code : String}
    {gameState : GameState} (h : StoreInv rooms)
    (hstart : startGame rooms now code = Except.ok (gameState, rooms1)) : StoreInv rooms1 := by
  unfold startGame at hstart
  cases hroom : mapGet rooms code with
  | none => simp [hroom] at hstart
  | some room =>
    simp only [hroom] at hstart
    split at hstart
    · cases hstart
    · next hseats =>
      simp only [Except.ok.injEq, Prod.mk.injEq] at hstart
      rw [← hstart.2]
      apply storeInv_mapSet h
      intro g hg
      simp only [Option.some.injEq] at hg
      subst hg
      refine ⟨by simp, ?_, ?_⟩
      · simp only [Bool.or_eq_true, Bool.not_eq_true', not_or, Bool.not_eq_false] at hseats
        exact hseats.2
      · intro p _ t hu
        exact absurd hu (not_uniform_emptyBoard p t)

theorem storeInv_joinRoom {rooms rooms1 : RoomStore} {code : String} {playerId : ConnId}
    {username : String} {room1 : Room} (h : StoreInv rooms)
    (hjoin : joinRoom rooms code playerId username = Except.ok (room1, rooms1)) :
    StoreInv rooms1 := by
  unfold joinRoom at hjoin
  cases hroom : mapGet rooms code with
  | none => simp [hroom] at hjoin
  | some room =>
    simp only [hroom] at hjoin
    split at hjoin
    · cases hjoin
    · next hfree =>
      simp only [Except.ok.injEq, Prod.mk.injEq] at hjoin
      rw [← hjoin.2]
      apply storeInv_mapSet h
      apply roomInv_of_no_game
      cases hgame : room.gameState with
      | none => rfl
      | some g => exact absurd (roomInv_of_mapGet h hroom g hgame).2.1 hfree

theorem storeInv_joinRoomHandler {rooms : RoomStore} (now : Nat) (socketId : ConnId)
    (username roomCode : String) (h : StoreInv rooms) :
    StoreInv (joinRoomHandler rooms now socketId username roomCode).1 := by
  unfold joinRoomHandler
  cases hjoin : joinRoom rooms roomCode socketId username with
  | error e => exact h
  | ok r =>
    obtain ⟨room1, rooms1⟩ := r
    have h1 := storeInv_joinRoom h hjoin
    simp only
    cases hstart : startGame rooms1 now roomCode with
    | error e => exact h1
    | ok r2 =>
      obtain ⟨g, rooms2⟩ := r2
      exact storeInv_startGame h1 hstart

theorem storeInv_createRoom {rooms rooms1 : RoomStore} {rnd : Nat → Fin 36} {fuel pos now : Nat}
    {hostId : ConnId} {hostUsername : String} {settings : SettingsArg} {room : Room} {pos1 : Nat}
    (h : StoreInv rooms)
    (hcreate : createRoom rooms rnd fuel pos now hostId hostUsername settings
      = some (Except.ok (room, rooms1, pos1))) : StoreInv rooms1 := by
  unfold createRoom at hcreate
  cases hcode : generateRoomCode rooms rnd fuel pos with
  | none => simp [hcode] at hcreate
  | some r =>
    obtain ⟨code, pos2⟩ := r
    cases hfields : settingsFields settings with
    | none => simp [hcode, hfields] at hcreate
    | some fields =>
      simp only [hcode, hfields, Option.some.injEq, Except.ok.injEq, Prod.mk.injEq] at hcreate
      rw [← hcreate.2.1]
      exact storeInv_mapSet h (roomInv_of_no_game rfl)

theorem storeInv_matchFound {rooms rooms1 : RoomStore} {rnd : Nat → Fin 36} {fuel pos now : Nat}
    {player1Id player2Id : ConnId} {player1Username player2Username : String} {pos1 : Nat}
    (h : StoreInv rooms)
    (hmatch : matchFound rooms rnd fuel pos now player1Id player2Id player1Username
      player2Username = some (rooms1, pos1)) : StoreInv rooms1 := by
  unfold matchFound createMatchmakingRoom at hmatch
  cases hcode : generateRoomCode rooms rnd fuel pos with
  | none => simp [hcode] at hmatch
  | some r =>
    obtain ⟨code, pos2⟩ := r
    simp only [hcode] at hmatch
    split at hmatch
    · next e hstart =>
      simp only [Option.some.injEq, Prod.mk.injEq] at hmatch
      rw [← hmatch.1]
      exact storeInv_mapSet h (roomInv_of_no_game rfl)
    · next g rooms2 hstart =>
      simp only [Option.some.injEq, Prod.mk.injEq] at hmatch
      rw [← hmatch.1]
      exact storeInv_startGame (storeInv_mapSet h (roomInv_of_no_game rfl)) hstart

theorem storeInv_removeRoom {rooms : RoomStore} (code : String) (h : StoreInv rooms) :
    StoreInv (removeRoom rooms code) :=
  fun e he => h e (mem_mapDelete he)

theorem storeInv_restartGame {rooms rooms1 : RoomStore} {now : Nat} {roomCode : String}
    (h : StoreInv rooms) (hre : restartGame rooms now roomCode = Except.ok rooms1) :
    StoreInv rooms1 := by
  unfold restartGame at hre
  cases hroom : getRoom rooms roomCode with
  | none =>
    simp only [hroom, Except.ok.injEq] at hre
    rw [← hre]
    exact h
  | some room =>
    simp only [hroom] at hre
    cases hstart : startGame rooms now roomCode with
    | error e => simp [hstart] at hre
    | ok r =>
      obtain ⟨g, rooms2⟩ := r
      simp only [hstart, Except.ok.injEq] at hre
      rw [← hre]
      exact storeInv_startGame h hstart

theorem storeInv_spectateRoom {rooms : RoomStore} (socketId : ConnId) (roomCode : String)
    (h : StoreInv rooms) : StoreInv (spectateRoom rooms socketId roomCode).1 := by
  unfold spectateRoom
  cases hroom : getRoom rooms roomCode with
  | none => exact h
  | some room =>
    simp only
    split
    · exact h
    · apply storeInv_mapSet h
      intro g hg
      exact roomInv_of_mapGet h hroom g hg

/-- A handler run either rejects the move and leaves the store alone, or the
move is accepted. -/
theorem makeMove_rooms_eq_or_accepted (rooms : RoomStore) (now : Nat) (socketId : ConnId)
    (roomCode : String) (cellIndex : Int) :
    (makeMove now socketId roomCode cellIndex rooms).rooms = rooms ∨
    ∃ room gameState info, Accepted rooms socketId roomCode cellIndex room gameState info := by
  cases hroom : getRoom rooms roomCode with
  | none =>
    left
    unfold makeMove
    simp [hroom]
  | some room =>
    cases hgame : room.gameState with
    | none =>
      left
      unfold makeMove
      simp [hroom, hgame]
    | some gameState =>
      by_cases hcell : boardGet gameState.board cellIndex = some none
      · by_cases hturn : gameState.currentPlayer = some socketId
        · cases hinfo : mapGet room.players socketId with
          | none =>
            left
            unfold makeMove
            simp only [hroom, hgame, hinfo]
            rw [if_neg (not_not.mpr hcell), if_neg (not_not.mpr hturn)]
          | some info => exact Or.inr ⟨room, gameState, info, hroom, hgame, hcell, hturn, hinfo⟩
        · left
          rw [makeMove_of_not_turn now hroom hgame hcell hturn]
      · left
        rw [makeMove_of_cell_taken now socketId hroom hgame hcell]

theorem checkPatterns_of_checkWinner_none {board : Board} (h : checkWinner board = none) :
    checkPatterns board winPatterns = none := by
  unfold checkWinner at h
  cases hc : checkPatterns board winPatterns with
  | none => rfl
  | some s => simp [hc] at h

/-- A uniform triple of the board after a move holds the symbol just placed,
when every uniform triple of the board before held that symbol. -/
theorem uniform_set {board : Board} {i : Nat} {s t : Symbol} {p : Nat × Nat × Nat}
    (hold : Uniform board p t → t = s)
    (hnew : Uniform (board.set i (some s)) p t) : t = s := by
  obtain ⟨h1, h2, h3⟩ := hnew
  have key : ∀ j, (board.set i (some s))[j]? = some (some t) → i = j → t = s := by
    intro j hj hij
    subst hij
    rw [List.getElem?_set_self'] at hj
    cases hb : board[i]? with
    | none => simp [hb] at hj
    | some c =>
      simp [hb] at hj
      exact hj.symm
  by_cases ha : i = p.1
  · exact key _ h1 ha
  · by_cases hb : i = p.2.1
    · exact key _ h2 hb
    · by_cases hc : i = p.2.2
      · exact key _ h3 hc
      · apply hold
        rw [List.getElem?_set_ne ha] at h1
        rw [List.getElem?_set_ne hb] at h2
        rw [List.getElem?_set_ne hc] at h3
        exact ⟨h1, h2, h3⟩

/-- In a room that satisfies the invariant, every uniform triple of the board
after an accepted move holds the symbol of the sender. -/
theorem uniform_boardAfter {rooms : RoomStore} {socketId : ConnId} {roomCode : String}
    {cellIndex : Int} {room : Room} {gameState : GameState} {info : PlayerInfo}
    (hacc : Accepted rooms socketId roomCode cellIndex room gameState info)
    (hinv : RoomInv room) {p : Nat × Nat × Nat} (hp : p ∈ winPatterns) {t : Symbol}
    (hu : Uniform (boardAfter gameState cellIndex info) p t) : t = info.symbol := by
  refine uniform_set ?_ hu
  intro hold
  obtain ⟨c, info1, hc, hinfo1, hsym⟩ := (hinv gameState hacc.game_eq).2.2 p hp t hold
  rw [hacc.turn_eq] at hc
  cases hc
  rw [hacc.info_eq] at hinfo1
  cases hinfo1
  exact hsym.symm

theorem storeInv_makeMove {rooms : RoomStore} (now : Nat) (socketId : ConnId) (roomCode : String)
    (cellIndex : Int) (h : StoreInv rooms) :
    StoreInv (makeMove now socketId roomCode cellIndex rooms).rooms := by
  rcases makeMove_rooms_eq_or_accepted rooms now socketId roomCode cellIndex with hsame | hacc
  · rw [hsame]
    exact h
  · obtain ⟨room, gameState, info, hacc⟩ := hacc
    have hinv := roomInv_of_mapGet h hacc.room_eq
    obtain ⟨hlen, hseat, -⟩ := hinv gameState hacc.game_eq
    have hlen1 : (boardAfter gameState cellIndex info).length = 9 := by
      simp [boardAfter, hlen]
    cases hw : checkWinner (boardAfter gameState cellIndex info) with
    | none =>
      rw [(makeMove_rooms_of_open now hacc hw).1]
      apply storeInv_mapSet h
      intro g hg
      simp only [Option.some.injEq] at hg
      subst hg
      refine ⟨hlen1, hseat, ?_⟩
      intro p hp t hu
      exact absurd hu ((checkPatterns_eq_none winPatterns).mp
        (checkPatterns_of_checkWinner_none hw) p hp t)
    | some winner =>
      rw [makeMove_rooms_of_over now hacc hw]
      apply storeInv_mapSet h
      intro g hg
      simp only [Option.some.injEq] at hg
      subst hg
      refine ⟨hlen1, hseat, ?_⟩
      intro p hp t hu
      exact ⟨socketId, info, hacc.turn_eq, hacc.info_eq, (uniform_boardAfter hacc hinv hp hu).symm⟩

/-- Every room of a reachable store satisfies the invariant. -/
theorem storeInv_of_reachable {rooms : RoomStore} (h : Reachable rooms) : StoreInv rooms := by
  induction h with
  | init =>
    intro e he
    cases he
  | step _ hstep ih =>
    cases hstep
    case createRoom hcreate => exact storeInv_createRoom ih hcreate
    case joinRoom now socketId username roomCode =>
      exact storeInv_joinRoomHandler now socketId username roomCode ih
    case leaveRoom roomCode => exact storeInv_removeRoom roomCode ih
    case matchFound hmatch => exact storeInv_matchFound ih hmatch
    case makeMove now socketId roomCode cellIndex =>
      exact storeInv_makeMove now socketId roomCode cellIndex ih
    case restartGame hre => exact storeInv_restartGame ih hre
    case spectateRoom socketId roomCode => exact storeInv_spectateRoom socketId roomCode ih

theorem findWinnerId_isSome {players : List (ConnId × PlayerInfo)} {socketId : ConnId}
    {info : PlayerInfo} (h : mapGet players socketId = some info) :
    ∃ winnerId, findWinnerId players info.symbol = some winnerId := by
  unfold findWinnerId
  split
  · next id hfind =>
    have hp := List.find?_some hfind
    cases hget : mapGet players id with
    | none => simp [hget] at hp
    | some info1 => exact ⟨info1.id, rfl⟩
  · next hfind =>
    rw [List.find?_eq_none] at hfind
    have hmem : socketId ∈ players.map (fun e => e.1) :=
      List.mem_map.mpr ⟨(socketId, info), mapGet_mem h, rfl⟩
    have := hfind socketId hmem
    simp [h] at this

/-- The answer and the event of an accepted move that ends the game. -/
theorem makeMove_response_of_over {rooms : RoomStore} {socketId : ConnId} {roomCode : String}
    {cellIndex : Int} {room : Room} {gameState : GameState} {info : PlayerInfo} (now : Nat)
    (hacc : Accepted rooms socketId roomCode cellIndex room gameState info) :
    (checkWinner (boardAfter gameState cellIndex info) = some Outcome.draw →
      (makeMove now socketId roomCode cellIndex rooms).response = Response.success ∧
      (makeMove now socketId roomCode cellIndex rooms).events
        = [Event.gameOver roomCode WinnerData.draw]) ∧
    (checkWinner (boardAfter gameState cellIndex info) = some (Outcome.symbol info.symbol) →
      (makeMove now socketId roomCode cellIndex rooms).response = Response.success ∧
      ∃ winnerId, (makeMove now socketId roomCode cellIndex rooms).events
        = [Event.gameOver roomCode (WinnerData.win info.symbol winnerId)]) := by
  constructor
  · intro hover
    unfold boardAfter at hover
    unfold makeMove
    simp only [hacc.room_eq, hacc.game_eq, hacc.info_eq]
    rw [if_neg (not_not.mpr hacc.cell_empty), if_neg (not_not.mpr hacc.turn_eq)]
    simp only [hover]
    exact ⟨trivial, trivial⟩
  · intro hover
    unfold boardAfter at hover
    obtain ⟨winnerId, hid⟩ := findWinnerId_isSome hacc.info_eq
    unfold makeMove
    simp only [hacc.room_eq, hacc.game_eq, hacc.info_eq]
    rw [if_neg (not_not.mpr hacc.cell_empty), if_neg (not_not.mpr hacc.turn_eq)]
    simp only [hover, hid]
    exact ⟨trivial, winnerId, rfl⟩

/-! ## The game between `H` and `G` is a run of the server -/

theorem reachable_roomsCreated : Reachable roomsCreated :=
  Reachable.step Reachable.init
    (Step.createRoom [] rndCount 1 0 1000 "H" "Host" (SettingsArg.object ⟨none, none, none⟩) _
      roomsCreated _ rfl)

theorem reachable_roomsStarted : Reachable roomsStarted :=
  Reachable.step reachable_roomsCreated (Step.joinRoom roomsCreated 2000 "G" "Guest" "ABCDEF")

theorem reachable_play {rooms : RoomStore} (h : Reachable rooms) (moves : List (ConnId × Int)) :
    Reachable (play rooms moves) := by
  unfold play
  induction moves generalizing rooms with
  | nil => exact h
  | cons m rest ih =>
    exact ih (Reachable.step h (Step.makeMove rooms 3000 m.1 "ABCDEF" m.2))

theorem gameOf_mapSet (rooms : RoomStore) (code : String) (room : Room) :
    gameOf (mapSet rooms code room) code = room.gameState := by
  simp [gameOf, getRoom, mapGet_mapSet_self]

/-! ## The move handler: claims -/

/-- C3 as stated fails: after `H` played cell 0 it is the turn of `G`; when
`H` sends cell 0 again the answer is `'Cell already taken'`, not `'Not your
turn'`. -/
theorem not_current_answered_cell_taken :
    Reachable roomsAfterFirstMove ∧
    (gameOf roomsAfterFirstMove "ABCDEF").map (fun g => g.currentPlayer) = some (some "G") ∧
    (makeMove 3000 "H" "ABCDEF" 0 roomsAfterFirstMove).response
      = Response.failure (Exception.error "Cell already taken") ∧
    (makeMove 3000 "H" "ABCDEF" 0 roomsAfterFirstMove).response
      ≠ Response.failure (Exception.error "Not your turn") :=
  ⟨reachable_play reachable_roomsStarted _, by decide, by decide, by decide⟩

/-- C3, amended. In a room with a started game a `makeMove` from a connection
that is not `gameState.currentPlayer` is rejected for every cell index, sends
no event and leaves the whole store unchanged; the answer is `'Not your turn'`
when `board[cellIndex]` reads `null` and `'Cell already taken'` otherwise,
since the cell is checked before the turn. -/
theorem makeMove_not_current (rooms : RoomStore) (now : Nat) (socketId : ConnId)
    (roomCode : String) (cellIndex : Int) (room : Room) (gameState : GameState)
    (hroom : getRoom rooms roomCode = some room) (hgame : room.gameState = some gameState)
    (hturn : gameState.currentPlayer ≠ some socketId) :
    (makeMove now socketId roomCode cellIndex rooms).rooms = rooms ∧
    (makeMove now socketId roomCode cellIndex rooms).events = [] ∧
    (boardGet gameState.board cellIndex = some none →
      (makeMove now socketId roomCode cellIndex rooms).response
        = Response.failure (Exception.error "Not your turn")) ∧
    (boardGet gameState.board cellIndex ≠ some none →
      (makeMove now socketId roomCode cellIndex rooms).response
        = Response.failure (Exception.error "Cell already taken")) := by
  by_cases hcell : boardGet gameState.board cellIndex = some none
  · rw [makeMove_of_not_turn now hroom hgame hcell hturn]
    exact ⟨rfl, rfl, fun _ => rfl, fun h => absurd hcell h⟩
  · rw [makeMove_of_cell_taken now socketId hroom hgame hcell]
    exact ⟨rfl, rfl, fun h => absurd h hcell, fun _ => rfl⟩

/-- C3, amended, at the start of the game: `G` sends the empty cell 0 while it
is the turn of `H`. -/
theorem makeMove_not_current_witness :
    (gameOf roomsStarted "ABCDEF").map (fun g => g.currentPlayer) = some (some "H") ∧
    (makeMove 3000 "G" "ABCDEF" 0 roomsStarted).rooms = roomsStarted ∧
    (makeMove 3000 "G" "ABCDEF" 0 roomsStarted).response
      = Response.failure (Exception.error "Not your turn") :=
  have h := makeMove_not_current roomsStarted 3000 "G" "ABCDEF" 0 _ _ rfl rfl (by decide)
  ⟨by decide, h.1, h.2.2.1 (by decide)⟩

/-- C4. In a room with a started game, a `makeMove` on a cell index whose
board slot holds X or O (an index in 0..8, the board having nine slots) is
answered `'Cell already taken'`, sends no event and leaves the whole store
unchanged, so the slot, `moveCount` and `currentPlayer` are as before. This
holds for the current player and for every other sender. -/
theorem makeMove_cell_taken (rooms : RoomStore) (now : Nat) (socketId : ConnId)
    (roomCode : String) (cellIndex : Int) (room : Room) (gameState : GameState) (s : Symbol)
    (hroom : getRoom rooms roomCode = some room) (hgame : room.gameState = some gameState)
    (hcell : boardGet gameState.board cellIndex = some (some s)) :
    (makeMove now socketId roomCode cellIndex rooms).response
      = Response.failure (Exception.error "Cell already taken") ∧
    (makeMove now socketId roomCode cellIndex rooms).events = [] ∧
    (makeMove now socketId roomCode cellIndex rooms).rooms = rooms ∧
    gameOf (makeMove now socketId roomCode cellIndex rooms).rooms roomCode = some gameState := by
  have hne : boardGet gameState.board cellIndex ≠ some none := by
    rw [hcell]
    simp
  rw [makeMove_of_cell_taken now socketId hroom hgame hne]
  refine ⟨rfl, rfl, rfl, ?_⟩
  simp [gameOf, hroom, hgame]

/-- C4, after `H` played cell 0: `G`, whose turn it is, sends cell 0; the
answer is `'Cell already taken'` and slot 0 still holds X. -/
theorem makeMove_cell_taken_witness :
    (makeMove 3000 "G" "ABCDEF" 0 roomsAfterFirstMove).response
      = Response.failure (Exception.error "Cell already taken") ∧
    (gameOf (makeMove 3000 "G" "ABCDEF" 0 roomsAfterFirstMove).rooms "ABCDEF").map
      (fun g => (boardGet g.board 0, g.moveCount, g.currentPlayer))
      = some (some (some Symbol.X), 1, some "G") :=
  have h := makeMove_cell_taken roomsAfterFirstMove 3000 "G" "ABCDEF" 0 _ _ Symbol.X rfl rfl
    (by decide)
  ⟨h.1, by rw [h.2.2.2]; decide⟩

/-- C5 as stated fails: at the start of the game `H`, whose turn it is, sends
the cell indices 9 and -1 and is answered `'Cell already taken'`, the very
answer given for an occupied cell; there is no separate out-of-range error. -/
theorem out_of_range_answered_cell_taken :
    (gameOf roomsStarted "ABCDEF").map (fun g => (g.currentPlayer, g.board.length))
      = some (some "H", 9) ∧
    (makeMove 3000 "H" "ABCDEF" 9 roomsStarted).response
      = Response.failure (Exception.error "Cell already taken") ∧
    (makeMove 3000 "H" "ABCDEF" (-1) roomsStarted).response
      = Response.failure (Exception.error "Cell already taken") ∧
    (makeMove 3000 "G" "ABCDEF" 9 roomsAfterFirstMove).response
      = (makeMove 3000 "G" "ABCDEF" 0 roomsAfterFirstMove).response :=
  ⟨by decide, by decide, by decide, by decide⟩

/-- C5, amended. In a room with a started game whose board has nine slots, a
`makeMove` with an integer cell index outside 0..8, sent by the current
player or by anyone else, is rejected with the answer `'Cell already taken'`,
the same as for an occupied cell, sends no event and leaves the whole store,
hence the game state, unchanged. -/
theorem makeMove_out_of_range (rooms : RoomStore) (now : Nat) (socketId : ConnId)
    (roomCode : String) (cellIndex : Int) (room : Room) (gameState : GameState)
    (hroom : getRoom rooms roomCode = some room) (hgame : room.gameState = some gameState)
    (hlen : gameState.board.length = 9)
    (hrange : cellIndex < 0 ∨ 8 < cellIndex) :
    (makeMove now socketId roomCode cellIndex rooms).response
      = Response.failure (Exception.error "Cell already taken") ∧
    (makeMove now socketId roomCode cellIndex rooms).events = [] ∧
    (makeMove now socketId roomCode cellIndex rooms).rooms = rooms ∧
    gameOf (makeMove now socketId roomCode cellIndex rooms).rooms roomCode = some gameState := by
  have hne : boardGet gameState.board cellIndex ≠ some none := by
    intro hget
    have := boardGet_nonneg hget
    omega
  rw [makeMove_of_cell_taken now socketId hroom hgame hne]
  refine ⟨rfl, rfl, rfl, ?_⟩
  simp [gameOf, hroom, hgame]

/-- C5, amended, at the start of the game: `H` sends cell index 9. -/
theorem makeMove_out_of_range_witness :
    (makeMove 3000 "H" "ABCDEF" 9 roomsStarted).response
      = Response.failure (Exception.error "Cell already taken") ∧
    (makeMove 3000 "H" "ABCDEF" 9 roomsStarted).rooms = roomsStarted :=
  have h := makeMove_out_of_range roomsStarted 3000 "H" "ABCDEF" 9 _ _ rfl rfl
    (by decide) (by decide)
  ⟨h.1, h.2.2.1⟩

/-- C6. After an accepted `makeMove` (the sender is the current player, the
addressed slot is empty) the addressed slot holds the symbol recorded for the
sender in `room.players`, every other slot reads as before, the board has as
many slots as before, `moveCount` is one greater, and every other room of
the store is as before. -/
theorem makeMove_accepted_effect (rooms : RoomStore) (now : Nat) (socketId : ConnId)
    (roomCode : String) (cellIndex : Int) (room : Room) (gameState : GameState) (info : PlayerInfo)
    (hacc : Accepted rooms socketId roomCode cellIndex room gameState info) :
    ∃ game1, gameOf (makeMove now socketId roomCode cellIndex rooms).rooms roomCode = some game1 ∧
      boardGet game1.board cellIndex = some (some info.symbol) ∧
      (∀ j, j ≠ cellIndex → boardGet game1.board j = boardGet gameState.board j) ∧
      game1.board.length = gameState.board.length ∧
      game1.moveCount = gameState.moveCount + 1 ∧
      ∀ code, code ≠ roomCode →
        getRoom (makeMove now socketId roomCode cellIndex rooms).rooms code = getRoom rooms code := by
  have hnonneg := (boardGet_nonneg hacc.cell_empty).1
  have hself : boardGet (boardAfter gameState cellIndex info) cellIndex = some (some info.symbol) :=
    boardGet_set_self _ hacc.cell_empty
  have hother : ∀ j, j ≠ cellIndex →
      boardGet (boardAfter gameState cellIndex info) j = boardGet gameState.board j :=
    fun j hj => boardGet_set_ne _ hnonneg hj
  have hlen : (boardAfter gameState cellIndex info).length = gameState.board.length := by
    simp [boardAfter]
  cases hw : checkWinner (boardAfter gameState cellIndex info) with
  | none =>
    rw [(makeMove_rooms_of_open now hacc hw).1]
    refine ⟨_, gameOf_mapSet _ _ _, hself, hother, hlen, rfl, ?_⟩
    intro code hcode
    exact mapGet_mapSet_ne rooms _ hcode
  | some winner =>
    rw [makeMove_rooms_of_over now hacc hw]
    refine ⟨_, gameOf_mapSet _ _ _, hself, hother, hlen, rfl, ?_⟩
    intro code hcode
    exact mapGet_mapSet_ne rooms _ hcode

/-- C6, at the start of the game: `H` plays cell 4. -/
theorem makeMove_accepted_effect_witness :
    (gameOf (makeMove 3000 "H" "ABCDEF" 4 roomsStarted).rooms "ABCDEF").map
      (fun g => (g.board, g.moveCount))
      = some ([none, none, none, none, some Symbol.X, none, none, none, none], 1) := by
  obtain ⟨game1, hgame1, -⟩ := makeMove_accepted_effect roomsStarted 3000 "H" "ABCDEF" 4 _ _ _
    ⟨rfl, rfl, by decide, by decide, rfl⟩
  decide

/-- C7. After an accepted `makeMove` on whose board `checkWinner` returns
`null`, `gameState.currentPlayer` is `room.player2` if the sender is
`room.player1` and `room.player1` otherwise, in particular if the sender is
`room.player2`; `status` and `winner` of the game state are as before, and so
are the two seats. -/
theorem makeMove_switches_turn (rooms : RoomStore) (now : Nat) (socketId : ConnId)
    (roomCode : String) (cellIndex : Int) (room : Room) (gameState : GameState) (info : PlayerInfo)
    (hacc : Accepted rooms socketId roomCode cellIndex room gameState info)
    (hopen : checkWinner (boardAfter gameState cellIndex info) = none) :
    ∃ room1 game1,
      getRoom (makeMove now socketId roomCode cellIndex rooms).rooms roomCode = some room1 ∧
      room1.gameState = some game1 ∧
      room1.player1 = room.player1 ∧ room1.player2 = room.player2 ∧
      game1.board = boardAfter gameState cellIndex info ∧
      (socketId = room.player1 → game1.currentPlayer = room.player2) ∧
      (socketId ≠ room.player1 → game1.currentPlayer = some room.player1) ∧
      (room.player2 = some socketId → game1.currentPlayer = some room.player1) ∧
      game1.status = gameState.status ∧ game1.winner = gameState.winner := by
  rw [(makeMove_rooms_of_open now hacc hopen).1]
  refine ⟨_, _, mapGet_mapSet_self _ _ _, rfl, rfl, rfl, rfl, ?_, ?_, ?_, rfl, rfl⟩
  · intro h
    simp [hacc.turn_eq, h]
  · intro h
    simp [hacc.turn_eq, h]
  · intro h2
    by_cases h : socketId = room.player1
    · simp [hacc.turn_eq, h, h2]
    · simp [hacc.turn_eq, h]

/-- C7, in the game of `H` and `G`: after `H` played cell 0 the turn is with
`G`, and after `G` then played cell 3 it is with `H` again. -/
theorem makeMove_switches_turn_witness :
    (gameOf (makeMove 3000 "H" "ABCDEF" 0 roomsStarted).rooms "ABCDEF").map
      (fun g => (g.currentPlayer, g.status, g.winner))
      = some (some "G", Status.active, none) ∧
    (gameOf (makeMove 3000 "G" "ABCDEF" 3 roomsAfterFirstMove).rooms "ABCDEF").map
      (fun g => (g.currentPlayer, g.status, g.winner))
      = some (some "H", Status.active, none) := by
  obtain ⟨room1, game1, h1, h2, -, -, -, h3, -⟩ :=
    makeMove_switches_turn roomsStarted 3000 "H" "ABCDEF" 0 _ _ _
      ⟨rfl, rfl, by decide, by decide, rfl⟩ (by decide)
  obtain ⟨room2, game2, k1, k2, -, -, -, -, -, k3, -⟩ :=
    makeMove_switches_turn roomsAfterFirstMove 3000 "G" "ABCDEF" 3 _ _ _
      ⟨rfl, rfl, by decide, by decide, rfl⟩ (by decide)
  exact ⟨by decide, by decide⟩

/-- C8. In every reachable store, an accepted `makeMove` after which some
triple of the board is uniform ends the game: the answer is a success,
`gameState.winner` is the symbol recorded for the sender and
`gameState.status` is `'finished'`; and an accepted `makeMove` after which no
triple is uniform and all nine cells are filled sets `winner` to `'draw'` and
`status` to `'finished'`. -/
theorem makeMove_terminal (rooms : RoomStore) (hreach : Reachable rooms) (now : Nat)
    (socketId : ConnId) (roomCode : String) (cellIndex : Int) (room : Room)
    (gameState : GameState) (info : PlayerInfo)
    (hacc : Accepted rooms socketId roomCode cellIndex room gameState info) :
    (HasLine (boardAfter gameState cellIndex info) →
      (makeMove now socketId roomCode cellIndex rooms).response = Response.success ∧
      ∃ game1, gameOf (makeMove now socketId roomCode cellIndex rooms).rooms roomCode = some game1 ∧
        game1.board = boardAfter gameState cellIndex info ∧
        game1.winner = some (Outcome.symbol info.symbol) ∧
        game1.status = Status.finished) ∧
    (¬ HasLine (boardAfter gameState cellIndex info) →
      (∀ i, i < 9 → (boardAfter gameState cellIndex info)[i]? ≠ some none) →
      (makeMove now socketId roomCode cellIndex rooms).response = Response.success ∧
      ∃ game1, gameOf (makeMove now socketId roomCode cellIndex rooms).rooms roomCode = some game1 ∧
        game1.board = boardAfter gameState cellIndex info ∧
        game1.winner = some Outcome.draw ∧
        game1.status = Status.finished) := by
  have hinv := roomInv_of_mapGet (storeInv_of_reachable hreach) hacc.room_eq
  have hlen : (boardAfter gameState cellIndex info).length = 9 := by
    simp [boardAfter, (hinv gameState hacc.game_eq).1]
  constructor
  · intro hline
    obtain ⟨t, ht⟩ := checkPatterns_isSome_iff.mpr hline
    obtain ⟨pre, p, post, heq, hu, -⟩ := (checkPatterns_eq_some winPatterns).mp ht
    have hp : p ∈ winPatterns := by
      rw [heq]
      simp
    have hsym : t = info.symbol := uniform_boardAfter hacc hinv hp hu
    subst hsym
    have hw : checkWinner (boardAfter gameState cellIndex info)
        = some (Outcome.symbol info.symbol) := by
      unfold checkWinner
      rw [ht]
    refine ⟨((makeMove_response_of_over now hacc).2 hw).1, ?_⟩
    rw [makeMove_rooms_of_over now hacc hw]
    exact ⟨_, gameOf_mapSet _ _ _, rfl, rfl, rfl⟩
  · intro hline hfull
    have hw : checkWinner (boardAfter gameState cellIndex info) = some Outcome.draw := by
      unfold checkWinner
      rw [checkPatterns_none_iff.mpr hline]
      simp only
      rw [if_pos ((all_filled_iff hlen).mpr hfull)]
    refine ⟨((makeMove_response_of_over now hacc).1 hw).1, ?_⟩
    rw [makeMove_rooms_of_over now hacc hw]
    exact ⟨_, gameOf_mapSet _ _ _, rfl, rfl, rfl⟩

/-- C8, in the game of `H` and `G`: after `H` 0, `G` 3, `H` 1, `G` 4 the move
`H` 2 completes the top row, the winner is X and the game is finished; and
after `H` 0, `G` 1, `H` 2, `G` 4, `H` 3, `G` 5, `H` 7, `G` 6 the move `H` 8
fills the board without a uniform triple, the winner is `'draw'`. -/
theorem makeMove_terminal_witness :
    (gameOf (makeMove 3000 "H" "ABCDEF" 2 roomsBeforeWin).rooms "ABCDEF").map
      (fun g => (g.winner, g.status))
      = some (some (Outcome.symbol Symbol.X), Status.finished) ∧
    (gameOf (makeMove 3000 "H" "ABCDEF" 8 roomsBeforeDraw).rooms "ABCDEF").map
      (fun g => (g.board, g.winner, g.status))
      = some (drawBoard, some Outcome.draw, Status.finished) := by
  obtain ⟨-, g1, h1, -, h2, h3⟩ :=
    (makeMove_terminal roomsBeforeWin (reachable_play reachable_roomsStarted _) 3000
      "H" "ABCDEF" 2 _ _ _ ⟨rfl, rfl, by decide, by decide, rfl⟩).1
      ⟨(0, 1, 2), by decide, Symbol.X, by decide⟩
  obtain ⟨-, g2, k1, k2, k3, k4⟩ :=
    (makeMove_terminal roomsBeforeDraw (reachable_play reachable_roomsStarted _) 3000
      "H" "ABCDEF" 8 _ _ _ ⟨rfl, rfl, by decide, by decide, rfl⟩).2
      (checkPatterns_none_iff.mp (by decide)) (by decide)
  constructor
  · rw [h1, Option.map_some', h2, h3]
  · decide

/-- C9, the code at the failing input: after `H` won with the top row the game
state has `winner` X and `status` `'finished'`, cell 5 is empty and `H` is
still the current player; the next `makeMove` of `H` on cell 5 is answered
with a success, writes X into slot 5 and raises `moveCount` to 6. -/
theorem makeMove_accepted_after_win :
    Reachable roomsAfterWin ∧
    (gameOf roomsAfterWin "ABCDEF").map (fun g => (g.winner, g.status))
      = some (some (Outcome.symbol Symbol.X), Status.finished) ∧
    (gameOf roomsAfterWin "ABCDEF").map (fun g => (g.currentPlayer, boardGet g.board 5, g.moveCount))
      = some (some "H", some none, 5) ∧
    (makeMove 3000 "H" "ABCDEF" 5 roomsAfterWin).response = Response.success ∧
    (gameOf (makeMove 3000 "H" "ABCDEF" 5 roomsAfterWin).rooms "ABCDEF").map
      (fun g => (boardGet g.board 5, g.moveCount))
      = some (some (some Symbol.X), 6) :=
  ⟨reachable_play reachable_roomsStarted _, by decide, by decide, by decide, by decide⟩

/-- C10, the code on every input: `makeMove` never writes `room.status`; the
room stored under the code has the status it had before, whatever the move
did to the game state. -/
theorem makeMove_keeps_room_status (rooms : RoomStore) (now : Nat) (socketId : ConnId)
    (roomCode : String) (cellIndex : Int) (room : Room)
    (hroom : getRoom rooms roomCode = some room) :
    ∃ room1, getRoom (makeMove now socketId roomCode cellIndex rooms).rooms roomCode = some room1 ∧
      room1.status = room.status := by
  rcases makeMove_rooms_eq_or_accepted rooms now socketId roomCode cellIndex with hsame | hacc
  · rw [hsame]
    exact ⟨room, hroom, rfl⟩
  · obtain ⟨room0, gameState, info, hacc⟩ := hacc
    have hr : room0 = room := by
      have := hacc.room_eq
      rw [hroom] at this
      exact (Option.some.inj this).symm
    subst hr
    cases hw : checkWinner (boardAfter gameState cellIndex info) with
    | none =>
      rw [(makeMove_rooms_of_open now hacc hw).1]
      exact ⟨_, mapGet_mapSet_self _ _ _, rfl⟩
    | some winner =>
      rw [makeMove_rooms_of_over now hacc hw]
      exact ⟨_, mapGet_mapSet_self _ _ _, rfl⟩

/-- C10, the code at the failing input: after the winning move `H` 2 the
status of the game state is `'finished'` and the status of the room is still
`'active'`. -/
theorem makeMove_keeps_room_status_witness :
    (getRoom roomsBeforeWin "ABCDEF").map (fun r => r.status) = some Status.active ∧
    (getRoom (makeMove 3000 "H" "ABCDEF" 2 roomsBeforeWin).rooms "ABCDEF").map
      (fun r => (r.status, r.gameState.map (fun g => (g.status, g.winner))))
      = some (Status.active, some (Status.finished, some (Outcome.symbol Symbol.X))) := by
  obtain ⟨room1, h1, h2⟩ :=
    makeMove_keeps_room_status roomsBeforeWin 3000 "H" "ABCDEF" 2 _ rfl
  exact ⟨by decide, by decide⟩

/-! ## More lemmas about the maps -/

theorem keys_mapSet_of_has {α : Type} {m : List (String × α)} {key : String} (value : α)
    (h : mapHas m key = true) :
    (mapSet m key value).map (fun e => e.1) = m.map (fun e => e.1) := by
  unfold mapSet
  rw [if_pos h, List.map_map]
  apply List.map_congr_left
  intro e _
  by_cases he : e.1 = key
  · simp [he]
  · simp [he]

theorem mapSet_of_not_has {α : Type} {m : List (String × α)} {key : String} (value : α)
    (h : mapHas m key = false) : mapSet m key value = m ++ [(key, value)] := by
  unfold mapSet
  rw [if_neg (by simp [h])]

theorem mapHas_of_get {α : Type} {m : List (String × α)} {key : String} {value : α}
    (h : mapGet m key = some value) : mapHas m key = true := by
  simp [mapHas, h]

theorem mapGet_eq_none_of_not_has {α : Type} {m : List (String × α)} {key : String}
    (h : mapHas m key = false) : mapGet m key = none := by
  unfold mapHas at h
  cases hg : mapGet m key with
  | none => rfl
  | some v => simp [hg] at h

/-- A key that `map.has` does not find is the key of no entry. -/
theorem not_mem_keys_of_not_has {α : Type} {m : List (String × α)} {key : String}
    (h : mapHas m key = false) : key ∉ m.map (fun e => e.1) := by
  intro hmem
  have hnone := mapGet_eq_none_of_not_has h
  unfold mapGet at hnone
  induction m with
  | nil => cases hmem
  | cons e rest ih =>
    obtain ⟨k, v⟩ := e
    by_cases hk : key = k
    · subst hk
      simp [List.lookup] at hnone
    · have hne : (key == k) = false := by simpa using hk
      simp only [List.lookup_cons, hne] at hnone
      simp only [List.map_cons, List.mem_cons] at hmem
      rcases hmem with hmem | hmem
      · exact hk hmem
      · exact ih (by simp [mapHas, mapGet, hnone]) hmem hnone

/-- The handler never adds or removes a key of the store. -/
theorem keys_makeMove (rooms : RoomStore) (now : Nat) (socketId : ConnId) (roomCode : String)
    (cellIndex : Int) :
    (makeMove now socketId roomCode cellIndex rooms).rooms.map (fun e => e.1)
      = rooms.map (fun e => e.1) := by
  rcases makeMove_rooms_eq_or_accepted rooms now socketId roomCode cellIndex with hsame | hacc
  · rw [hsame]
  · obtain ⟨room, gameState, info, hacc⟩ := hacc
    have hhas : mapHas rooms roomCode = true := mapHas_of_get hacc.room_eq
    cases hw : checkWinner (boardAfter gameState cellIndex info) with
    | none =>
      rw [(makeMove_rooms_of_open now hacc hw).1]
      exact keys_mapSet_of_has _ hhas
    | some winner =>
      rw [makeMove_rooms_of_over now hacc hw]
      exact keys_mapSet_of_has _ hhas

/-- Whether a key is found depends on the list of keys only. -/
theorem isSome_mapGet_iff_mem_keys {α : Type} (m : List (String × α)) (key : String) :
    (mapGet m key).isSome = true ↔ key ∈ m.map (fun e => e.1) := by
  constructor
  · intro h
    cases hg : mapGet m key with
    | none => simp [hg] at h
    | some v => exact List.mem_map.mpr ⟨(key, v), mapGet_mem hg, rfl⟩
  · intro h
    by_contra hnot
    have hhas : mapHas m key = false := by
      unfold mapHas
      simpa using hnot
    exact not_mem_keys_of_not_has hhas h

/-- A `gameOver` event is only sent together with a finished game state. -/
theorem finished_of_gameOver {rooms : RoomStore} {now : Nat} {socketId : ConnId}
    {roomCode : String} {cellIndex : Int} {code : String} {data : WinnerData}
    (h : Event.gameOver code data ∈ (makeMove now socketId roomCode cellIndex rooms).events) :
    ∃ game1, gameOf (makeMove now socketId roomCode cellIndex rooms).rooms roomCode = some game1 ∧
      game1.status = Status.finished ∧ game1.winner ≠ none := by
  cases hroom : getRoom rooms roomCode with
  | none =>
    unfold makeMove at h
    simp [hroom] at h
  | some room =>
    cases hgame : room.gameState with
    | none =>
      unfold makeMove at h
      simp [hroom, hgame] at h
    | some gameState =>
      by_cases hcell : boardGet gameState.board cellIndex = some none
      · by_cases hturn : gameState.currentPlayer = some socketId
        · cases hinfo : mapGet room.players socketId with
          | none =>
            unfold makeMove at h
            simp only [hroom, hgame, hinfo] at h
            rw [if_neg (not_not.mpr hcell), if_neg (not_not.mpr hturn)] at h
            simp at h
          | some info =>
            have hacc : Accepted rooms socketId roomCode cellIndex room gameState info :=
              ⟨hroom, hgame, hcell, hturn, hinfo⟩
            cases hw : checkWinner (boardAfter gameState cellIndex info) with
            | none =>
              exfalso
              have hw1 := hw
              unfold boardAfter at hw1
              unfold makeMove at h
              simp only [hroom, hgame, hinfo] at h
              rw [if_neg (not_not.mpr hcell), if_neg (not_not.mpr hturn)] at h
              simp [hw1] at h
            | some winner =>
              rw [makeMove_rooms_of_over now hacc hw]
              exact ⟨_, gameOf_mapSet _ _ _, rfl, by simp⟩
        · rw [makeMove_of_not_turn now hroom hgame hcell hturn] at h
          simp at h
      · rw [makeMove_of_cell_taken now socketId hroom hgame hcell] at h
        simp at h

/-! ## Rooms that stay: claims -/

/-- C11 as stated fails: after `H` 0, `G` 3, `H` 1, `G` 4 the winning move
`H` 2 is answered with a success and sends `gameOver`, and the room is still
stored under its code, its game state finished. -/
theorem room_stored_after_gameOver :
    Reachable roomsBeforeWin ∧
    (makeMove 3000 "H" "ABCDEF" 2 roomsBeforeWin).events
      = [Event.gameOver "ABCDEF" (WinnerData.win Symbol.X "H")] ∧
    (getRoom (makeMove 3000 "H" "ABCDEF" 2 roomsBeforeWin).rooms "ABCDEF").isSome = true ∧
    (makeMove 3000 "H" "ABCDEF" 2 roomsBeforeWin).rooms.length = 1 :=
  ⟨reachable_play reachable_roomsStarted _, by decide, by decide, by decide⟩

/-- C11, amended. The `makeMove` handler never removes a room: the store has
the same codes in the same order after it as before, so `getRoom` finds a
room after it exactly when it found one before; and whenever the handler
sent `gameOver`, the room of the move is still stored, with a game state
whose status is `'finished'` and whose winner is set. -/
theorem makeMove_keeps_rooms (rooms : RoomStore) (now : Nat) (socketId : ConnId)
    (roomCode : String) (cellIndex : Int) :
    (makeMove now socketId roomCode cellIndex rooms).rooms.map (fun e => e.1)
      = rooms.map (fun e => e.1) ∧
    (∀ code, (getRoom (makeMove now socketId roomCode cellIndex rooms).rooms code).isSome
      = (getRoom rooms code).isSome) ∧
    (∀ data, Event.gameOver roomCode data ∈ (makeMove now socketId roomCode cellIndex rooms).events →
      ∃ room1 game1,
        getRoom (makeMove now socketId roomCode cellIndex rooms).rooms roomCode = some room1 ∧
        room1.gameState = some game1 ∧ game1.status = Status.finished ∧ game1.winner ≠ none) := by
  have hkeys := keys_makeMove rooms now socketId roomCode cellIndex
  refine ⟨hkeys, ?_, ?_⟩
  · intro code
    rw [Bool.eq_iff_iff]
    unfold getRoom
    rw [isSome_mapGet_iff_mem_keys, isSome_mapGet_iff_mem_keys, hkeys]
  · intro data hdata
    obtain ⟨game1, hgame1, hstatus, hwinner⟩ := finished_of_gameOver hdata
    unfold gameOf at hgame1
    cases hroom1 : getRoom (makeMove now socketId roomCode cellIndex rooms).rooms roomCode with
    | none => simp [hroom1] at hgame1
    | some room1 =>
      rw [hroom1] at hgame1
      exact ⟨room1, game1, rfl, hgame1, hstatus, hwinner⟩

/-- C11, amended, at the winning move `H` 2: `gameOver` was sent and the room
is still stored. -/
theorem makeMove_keeps_rooms_witness :
    Event.gameOver "ABCDEF" (WinnerData.win Symbol.X "H")
      ∈ (makeMove 3000 "H" "ABCDEF" 2 roomsBeforeWin).events ∧
    ∃ room1, getRoom (makeMove 3000 "H" "ABCDEF" 2 roomsBeforeWin).rooms "ABCDEF" = some room1 := by
  have hev : Event.gameOver "ABCDEF" (WinnerData.win Symbol.X "H")
      ∈ (makeMove 3000 "H" "ABCDEF" 2 roomsBeforeWin).events := by decide
  obtain ⟨room1, _, h1, -⟩ :=
    (makeMove_keeps_rooms roomsBeforeWin 3000 "H" "ABCDEF" 2).2.2 _ hev
  exact ⟨hev, room1, h1⟩

/-! ## The room manager: claims -/

/-- C12. `joinRoom(code, playerId, username)` throws `'Room not found'` exactly
when no room is stored under the code and `'Room is full'` exactly when the
room is there and its `player2` is set (a non-empty connection id); a throw
comes before any write, so the handler that catches it keeps the store as it
was. Otherwise the call returns the stored room with `player2 = playerId` and
an entry for the joiner with symbol O in `players`, every other field, every
other entry of `players` and every other room as before. -/
theorem joinRoom_spec (rooms : RoomStore) (code : String) (playerId : ConnId) (username : String) :
    (joinRoom rooms code playerId username = Except.error (Exception.error "Room not found") ↔
      getRoom rooms code = none) ∧
    (joinRoom rooms code playerId username = Except.error (Exception.error "Room is full") ↔
      ∃ room, getRoom rooms code = some room ∧ ∃ id, room.player2 = some id ∧ id ≠ "") ∧
    (∀ e now, joinRoom rooms code playerId username = Except.error e →
      joinRoomHandler rooms now playerId username code = (rooms, Response.failure e)) ∧
    (∀ room, getRoom rooms code = some room → (¬ ∃ id, room.player2 = some id ∧ id ≠ "") →
      ∃ room1 rooms1, joinRoom rooms code playerId username = Except.ok (room1, rooms1) ∧
        room1 = { room with
          player2 := some playerId
          players := mapSet room.players playerId
            { id := playerId, username := username, symbol := Symbol.O, ready := true } } ∧
        mapGet room1.players playerId
          = some { id := playerId, username := username, symbol := Symbol.O, ready := true } ∧
        (∀ other, other ≠ playerId → mapGet room1.players other = mapGet room.players other) ∧
        getRoom rooms1 code = some room1 ∧
        (∀ other, other ≠ code → getRoom rooms1 other = getRoom rooms other) ∧
        rooms1.map (fun e => e.1) = rooms.map (fun e => e.1)) := by
  have htruthy : ∀ room : Room, truthy room.player2 = true ↔ ∃ id, room.player2 = some id ∧ id ≠ "" := by
    intro room
    cases room.player2 with
    | none => simp [truthy]
    | some id => simp [truthy]
  refine ⟨?_, ?_, ?_, ?_⟩
  · unfold joinRoom getRoom
    cases hroom : mapGet rooms code with
    | none => simp
    | some room =>
      simp only
      split <;> simp
  · unfold joinRoom getRoom
    cases hroom : mapGet rooms code with
    | none => simp
    | some room =>
      simp only
      by_cases hfull : truthy room.player2 = true
      · rw [if_pos hfull]
        simp only [true_iff]
        exact ⟨room, rfl, (htruthy room).mp hfull⟩
      · rw [if_neg hfull]
        simp only [reduceCtorEq, false_iff]
        rintro ⟨room0, h0, hset⟩
        cases h0
        exact hfull ((htruthy room).mpr hset)
  · intro e now he
    unfold joinRoomHandler
    rw [he]
  · intro room hroom hfree
    have hfree1 : ¬ truthy room.player2 = true := fun h => hfree ((htruthy room).mp h)
    unfold getRoom at hroom
    refine ⟨{ room with
        player2 := some playerId
        players := mapSet room.players playerId
          { id := playerId, username := username, symbol := Symbol.O, ready := true } },
      mapSet rooms code { room with
        player2 := some playerId
        players := mapSet room.players playerId
          { id := playerId, username := username, symbol := Symbol.O, ready := true } },
      ?_, rfl, ?_, ?_, ?_, ?_, ?_⟩
    · unfold joinRoom
      simp only [hroom]
      rw [if_neg hfree1]
    · exact mapGet_mapSet_self _ _ _
    · intro other hother
      exact mapGet_mapSet_ne _ _ hother
    · exact mapGet_mapSet_self _ _ _
    · intro other hother
      exact mapGet_mapSet_ne _ _ hother
    · exact keys_mapSet_of_has _ (mapHas_of_get hroom)

/-- C12, in the room that `H` created: `G` joins and is seated as O; a join
under an unknown code and a second join are refused. -/
theorem joinRoom_spec_witness :
    (∃ room1 rooms1, joinRoom roomsCreated "ABCDEF" "G" "Guest" = Except.ok (room1, rooms1) ∧
      room1.player2 = some "G" ∧
      mapGet room1.players "G"
        = some { id := "G", username := "Guest", symbol := Symbol.O, ready := true }) ∧
    joinRoom roomsCreated "ZZZZZZ" "G" "Guest" = Except.error (Exception.error "Room not found") ∧
    joinRoom roomsStarted "ABCDEF" "K" "Third" = Except.error (Exception.error "Room is full") := by
  obtain ⟨room1, rooms1, h1, h2, h3, -⟩ :=
    (joinRoom_spec roomsCreated "ABCDEF" "G" "Guest").2.2.2 _ rfl (by decide)
  refine ⟨⟨room1, rooms1, h1, ?_, h3⟩, ?_, ?_⟩
  · rw [h2]
  · exact (joinRoom_spec roomsCreated "ZZZZZZ" "G" "Guest").1.mpr (by decide)
  · exact (joinRoom_spec roomsStarted "ABCDEF" "K" "Third").2.1.mpr ⟨_, rfl, "G", rfl, by decide⟩

theorem mapSet_mapSet {α : Type} {m : List (String × α)} {key : String} (v1 v2 : α)
    (h : mapHas m key = true) : mapSet (mapSet m key v1) key v2 = mapSet m key v2 := by
  have h1 : mapHas (mapSet m key v1) key = true := by
    simp [mapHas, mapGet_mapSet_self]
  have e1 : mapSet m key v1 = m.map (fun e => if e.1 = key then (key, v1) else e) := by
    unfold mapSet
    rw [if_pos h]
  have e2 : mapSet m key v2 = m.map (fun e => if e.1 = key then (key, v2) else e) := by
    unfold mapSet
    rw [if_pos h]
  have e3 : mapSet (mapSet m key v1) key v2
      = (mapSet m key v1).map (fun e => if e.1 = key then (key, v2) else e) := by
    generalize mapSet m key v1 = m1 at h1
    unfold mapSet
    rw [if_pos h1]
  rw [e3, e2, e1, List.map_map]
  apply List.map_congr_left
  intro e _
  by_cases he : e.1 = key
  · simp [he]
  · simp [he]

/-- C13, the code at the failing input: `H` creates a room and then calls
`joinRoom` with the code of that room and its own connection id. The call
succeeds; afterwards `player1` and `player2` are both `H` and the only entry
of `players`, that of `H`, has symbol O, so the seat invariant fails for the
creator. The same holds after the `joinRoom` handler, which also starts the
game. -/
theorem self_join_breaks_seats :
    (getRoom roomsCreated "ABCDEF").map (fun r => (r.player1, r.player2)) = some ("H", none) ∧
    (∃ room1, joinRoom roomsCreated "ABCDEF" "H" "Host" = Except.ok (room1, roomsSelfJoined)) ∧
    (getRoom roomsSelfJoined "ABCDEF").map
      (fun r => (r.player1, r.player2, (mapGet r.players r.player1).map (fun info => info.symbol)))
      = some ("H", some "H", some Symbol.O) ∧
    (∀ room, getRoom roomsSelfJoined "ABCDEF" = some room → ¬ SeatInv room) ∧
    Reachable (joinRoomHandler roomsCreated 2000 "H" "Host" "ABCDEF").1 ∧
    (getRoom (joinRoomHandler roomsCreated 2000 "H" "Host" "ABCDEF").1 "ABCDEF").map
      (fun r => (r.player1, r.player2, (mapGet r.players r.player1).map (fun info => info.symbol)))
      = some ("H", some "H", some Symbol.O) := by
  refine ⟨by decide, ⟨_, rfl⟩, by decide, ?_, ?_, by decide⟩
  · intro room hroom hseat
    have h1 : getRoom roomsSelfJoined "ABCDEF" = some _ := rfl
    rw [h1] at hroom
    cases hroom
    have := hseat.1
    revert this
    decide
  · exact Reachable.step reachable_roomsCreated (Step.joinRoom roomsCreated 2000 "H" "Host" "ABCDEF")

/-- C14. `startGame(code)` throws `'Room not found'` when no room is stored
under the code and `'Not enough players'` when `player1` or `player2` is empty
(`null` or the empty string), and the store is then as before. Otherwise,
whatever the room's status and game state were, the room stored afterwards is
the room before with `status = 'active'` and a fresh game state: nine empty
slots, `currentPlayer = player1`, `moveCount = 0`, status `'active'`, winner
`null`, `timeLeft = settings.timeLimit` if `settings.timerEnabled` and `null`
otherwise; every other room is as before; and a second call gives what a
single call at the time of the second gives. -/
theorem startGame_spec (rooms : RoomStore) (now : Nat) (code : String) :
    (getRoom rooms code = none →
      startGame rooms now code = Except.error (Exception.error "Room not found") ∧
      storeAfterStart rooms now code = rooms) ∧
    (∀ room, getRoom rooms code = some room →
      (room.player1 = "" ∨ room.player2 = none ∨ room.player2 = some "") →
      startGame rooms now code = Except.error (Exception.error "Not enough players") ∧
      storeAfterStart rooms now code = rooms) ∧
    (∀ room, getRoom rooms code = some room →
      ¬ (room.player1 = "" ∨ room.player2 = none ∨ room.player2 = some "") →
      ∃ game rooms1, startGame rooms now code = Except.ok (game, rooms1) ∧
        game =
          { board := [none, none, none, none, none, none, none, none, none]
            currentPlayer := some room.player1
            moveCount := 0
            timeLeft := if room.settings.timerEnabled then some room.settings.timeLimit else none
            startTime := now
            lastMoveTime := now
            status := Status.active
            winner := none } ∧
        getRoom rooms1 code = some { room with status := Status.active, gameState := some game } ∧
        (∀ other, other ≠ code → getRoom rooms1 other = getRoom rooms other) ∧
        rooms1.map (fun e => e.1) = rooms.map (fun e => e.1) ∧
        (∀ now2, startGame rooms1 now2 code = startGame rooms now2 code) ∧
        startGame rooms1 now code = Except.ok (game, rooms1)) := by
  have hseats : ∀ room : Room,
      (!truthy (some room.player1) || !truthy room.player2) = true ↔
        (room.player1 = "" ∨ room.player2 = none ∨ room.player2 = some "") := by
    intro room
    cases room.player2 with
    | none => simp [truthy]
    | some id => simp [truthy]
  refine ⟨?_, ?_, ?_⟩
  · intro hnone
    unfold getRoom at hnone
    have h : startGame rooms now code = Except.error (Exception.error "Room not found") := by
      unfold startGame
      simp only [hnone]
    refine ⟨h, ?_⟩
    unfold storeAfterStart
    rw [h]
  · intro room hroom hempty
    unfold getRoom at hroom
    have h : startGame rooms now code = Except.error (Exception.error "Not enough players") := by
      unfold startGame
      simp only [hroom]
      rw [if_pos ((hseats room).mpr hempty)]
    refine ⟨h, ?_⟩
    unfold storeAfterStart
    rw [h]
  · intro room hroom hfull
    unfold getRoom at hroom
    have hfull1 : ¬ (!truthy (some room.player1) || !truthy room.player2) = true :=
      fun h => hfull ((hseats room).mp h)
    have hstart : ∀ (store : RoomStore) (base : Room) (time : Nat),
        mapGet store code = some base → base.player1 = room.player1 →
        base.player2 = room.player2 →
        startGame store time code = Except.ok
          ({ board := List.replicate 9 none
             currentPlayer := some base.player1
             moveCount := 0
             timeLeft := if base.settings.timerEnabled then some base.settings.timeLimit else none
             startTime := time
             lastMoveTime := time
             status := Status.active
             winner := none },
           mapSet store code
            { base with
              status := Status.active
              gameState := some
                { board := List.replicate 9 none
                  currentPlayer := some base.player1
                  moveCount := 0
                  timeLeft :=
                    if base.settings.timerEnabled then some base.settings.timeLimit else none
                  startTime := time
                  lastMoveTime := time
                  status := Status.active
                  winner := none } }) := by
      intro store base time hbase hp1 hp2
      unfold startGame
      simp only [hbase]
      rw [if_neg (by rw [hp1, hp2]; exact hfull1)]
    have hhas : mapHas rooms code = true := mapHas_of_get hroom
    have hsecond : ∀ (game : GameState) (time : Nat),
        startGame (mapSet rooms code { room with status := Status.active, gameState := some game })
          time code = startGame rooms time code := by
      intro game time
      rw [hstart (mapSet rooms code { room with status := Status.active, gameState := some game })
          { room with status := Status.active, gameState := some game } time
          (mapGet_mapSet_self _ _ _) rfl rfl,
        hstart rooms room time hroom rfl rfl, mapSet_mapSet _ _ hhas]
    refine ⟨_, _, hstart rooms room now hroom rfl rfl, rfl, mapGet_mapSet_self _ _ _, ?_,
      keys_mapSet_of_has _ hhas, ?_, ?_⟩
    · intro other hother
      exact mapGet_mapSet_ne _ _ hother
    · intro now2
      exact hsecond _ now2
    · exact (hsecond _ now).trans (hstart rooms room now hroom rfl rfl)

/-- C14, in the game of `H` and `G`: after `H` won, `startGame` installs a
fresh game state, and calling it again changes nothing; in the room that only
`H` is in, it throws `'Not enough players'`. -/
theorem startGame_spec_witness :
    (∃ rooms1 game, startGame roomsAfterWin 4000 "ABCDEF" = Except.ok (game, rooms1) ∧
      game.board = emptyBoard ∧ game.currentPlayer = some "H" ∧ game.winner = none ∧
      startGame rooms1 4000 "ABCDEF" = Except.ok (game, rooms1)) ∧
    startGame roomsCreated 4000 "ABCDEF" = Except.error (Exception.error "Not enough players") ∧
    startGame roomsCreated 4000 "ZZZZZZ" = Except.error (Exception.error "Room not found") := by
  obtain ⟨game, rooms1, h1, h2, -, -, -, -, h3⟩ :=
    (startGame_spec roomsAfterWin 4000 "ABCDEF").2.2 _ rfl (by decide)
  refine ⟨⟨rooms1, game, h1, ?_, ?_, ?_, h3⟩, ?_, ?_⟩
  · rw [h2]
    rfl
  · rw [h2]
  · rw [h2]
  · exact ((startGame_spec roomsCreated 4000 "ABCDEF").2.1 _ rfl (by decide)).1
  · exact ((startGame_spec roomsCreated 4000 "ZZZZZZ").1 (by decide)).1

/-- C15, the code on every input: an accepted `makeMove` on whose board
`checkWinner` returns `null`, in a room whose `settings.timerEnabled` is true,
sets `gameState.timeLeft` to the constant 60, whatever `settings.timeLimit`
is. -/
theorem makeMove_resets_timer (rooms : RoomStore) (now : Nat) (socketId : ConnId)
    (roomCode : String) (cellIndex : Int) (room : Room) (gameState : GameState) (info : PlayerInfo)
    (hacc : Accepted rooms socketId roomCode cellIndex room gameState info)
    (hopen : checkWinner (boardAfter gameState cellIndex info) = none)
    (htimer : room.settings.timerEnabled = true) :
    ∃ game1, gameOf (makeMove now socketId roomCode cellIndex rooms).rooms roomCode = some game1 ∧
      game1.timeLeft = some 60 := by
  rw [(makeMove_rooms_of_open now hacc hopen).1]
  refine ⟨_, gameOf_mapSet _ _ _, ?_⟩
  simp [htimer]

/-- C15, the code at the failing input: in the room that `H` created with
`timeLimit: 30`, `startGame` seeded `timeLeft` with 30; after the first move,
`H` on cell 0, `timeLeft` is 60 and `settings.timeLimit` is still 30. -/
theorem makeMove_resets_timer_witness :
    (getRoom roomsShortTimer "ABCDEF").map
      (fun r => (r.settings.timerEnabled, r.settings.timeLimit)) = some (true, 30) ∧
    (gameOf roomsShortTimer "ABCDEF").map (fun g => g.timeLeft) = some (some 30) ∧
    (makeMove 3000 "H" "ABCDEF" 0 roomsShortTimer).response = Response.success ∧
    (gameOf (makeMove 3000 "H" "ABCDEF" 0 roomsShortTimer).rooms "ABCDEF").map
      (fun g => g.timeLeft) = some (some 60) := by
  obtain ⟨game1, h1, h2⟩ := makeMove_resets_timer roomsShortTimer 3000 "H" "ABCDEF" 0 _ _ _
    ⟨rfl, rfl, by decide, by decide, rfl⟩ (by decide) (by decide)
  refine ⟨by decide, by decide, by decide, ?_⟩
  rw [h1, Option.map_some', h2]

/-! ## Lemmas about room codes -/

theorem chars_getD_mem (i : Fin 36) : chars.getD i.val 'A' ∈ chars := by
  revert i
  decide

theorem chars_upper_or_digit : ∀ c ∈ chars, (c.isUpper || c.isDigit) = true := by
  decide

theorem drawCode_length (rnd : Nat → Fin 36) (pos : Nat) : (drawCode rnd pos).length = 6 := by
  unfold drawCode
  simp [String.length]

theorem drawCode_chars (rnd : Nat → Fin 36) (pos : Nat) :
    ∀ c ∈ (drawCode rnd pos).toList, c ∈ chars := by
  intro c hc
  unfold drawCode at hc
  simp only [String.toList, List.mem_map] at hc
  obtain ⟨i, -, rfl⟩ := hc
  exact chars_getD_mem _

/-- What `generateRoomCode` returns is the code of the first pass whose code
is not a key of the store. -/
theorem generateRoomCode_eq_some {rooms : RoomStore} {rnd : Nat → Fin 36} {fuel pos : Nat}
    {code : String} {pos1 : Nat}
    (h : generateRoomCode rooms rnd fuel pos = some (code, pos1)) :
    ∃ k, k < fuel ∧ code = drawCode rnd (pos + 6 * k) ∧ pos1 = pos + 6 * (k + 1) ∧
      mapHas rooms code = false ∧
      ∀ j, j < k → mapHas rooms (drawCode rnd (pos + 6 * j)) = true := by
  induction fuel generalizing pos with
  | zero => simp [generateRoomCode] at h
  | succ fuel ih =>
    unfold generateRoomCode at h
    simp only at h
    by_cases hhas : mapHas rooms (drawCode rnd pos) = true
    · rw [if_pos hhas] at h
      obtain ⟨k, hk, hcode, hpos, hfresh, hbefore⟩ := ih h
      refine ⟨k + 1, by omega, ?_, ?_, hfresh, ?_⟩
      · have e : pos + 6 + 6 * k = pos + 6 * (k + 1) := by omega
        rw [hcode, e]
      · omega
      · intro j hj
        cases j with
        | zero => simpa using hhas
        | succ j =>
          have := hbefore j (by omega)
          have e : pos + 6 * (j + 1) = pos + 6 + 6 * j := by omega
          rw [e]
          exact this
    · rw [if_neg hhas] at h
      simp only [Option.some.injEq, Prod.mk.injEq] at h
      refine ⟨0, by omega, by simp [h.1], by omega, ?_, ?_⟩
      · rw [← h.1]
        simpa using hhas
      · intro j hj
        omega

/-- The loop of `generateRoomCode` ends as soon as a pass draws a code that is
not a key of the store: with fuel for that pass it returns. -/
theorem generateRoomCode_of_fresh (rooms : RoomStore) (rnd : Nat → Fin 36) (pos k : Nat)
    (hfresh : mapHas rooms (drawCode rnd (pos + 6 * k)) = false) :
    ∃ result, generateRoomCode rooms rnd (k + 1) pos = some result := by
  induction k generalizing pos with
  | zero =>
    unfold generateRoomCode
    simp only
    by_cases hhas : mapHas rooms (drawCode rnd pos) = true
    · simp [hhas] at hfresh
    · rw [if_neg hhas]
      exact ⟨_, rfl⟩
  | succ k ih =>
    unfold generateRoomCode
    simp only
    by_cases hhas : mapHas rooms (drawCode rnd pos) = true
    · rw [if_pos hhas]
      apply ih
      have e : pos + 6 + 6 * k = pos + 6 * (k + 1) := by omega
      rw [e]
      exact hfresh
    · rw [if_neg hhas]
      exact ⟨_, rfl⟩

theorem createRoom_eq_some {rooms rooms1 : RoomStore} {rnd : Nat → Fin 36} {fuel pos now : Nat}
    {hostId : ConnId} {hostUsername : String} {settings : SettingsArg} {room : Room} {pos1 : Nat}
    (h : createRoom rooms rnd fuel pos now hostId hostUsername settings
      = some (Except.ok (room, rooms1, pos1))) :
    generateRoomCode rooms rnd fuel pos = some (room.code, pos1) ∧
    rooms1 = mapSet rooms room.code room ∧
    ∃ fields, settingsFields settings = some fields ∧
    room =
      { code := room.code
        host := hostId
        player1 := hostId
        player2 := none
        players :=
          [(hostId, { id := hostId, username := hostUsername, symbol := Symbol.X, ready := true })]
        spectators := []
        settings :=
          { allowSpectators := fields.allowSpectators.getD true
            timerEnabled := fields.timerEnabled.getD true
            timeLimit := fields.timeLimit.getD 60 }
        gameState := none
        createdAt := now
        status := Status.waiting
        isMatchmaking := false } := by
  unfold createRoom at h
  cases hcode : generateRoomCode rooms rnd fuel pos with
  | none => simp [hcode] at h
  | some r =>
    obtain ⟨code, pos2⟩ := r
    cases hfields : settingsFields settings with
    | none => simp [hcode, hfields] at h
    | some fields =>
      simp only [hcode, hfields, Option.some.injEq, Except.ok.injEq, Prod.mk.injEq] at h
      obtain ⟨hroom, hrooms, hpos⟩ := h
      subst hroom
      subst hpos
      exact ⟨rfl, hrooms.symm, fields, rfl, rfl⟩

theorem createMatchmakingRoom_eq_some {rooms rooms1 : RoomStore} {rnd : Nat → Fin 36}
    {fuel pos now : Nat} {player1Id player2Id : ConnId} {player1Username player2Username : String}
    {code : String} {pos1 : Nat}
    (h : createMatchmakingRoom rooms rnd fuel pos now player1Id player2Id player1Username
      player2Username = some (code, rooms1, pos1)) :
    generateRoomCode rooms rnd fuel pos = some (code, pos1) ∧
    ∃ room, rooms1 = mapSet rooms code room := by
  unfold createMatchmakingRoom at h
  cases hcode : generateRoomCode rooms rnd fuel pos with
  | none => simp [hcode] at h
  | some r =>
    obtain ⟨code2, pos2⟩ := r
    simp only [hcode, Option.some.injEq, Prod.mk.injEq] at h
    obtain ⟨hc, hrooms, hpos⟩ := h
    subst hc
    subst hpos
    exact ⟨rfl, _, hrooms.symm⟩

/-- What holds of a returned code: six characters of `chars`, no key of the
store. -/
theorem generateRoomCode_code {rooms : RoomStore} {rnd : Nat → Fin 36} {fuel pos : Nat}
    {code : String} {pos1 : Nat}
    (h : generateRoomCode rooms rnd fuel pos = some (code, pos1)) :
    code.length = 6 ∧ (∀ c ∈ code.toList, c ∈ chars) ∧ mapHas rooms code = false := by
  obtain ⟨k, -, hcode, -, hfresh, -⟩ := generateRoomCode_eq_some h
  rw [hcode]
  exact ⟨drawCode_length rnd _, drawCode_chars rnd _, hcode ▸ hfresh⟩

/-- Successive creations append their codes to the keys of the store, and the
codes are pairwise distinct and new. -/
theorem created_keys {rooms rooms1 : RoomStore} {codes : List String}
    (h : Created rooms codes rooms1) :
    rooms1.map (fun e => e.1) = rooms.map (fun e => e.1) ++ codes ∧ codes.Nodup ∧
    (∀ c ∈ codes, c ∉ rooms.map (fun e => e.1)) ∧
    (∀ c ∈ codes, c.length = 6 ∧ ∀ ch ∈ c.toList, ch ∈ chars) := by
  have hstep : ∀ (store store2 : RoomStore) (cs : List String) (code : String) (room : Room),
      (store.map (fun e => e.1) = rooms.map (fun e => e.1) ++ cs ∧ cs.Nodup ∧
        (∀ c ∈ cs, c ∉ rooms.map (fun e => e.1)) ∧
        (∀ c ∈ cs, c.length = 6 ∧ ∀ ch ∈ c.toList, ch ∈ chars)) →
      (code.length = 6 ∧ (∀ c ∈ code.toList, c ∈ chars) ∧ mapHas store code = false) →
      store2 = mapSet store code room →
      (store2.map (fun e => e.1) = rooms.map (fun e => e.1) ++ (cs ++ [code]) ∧
        (cs ++ [code]).Nodup ∧
        (∀ c ∈ cs ++ [code], c ∉ rooms.map (fun e => e.1)) ∧
        (∀ c ∈ cs ++ [code], c.length = 6 ∧ ∀ ch ∈ c.toList, ch ∈ chars)) := by
    intro store store2 cs code room ⟨hkeys, hnodup, hnew, hshape⟩ ⟨hlen, hchars, hfresh⟩ hstore
    have hnot := not_mem_keys_of_not_has hfresh
    rw [hkeys, List.mem_append, not_or] at hnot
    refine ⟨?_, ?_, ?_, ?_⟩
    · rw [hstore, mapSet_of_not_has _ hfresh, List.map_append, hkeys, List.append_assoc]
      rfl
    · rw [List.nodup_append]
      refine ⟨hnodup, List.nodup_singleton _, ?_⟩
      intro c hc hc1
      rw [List.mem_singleton] at hc1
      subst hc1
      exact hnot.2 hc
    · intro c hc
      rcases List.mem_append.mp hc with hc | hc
      · exact hnew c hc
      · rw [List.mem_singleton] at hc
        subst hc
        exact hnot.1
    · intro c hc
      rcases List.mem_append.mp hc with hc | hc
      · exact hshape c hc
      · rw [List.mem_singleton] at hc
        subst hc
        exact ⟨hlen, hchars⟩
  induction h with
  | none => simp
  | room rnd fuel pos now hostId hostUsername settings room pos1 _ hcreate ih =>
    obtain ⟨hgen, hrooms, -⟩ := createRoom_eq_some hcreate
    exact hstep _ _ _ _ room ih (generateRoomCode_code hgen) hrooms
  | matchRoom rnd fuel pos now p1 p2 n1 n2 code pos1 _ hcreate ih =>
    obtain ⟨hgen, room, hrooms⟩ := createMatchmakingRoom_eq_some hcreate
    exact hstep _ _ _ _ room ih (generateRoomCode_code hgen) hrooms

/-! ## Creating rooms: claims -/

/-- C16 as stated fails when `null` arrives as `settings`: the parameter
default does not stand in for `null`, `createRoom` throws a `TypeError` and
returns no room; the handler answers the failure and the stores of the server
are as they were. -/
theorem createRoom_null_settings :
    createRoom [] rndCount 1 0 1000 "H" "Player1" SettingsArg.null
      = some (Except.error Exception.typeError) ∧
    onCreateRoom serverConnected rndCount 1 0 1000 "H" SettingsArg.null
      = some
        { server := serverConnected
          response := some (Response.failure Exception.typeError)
          uncaught := none } :=
  ⟨rfl, by decide⟩

/-- C16, amended. `createRoom(hostId, hostUsername, settings)` ends as soon as
a pass of the code loop draws an unused code. When `settings` is `null` it
then throws a `TypeError` and returns no room. When `settings` is `undefined`
or an object it returns a room; the room has status `'waiting'`,
`host = player1 = hostId`, `player2 = null`, `gameState = null`, no
spectators, `players` holding exactly the host with symbol X, and for each of
`allowSpectators`, `timerEnabled`, `timeLimit` the value supplied or else
`true`, `true`, 60 (all three defaults when `settings` is `undefined`). Its
code was not in use, the store afterwards is the store before with this one
room added at the end, and every room stored before is found unchanged. -/
theorem createRoom_spec (rooms : RoomStore) (rnd : Nat → Fin 36) (pos now : Nat)
    (hostId : ConnId) (hostUsername : String) (settings : SettingsArg) :
    (settingsFields settings = none ↔ settings = SettingsArg.null) ∧
    (settings = SettingsArg.undefined → settingsFields settings = some ⟨none, none, none⟩) ∧
    (∀ given, settings = SettingsArg.object given → settingsFields settings = some given) ∧
    (∀ k, mapHas rooms (drawCode rnd (pos + 6 * k)) = false →
      (settings = SettingsArg.null →
        createRoom rooms rnd (k + 1) pos now hostId hostUsername settings
          = some (Except.error Exception.typeError)) ∧
      (settings ≠ SettingsArg.null →
        ∃ room rooms1 pos1, createRoom rooms rnd (k + 1) pos now hostId hostUsername settings
          = some (Except.ok (room, rooms1, pos1)))) ∧
    (∀ fuel room rooms1 pos1,
      createRoom rooms rnd fuel pos now hostId hostUsername settings
        = some (Except.ok (room, rooms1, pos1)) →
      ∃ fields, settingsFields settings = some fields ∧
      room.status = Status.waiting ∧ room.host = hostId ∧ room.player1 = hostId ∧
      room.player2 = none ∧ room.gameState = none ∧ room.spectators = [] ∧
      room.players
        = [(hostId, { id := hostId, username := hostUsername, symbol := Symbol.X, ready := true })] ∧
      room.settings.allowSpectators = fields.allowSpectators.getD true ∧
      room.settings.timerEnabled = fields.timerEnabled.getD true ∧
      room.settings.timeLimit = fields.timeLimit.getD 60 ∧
      room.createdAt = now ∧
      getRoom rooms room.code = none ∧
      rooms1 = rooms ++ [(room.code, room)] ∧
      getRoom rooms1 room.code = some room ∧
      ∀ other, other ≠ room.code → getRoom rooms1 other = getRoom rooms other) := by
  refine ⟨?_, ?_, ?_, ?_, ?_⟩
  · cases settings <;> simp [settingsFields]
  · intro hs
    rw [hs]
    rfl
  · intro given hs
    rw [hs]
    rfl
  · intro k hfresh
    obtain ⟨⟨code, pos1⟩, hgen⟩ := generateRoomCode_of_fresh rooms rnd pos k hfresh
    constructor
    · intro hs
      unfold createRoom
      rw [hgen, hs]
      rfl
    · intro hs
      cases hfields : settingsFields settings with
      | none =>
        cases settings with
        | null => exact absurd rfl hs
        | undefined => cases hfields
        | object given => cases hfields
      | some fields =>
        unfold createRoom
        rw [hgen]
        simp only [hfields]
        exact ⟨_, _, _, rfl⟩
  · intro fuel room rooms1 pos1 hcreate
    obtain ⟨hgen, hrooms, fields, hsettings, hroom⟩ := createRoom_eq_some hcreate
    obtain ⟨-, -, hfresh⟩ := generateRoomCode_code hgen
    have hfields : room.status = Status.waiting ∧ room.host = hostId ∧ room.player1 = hostId ∧
        room.player2 = none ∧ room.gameState = none ∧ room.spectators = [] ∧
        room.players
          = [(hostId, { id := hostId, username := hostUsername, symbol := Symbol.X, ready := true })] ∧
        room.settings.allowSpectators = fields.allowSpectators.getD true ∧
        room.settings.timerEnabled = fields.timerEnabled.getD true ∧
        room.settings.timeLimit = fields.timeLimit.getD 60 ∧
        room.createdAt = now := by
      rw [hroom]
      exact ⟨rfl, rfl, rfl, rfl, rfl, rfl, rfl, rfl, rfl, rfl, rfl⟩
    obtain ⟨f1, f2, f3, f4, f5, f6, f7, f8, f9, f10, f11⟩ := hfields
    refine ⟨fields, hsettings, f1, f2, f3, f4, f5, f6, f7, f8, f9, f10, f11, ?_, ?_, ?_, ?_⟩
    · exact mapGet_eq_none_of_not_has hfresh
    · rw [hrooms, mapSet_of_not_has _ hfresh]
    · rw [hrooms]
      exact mapGet_mapSet_self _ _ _
    · intro other hother
      rw [hrooms]
      exact mapGet_mapSet_ne _ _ hother

/-- C16 amended, in the store that holds the room `ABCDEF` of `H`: `K` creates
a room with `allowSpectators: false`; the first pass of the code loop spells
the code in use, the second gives `GHIJKL`; the new room is added at the end
and the room of `H` is found unchanged. -/
theorem createRoom_spec_witness :
    ∃ room rooms1 pos1,
      createRoom roomsCreated rndCount 2 0 5000 "K" "Third"
          (SettingsArg.object ⟨some false, none, none⟩)
        = some (Except.ok (room, rooms1, pos1)) ∧
      room.code = "GHIJKL" ∧ room.status = Status.waiting ∧
      room.settings.allowSpectators = false ∧ room.settings.timeLimit = 60 ∧
      rooms1 = roomsCreated ++ [(room.code, room)] ∧
      getRoom rooms1 "ABCDEF" = getRoom roomsCreated "ABCDEF" := by
  have h := createRoom_spec roomsCreated rndCount 0 5000 "K" "Third"
    (SettingsArg.object ⟨some false, none, none⟩)
  obtain ⟨room, rooms1, pos1, hcreate⟩ := (h.2.2.2.1 1 (by decide)).2 (by decide)
  have hcode : room.code = "GHIJKL" := by
    have hev : (createRoom roomsCreated rndCount 2 0 5000 "K" "Third"
        (SettingsArg.object ⟨some false, none, none⟩)).map
          (fun r => r.toOption.map (fun x => x.1.code)) = some (some "GHIJKL") := by decide
    rw [hcreate] at hev
    simpa [Except.toOption] using hev
  obtain ⟨fields, hsettings, s0, -, -, -, -, -, -, s1, -, s3, -, -, hstore, -, hother⟩ :=
    h.2.2.2.2 2 room rooms1 pos1 hcreate
  have hgiven : fields = ⟨some false, none, none⟩ :=
    (Option.some.inj ((h.2.2.1 _ rfl).symm.trans hsettings)).symm
  rw [hgiven] at s1 s3
  exact ⟨room, rooms1, pos1, hcreate, hcode, s0, s1, s3, hstore,
    hother "ABCDEF" (by rw [hcode]; decide)⟩

/-- C17. Whenever `generateRoomCode` returns, the code has exactly six
characters, each one of `chars`, that is a capital letter or a digit, and is
the code of no stored room; the loop returns as soon as a pass draws such a
code. So successive calls of `createRoom` and `createMatchmakingRoom` with no
removal in between return pairwise distinct codes, none of them a code stored
before, and the store grows by one room per call. -/
theorem generateRoomCode_spec (rooms : RoomStore) (rnd : Nat → Fin 36) (pos : Nat) :
    (∀ fuel code pos1, generateRoomCode rooms rnd fuel pos = some (code, pos1) →
      code.length = 6 ∧
      (∀ c ∈ code.toList, c ∈ chars ∧ (c.isUpper || c.isDigit) = true) ∧
      getRoom rooms code = none ∧ code ∉ rooms.map (fun e => e.1)) ∧
    (∀ k, mapHas rooms (drawCode rnd (pos + 6 * k)) = false →
      ∃ result, generateRoomCode rooms rnd (k + 1) pos = some result) ∧
    (∀ codes rooms1, Created rooms codes rooms1 →
      codes.Nodup ∧ (∀ c ∈ codes, c ∉ rooms.map (fun e => e.1)) ∧
      rooms1.map (fun e => e.1) = rooms.map (fun e => e.1) ++ codes ∧
      rooms1.length = rooms.length + codes.length ∧
      ∀ c ∈ codes, c.length = 6 ∧ ∀ ch ∈ c.toList, ch ∈ chars) := by
  refine ⟨?_, ?_, ?_⟩
  · intro fuel code pos1 hgen
    obtain ⟨hlen, hchars, hfresh⟩ := generateRoomCode_code hgen
    exact ⟨hlen, fun c hc => ⟨hchars c hc, chars_upper_or_digit c (hchars c hc)⟩,
      mapGet_eq_none_of_not_has hfresh, not_mem_keys_of_not_has hfresh⟩
  · intro k hfresh
    exact generateRoomCode_of_fresh rooms rnd pos k hfresh
  · intro codes rooms1 hcreated
    obtain ⟨hkeys, hnodup, hnew, hshape⟩ := created_keys hcreated
    refine ⟨hnodup, hnew, hkeys, ?_, hshape⟩
    have := congrArg List.length hkeys
    simpa using this

/-- C17, in the store that holds the room `ABCDEF`: the first pass draws
`ABCDEF` again, the second pass returns `GHIJKL`. -/
theorem generateRoomCode_spec_witness :
    generateRoomCode roomsCreated rndCount 2 0 = some ("GHIJKL", 12) ∧
    getRoom roomsCreated "GHIJKL" = none := by
  obtain ⟨⟨code, pos1⟩, hgen⟩ := (generateRoomCode_spec roomsCreated rndCount 0).2.1 1 (by decide)
  have hev : generateRoomCode roomsCreated rndCount 2 0 = some ("GHIJKL", 12) := by decide
  exact ⟨hev, ((generateRoomCode_spec roomsCreated rndCount 0).1 2 _ _ hev).2.2.1⟩

/-! ## Lemmas about the queue -/

theorem spliceId_sublist (queue : Queue) (id : ConnId) : (spliceId queue id).Sublist queue :=
  List.eraseP_sublist queue

theorem spliceId_of_absent {queue : Queue} {id : ConnId} (h : ∀ p ∈ queue, p.id ≠ id) :
    spliceId queue id = queue := by
  unfold spliceId
  apply List.eraseP_of_forall_not
  intro p hp
  simpa using h p hp

/-- In a queue without two entries of one id, taking out the first entry of
an id leaves no entry of that id. -/
theorem not_mem_spliceId {queue : Queue} {id : ConnId}
    (h : (queue.map (fun p => p.id)).Nodup) : ∀ p ∈ spliceId queue id, p.id ≠ id := by
  unfold spliceId
  induction queue with
  | nil =>
    intro p hp
    cases hp
  | cons q rest ih =>
    rw [List.map_cons, List.nodup_cons] at h
    by_cases hq : q.id = id
    · rw [List.eraseP_cons_of_pos (by simpa using hq)]
      intro p hp hpid
      apply h.1
      rw [hq, ← hpid]
      exact List.mem_map.mpr ⟨p, hp, rfl⟩
    · rw [List.eraseP_cons_of_neg (by simpa using hq)]
      intro p hp
      rcases List.mem_cons.mp hp with rfl | hp
      · exact hq
      · exact ih h.2 p hp

theorem findMatch_mem {queue : Queue} {now : Nat} {player found : QueueEntry}
    (h : findMatch queue now player = some found) : found ∈ queue := by
  unfold findMatch sortedQueue at h
  exact (List.mem_insertionSort _).mp (List.mem_of_find?_eq_some h)

theorem nodup_addToQueue {queue : Queue} (now : Nat) (playerId : ConnId) (playerData : PlayerData)
    (h : (queue.map (fun p => p.id)).Nodup) :
    ((addToQueue queue now playerId playerData).2.map (fun p => p.id)).Nodup := by
  have h1 : ((spliceId queue playerId).map (fun p => p.id)).Nodup :=
    h.sublist ((spliceId_sublist queue playerId).map _)
  unfold addToQueue
  simp only
  split
  · exact h1.sublist ((spliceId_sublist _ _).map _)
  · rw [List.map_append, List.nodup_append]
    refine ⟨h1, List.nodup_singleton _, ?_⟩
    intro a ha ha1
    simp only [List.map_cons, List.map_nil, List.mem_singleton] at ha1
    obtain ⟨p, hp, hpid⟩ := List.mem_map.mp ha
    exact not_mem_spliceId h p hp (hpid.trans ha1)

theorem nodup_removeFromQueue {queue : Queue} (playerId : ConnId)
    (h : (queue.map (fun p => p.id)).Nodup) :
    ((removeFromQueue queue playerId).2.map (fun p => p.id)).Nodup := by
  unfold removeFromQueue
  split
  · exact h.sublist ((spliceId_sublist _ _).map _)
  · exact h

theorem nodup_cleanupQueue {queue : Queue} (now : Nat)
    (h : (queue.map (fun p => p.id)).Nodup) :
    ((cleanupQueue queue now).map (fun p => p.id)).Nodup := by
  unfold cleanupQueue
  exact h.sublist ((List.filter_sublist queue).map _)

/-- No reachable queue holds two entries of one id. -/
theorem nodup_of_queueReachable {queue : Queue} (h : QueueReachable queue) :
    (queue.map (fun p => p.id)).Nodup := by
  induction h with
  | init => exact List.nodup_nil
  | step _ hstep ih =>
    cases hstep with
    | addToQueue now playerId playerData => exact nodup_addToQueue now playerId playerData ih
    | removeFromQueue playerId => exact nodup_removeFromQueue playerId ih
    | cleanupQueue now => exact nodup_cleanupQueue now ih

theorem removeFromQueue_of_absent {queue : Queue} {playerId : ConnId}
    (h : ∀ p ∈ queue, p.id ≠ playerId) : removeFromQueue queue playerId = (false, queue) := by
  unfold removeFromQueue
  rw [if_neg]
  simp only [List.any_eq_true, beq_iff_eq, not_exists, not_and]
  exact h

theorem queueReachable_queueTwo : QueueReachable queueTwo :=
  QueueReachable.step
    (QueueReachable.step QueueReachable.init (QueueStep.addToQueue [] 0 "A" ⟨"Ann", some 0⟩))
    (QueueStep.addToQueue _ 0 "B" ⟨"Bob", some 1000⟩)

/-! ## Removal and the queue: claims -/

/-- C18. `removeRoom(code)` for a code that is not stored and
`removeFromQueue(id)` for an id that is not queued return without an
exception (both are total) and leave the store and the queue exactly as they
were, `removeFromQueue` returning `false`. Removing a room twice gives the
store that removing it once gives; in every reachable queue, removing an id
twice gives the queue that removing it once gives, the second call returning
`false`. -/
theorem removal_idempotent :
    (∀ (rooms : RoomStore) code, getRoom rooms code = none → removeRoom rooms code = rooms) ∧
    (∀ (rooms : RoomStore) code,
      removeRoom (removeRoom rooms code) code = removeRoom rooms code ∧
      getRoom (removeRoom rooms code) code = none) ∧
    (∀ (queue : Queue) id, (∀ p ∈ queue, p.id ≠ id) → removeFromQueue queue id = (false, queue)) ∧
    (∀ (queue : Queue) id, QueueReachable queue →
      removeFromQueue (removeFromQueue queue id).2 id = (false, (removeFromQueue queue id).2)) := by
  refine ⟨?_, ?_, ?_, ?_⟩
  · intro rooms code hnone
    unfold removeRoom mapDelete
    rw [List.filter_eq_self]
    intro e he
    have hnot : code ∉ rooms.map (fun e => e.1) := by
      intro hmem
      have := (isSome_mapGet_iff_mem_keys rooms code).mpr hmem
      unfold getRoom at hnone
      rw [hnone] at this
      cases this
    have hne : e.1 ≠ code := fun heq => hnot (List.mem_map.mpr ⟨e, he, heq⟩)
    simpa using hne
  · intro rooms code
    have hidem : removeRoom (removeRoom rooms code) code = removeRoom rooms code := by
      unfold removeRoom mapDelete
      rw [List.filter_filter]
      simp
    refine ⟨hidem, ?_⟩
    unfold getRoom
    apply mapGet_eq_none_of_not_has
    cases hhas : mapHas (removeRoom rooms code) code with
    | false => rfl
    | true =>
      exfalso
      have hmem := (isSome_mapGet_iff_mem_keys (removeRoom rooms code) code).mp hhas
      obtain ⟨e, he, hkey⟩ := List.mem_map.mp hmem
      unfold removeRoom mapDelete at he
      have := (List.mem_filter.mp he).2
      simp [hkey] at this
  · intro queue id habsent
    exact removeFromQueue_of_absent habsent
  · intro queue id hreach
    apply removeFromQueue_of_absent
    have hnodup := nodup_of_queueReachable hreach
    unfold removeFromQueue
    split
    · exact not_mem_spliceId hnodup
    · next hany =>
      simp only [List.any_eq_true, beq_iff_eq, not_exists, not_and] at hany
      exact hany

/-- C18, on the queue that holds `A` and `B`: removing the absent `Z` changes
nothing, and removing `A` a second time changes nothing more. -/
theorem removal_idempotent_witness :
    removeFromQueue queueTwo "Z" = (false, queueTwo) ∧
    removeFromQueue queueTwo "A" = (true, [⟨"B", "Bob", 1000, 0⟩]) ∧
    removeFromQueue (removeFromQueue queueTwo "A").2 "A" = (false, [⟨"B", "Bob", 1000, 0⟩]) ∧
    removeRoom roomsStarted "ZZZZZZ" = roomsStarted := by
  refine ⟨removal_idempotent.2.2.1 queueTwo "Z" (by decide), by decide, ?_,
    removal_idempotent.1 roomsStarted "ZZZZZZ" (by decide)⟩
  rw [removal_idempotent.2.2.2 queueTwo "A" queueReachable_queueTwo]
  decide

/-- C20. No queue that calls of `addToQueue`, `removeFromQueue` and
`cleanupQueue` produce from the empty queue holds two entries of one id. In
such a queue `addToQueue` for an id that is queued takes the old entry out:
when it finds no match, the queue afterwards is the queue before without the
entries of that id, followed by the one new entry. -/
theorem queue_ids_nodup (queue : Queue) (h : QueueReachable queue) :
    (queue.map (fun p => p.id)).Nodup ∧
    (∀ now playerId playerData,
      ((addToQueue queue now playerId playerData).2.map (fun p => p.id)).Nodup) ∧
    (∀ now playerId playerData, (addToQueue queue now playerId playerData).1 = none →
      (addToQueue queue now playerId playerData).2
        = queue.filter (fun p => p.id != playerId) ++
          [{ id := playerId, username := playerData.username,
             points := playerData.points.getD 0, joinedAt := now }]) := by
  have hnodup := nodup_of_queueReachable h
  refine ⟨hnodup, fun now playerId playerData => nodup_addToQueue now playerId playerData hnodup, ?_⟩
  intro now playerId playerData hnone
  have hsplice : spliceId queue playerId = queue.filter (fun p => p.id != playerId) := by
    have hgen : ∀ l : Queue, (l.map (fun p => p.id)).Nodup →
        spliceId l playerId = l.filter (fun p => p.id != playerId) := by
      intro l hl
      induction l with
      | nil => rfl
      | cons q rest ih =>
        rw [List.map_cons, List.nodup_cons] at hl
        unfold spliceId at ih ⊢
        by_cases hq : q.id = playerId
        · rw [List.eraseP_cons_of_pos (by simpa using hq)]
          rw [List.filter_cons_of_neg (by simpa using hq)]
          symm
          rw [List.filter_eq_self]
          intro p hp
          have hne : p.id ≠ playerId := by
            intro hpid
            apply hl.1
            rw [hq, ← hpid]
            exact List.mem_map.mpr ⟨p, hp, rfl⟩
          simpa using hne
        · rw [List.eraseP_cons_of_neg (by simpa using hq)]
          rw [List.filter_cons_of_pos (by simpa using hq), ih hl.2]
    exact hgen queue hnodup
  unfold addToQueue at hnone ⊢
  simp only at hnone ⊢
  split at hnone
  · cases hnone
  · show spliceId queue playerId ++ _ = _
    rw [hsplice]

/-- C20, on the queue that holds `A` and `B`: `A` joins again with other
points; its old entry is gone and the new one is last. -/
theorem queue_ids_nodup_witness :
    queueTwo.map (fun p => p.id) = ["A", "B"] ∧
    (addToQueue queueTwo 10 "A" ⟨"Ann", some 500⟩).1 = none ∧
    (addToQueue queueTwo 10 "A" ⟨"Ann", some 500⟩).2
      = [⟨"B", "Bob", 1000, 0⟩, ⟨"A", "Ann", 500, 10⟩] := by
  have h := queue_ids_nodup queueTwo queueReachable_queueTwo
  exact ⟨by decide, by decide, (h.2.2 10 "A" ⟨"Ann", some 500⟩ (by decide)).trans (by decide)⟩

/-! ## The status of the rooms -/

theorem statusInv_mapSet {rooms : RoomStore} {code : String} {room : Room}
    (h : StatusInv rooms) (hroom : room.status = Status.waiting ∨ room.status = Status.active) :
    StatusInv (mapSet rooms code room) := by
  intro e he
  rcases mem_mapSet he with he | he
  · exact h e he
  · rw [he]
    exact hroom

theorem statusInv_startGame {rooms rooms1 : RoomStore} {now : Nat} {code : String}
    {gameState : GameState} (h : StatusInv rooms)
    (hstart : startGame rooms now code = Except.ok (gameState, rooms1)) : StatusInv rooms1 := by
  unfold startGame at hstart
  cases hroom : mapGet rooms code with
  | none => simp [hroom] at hstart
  | some room =>
    simp only [hroom] at hstart
    split at hstart
    · cases hstart
    · simp only [Except.ok.injEq, Prod.mk.injEq] at hstart
      rw [← hstart.2]
      exact statusInv_mapSet h (Or.inr rfl)

theorem statusInv_joinRoomHandler {rooms : RoomStore} (now : Nat) (socketId : ConnId)
    (username roomCode : String) (h : StatusInv rooms) :
    StatusInv (joinRoomHandler rooms now socketId username roomCode).1 := by
  unfold joinRoomHandler
  cases hjoin : joinRoom rooms roomCode socketId username with
  | error e => exact h
  | ok r =>
    obtain ⟨room1, rooms1⟩ := r
    have h1 : StatusInv rooms1 := by
      unfold joinRoom at hjoin
      cases hroom : mapGet rooms roomCode with
      | none => simp [hroom] at hjoin
      | some room =>
        simp only [hroom] at hjoin
        split at hjoin
        · cases hjoin
        · simp only [Except.ok.injEq, Prod.mk.injEq] at hjoin
          rw [← hjoin.2]
          exact statusInv_mapSet h (h (roomCode, room) (mapGet_mem hroom))
    simp only
    cases hstart : startGame rooms1 now roomCode with
    | error e => exact h1
    | ok r2 =>
      obtain ⟨g, rooms2⟩ := r2
      exact statusInv_startGame h1 hstart

theorem statusInv_matchFound {rooms rooms1 : RoomStore} {rnd : Nat → Fin 36} {fuel pos now : Nat}
    {player1Id player2Id : ConnId} {player1Username player2Username : String} {pos1 : Nat}
    (h : StatusInv rooms)
    (hmatch : matchFound rooms rnd fuel pos now player1Id player2Id player1Username
      player2Username = some (rooms1, pos1)) : StatusInv rooms1 := by
  unfold matchFound createMatchmakingRoom at hmatch
  cases hcode : generateRoomCode rooms rnd fuel pos with
  | none => simp [hcode] at hmatch
  | some r =>
    obtain ⟨code, pos2⟩ := r
    simp only [hcode] at hmatch
    split at hmatch
    · simp only [Option.some.injEq, Prod.mk.injEq] at hmatch
      rw [← hmatch.1]
      exact statusInv_mapSet h (Or.inl rfl)
    · next g rooms2 hstart =>
      simp only [Option.some.injEq, Prod.mk.injEq] at hmatch
      rw [← hmatch.1]
      exact statusInv_startGame (statusInv_mapSet h (Or.inl rfl)) hstart

theorem statusInv_makeMove {rooms : RoomStore} (now : Nat) (socketId : ConnId) (roomCode : String)
    (cellIndex : Int) (h : StatusInv rooms) :
    StatusInv (makeMove now socketId roomCode cellIndex rooms).rooms := by
  rcases makeMove_rooms_eq_or_accepted rooms now socketId roomCode cellIndex with hsame | hacc
  · rw [hsame]
    exact h
  · obtain ⟨room, gameState, info, hacc⟩ := hacc
    have hroom := h (roomCode, room) (mapGet_mem hacc.room_eq)
    cases hw : checkWinner (boardAfter gameState cellIndex info) with
    | none =>
      rw [(makeMove_rooms_of_open now hacc hw).1]
      exact statusInv_mapSet h hroom
    | some winner =>
      rw [makeMove_rooms_of_over now hacc hw]
      exact statusInv_mapSet h hroom

theorem statusInv_restartGame {rooms rooms1 : RoomStore} {now : Nat} {roomCode : String}
    (h : StatusInv rooms) (hre : restartGame rooms now roomCode = Except.ok rooms1) :
    StatusInv rooms1 := by
  unfold restartGame at hre
  cases hroom : getRoom rooms roomCode with
  | none =>
    simp only [hroom, Except.ok.injEq] at hre
    rw [← hre]
    exact h
  | some room =>
    simp only [hroom] at hre
    cases hstart : startGame rooms now roomCode with
    | error e => simp [hstart] at hre
    | ok r =>
      obtain ⟨g, rooms2⟩ := r
      simp only [hstart, Except.ok.injEq] at hre
      rw [← hre]
      exact statusInv_startGame h hstart

theorem statusInv_spectateRoom {rooms : RoomStore} (socketId : ConnId) (roomCode : String)
    (h : StatusInv rooms) : StatusInv (spectateRoom rooms socketId roomCode).1 := by
  unfold spectateRoom
  cases hroom : getRoom rooms roomCode with
  | none => exact h
  | some room =>
    simp only
    split
    · exact h
    · exact statusInv_mapSet h (h (roomCode, room) (mapGet_mem hroom))

/-- No room of a reachable store has the status `'finished'`: nothing in the
server assigns it to `room.status`. -/
theorem statusInv_of_reachable {rooms : RoomStore} (h : Reachable rooms) : StatusInv rooms := by
  induction h with
  | init =>
    intro e he
    cases he
  | step _ hstep ih =>
    cases hstep
    case createRoom hcreate =>
      obtain ⟨-, hrooms, fields, -, hroom⟩ := createRoom_eq_some hcreate
      rw [hrooms]
      exact statusInv_mapSet ih (Or.inl (by rw [hroom]))
    case joinRoom now socketId username roomCode =>
      exact statusInv_joinRoomHandler now socketId username roomCode ih
    case leaveRoom roomCode => exact fun e he => ih e (mem_mapDelete he)
    case matchFound hmatch => exact statusInv_matchFound ih hmatch
    case makeMove now socketId roomCode cellIndex =>
      exact statusInv_makeMove now socketId roomCode cellIndex ih
    case restartGame hre => exact statusInv_restartGame ih hre
    case spectateRoom socketId roomCode => exact statusInv_spectateRoom socketId roomCode ih

/-! ## The sweep of old rooms: claims -/

/-- C19. In every store that the server can reach, `cleanupOldRooms` at the
time `now` removes exactly the rooms with status `'waiting'` whose age
`now - createdAt` exceeds 30 minutes (the last part of the statement). On
every store whatsoever the rooms it keeps are unchanged and in their order,
every room with status `'active'` stays whatever its age, every room whose
age is at most 30 minutes stays, and the rooms removed are those that are not
`'active'` and older than 30 minutes; in a reachable store a room that is not
`'active'` is `'waiting'`. -/
theorem cleanupOldRooms_spec (rooms : RoomStore) (now : Nat) :
    (∀ e, e ∈ cleanupOldRooms rooms now ↔
      e ∈ rooms ∧ ¬ (e.2.status ≠ Status.active ∧
        (now : Int) - (e.2.createdAt : Int) > 30 * 60 * 1000)) ∧
    (cleanupOldRooms rooms now).Sublist rooms ∧
    (∀ e ∈ rooms, e.2.status = Status.active → e ∈ cleanupOldRooms rooms now) ∧
    (∀ e ∈ rooms, (now : Int) - (e.2.createdAt : Int) ≤ 30 * 60 * 1000 →
      e ∈ cleanupOldRooms rooms now) ∧
    (Reachable rooms → ∀ e, e ∈ cleanupOldRooms rooms now ↔
      e ∈ rooms ∧ ¬ (e.2.status = Status.waiting ∧
        (now : Int) - (e.2.createdAt : Int) > 30 * 60 * 1000)) := by
  have hmem : ∀ e, e ∈ cleanupOldRooms rooms now ↔
      e ∈ rooms ∧ ¬ (e.2.status ≠ Status.active ∧
        (now : Int) - (e.2.createdAt : Int) > 30 * 60 * 1000) := by
    intro e
    unfold cleanupOldRooms isOldRoom maxAge
    rw [List.mem_filter]
    simp only [Bool.not_eq_true', Bool.and_eq_false_iff, decide_eq_false_iff_not, bne_eq_false_iff_eq,
      ne_eq, not_and, not_lt, gt_iff_lt]
    constructor
    · rintro ⟨he, h | h⟩
      · exact ⟨he, fun _ => by omega⟩
      · exact ⟨he, fun hne => absurd h hne⟩
    · rintro ⟨he, h⟩
      refine ⟨he, ?_⟩
      by_cases hs : e.2.status = Status.active
      · exact Or.inr hs
      · exact Or.inl (by have := h hs; omega)
  refine ⟨hmem, ?_, ?_, ?_, ?_⟩
  · unfold cleanupOldRooms
    exact List.filter_sublist rooms
  · intro e he hactive
    exact (hmem e).mpr ⟨he, fun h => h.1 hactive⟩
  · intro e he hyoung
    exact (hmem e).mpr ⟨he, fun h => by omega⟩
  · intro hreach e
    rw [hmem e]
    constructor
    · rintro ⟨he, h⟩
      refine ⟨he, fun hw => h ⟨?_, hw.2⟩⟩
      rw [hw.1]
      decide
    · rintro ⟨he, h⟩
      refine ⟨he, fun hw => h ⟨?_, hw.2⟩⟩
      rcases statusInv_of_reachable hreach e he with hs | hs
      · exact hs
      · exact absurd hs hw.1

/-- C19, on stores of the game between `H` and `G`: the waiting room
of `H`, created at the time 1000, is kept at the time 1801000 and removed one
millisecond later; the started room is kept however late the sweep runs. -/
theorem cleanupOldRooms_spec_witness :
    cleanupOldRooms roomsCreated 1801000 = roomsCreated ∧
    cleanupOldRooms roomsCreated 1801001 = [] ∧
    (∀ e, e ∈ cleanupOldRooms roomsAfterWin 99999999 ↔ e ∈ roomsAfterWin) := by
  refine ⟨by decide, by decide, ?_⟩
  intro e
  rw [(cleanupOldRooms_spec roomsAfterWin 99999999).2.2.2.2
    (reachable_play reachable_roomsStarted _) e]
  constructor
  · exact fun h => h.1
  · intro he
    refine ⟨he, ?_⟩
    have hs : e = ("ABCDEF", _) := List.mem_singleton.mp he
    rw [hs]
    decide

/-! ## Lemmas about `findMatch` -/

/-- The tolerance test of the model is the test of the source read in exact
arithmetic: `pointsDiff <= 100 + (waitTime / 1000) * 10`. -/
theorem withinRange_iff (now : Nat) (candidate player : QueueEntry) :
    withinRange now candidate player = true ↔
      (pointsDiff candidate player : ℚ)
        ≤ 100 + ((((now : Int) - (candidate.joinedAt : Int) : Int) : ℚ) / 1000) * 10 := by
  unfold withinRange matchRange
  rw [decide_eq_true_iff]
  constructor
  · intro h
    have h1 : ((pointsDiff candidate player : Int) : ℚ) * 100
        ≤ 100 * 100 + (((now : Int) - (candidate.joinedAt : Int) : Int) : ℚ) := by
      exact_mod_cast h
    have h2 : ((pointsDiff candidate player : Int) : ℚ) = (pointsDiff candidate player : ℚ) := by
      norm_cast
    rw [h2] at h1
    linarith
  · intro h
    have h1 : ((pointsDiff candidate player : Int) : ℚ) * 100
        ≤ 100 * 100 + (((now : Int) - (candidate.joinedAt : Int) : Int) : ℚ) := by
      have h2 : ((pointsDiff candidate player : Int) : ℚ) = (pointsDiff candidate player : ℚ) := by
        norm_cast
      rw [h2]
      linarith
    exact_mod_cast h1

/-- The first entry that passes a test in a list sorted by points difference,
after one more entry was put in its place. -/
theorem find?_orderedInsert (now : Nat) (player a : QueueEntry) (sorted : Queue)
    (hsorted : sorted.Pairwise (fun x y => pointsDiff x player ≤ pointsDiff y player)) :
    (sorted.orderedInsert (fun x y => pointsDiff x player ≤ pointsDiff y player) a).find?
        (fun c => withinRange now c player) =
      match sorted.find? (fun c => withinRange now c player) with
      | none => if withinRange now a player then some a else none
      | some c =>
        if withinRange now a player ∧ pointsDiff a player ≤ pointsDiff c player then some a
        else some c := by
  induction sorted with
  | nil =>
    simp only [List.orderedInsert, List.find?_cons, List.find?_nil]
    cases withinRange now a player <;> rfl
  | cons b rest ih =>
    rw [List.pairwise_cons] at hsorted
    obtain ⟨hb, hrest⟩ := hsorted
    simp only [List.orderedInsert]
    by_cases hab : pointsDiff a player ≤ pointsDiff b player
    · rw [if_pos hab]
      simp only [List.find?_cons]
      cases ha : withinRange now a player with
      | true =>
        cases hbw : withinRange now b player with
        | true => simp [hab]
        | false =>
          simp only
          cases hfind : rest.find? (fun c => withinRange now c player) with
          | none => simp
          | some c =>
            have hc : c ∈ rest := List.mem_of_find?_eq_some hfind
            have := hb c hc
            simp only [true_and]
            rw [if_pos (by omega)]
      | false =>
        cases hbw : withinRange now b player with
        | true => simp
        | false =>
          simp only
          cases hfind : rest.find? (fun c => withinRange now c player) with
          | none => simp
          | some c => simp
    · rw [if_neg hab]
      simp only [List.find?_cons]
      cases hbw : withinRange now b player with
      | true =>
        simp only
        rw [if_neg (fun h => hab h.2)]
      | false =>
        simp only
        exact ih hrest

theorem pairwise_sortedQueue (queue : Queue) (player : QueueEntry) :
    (sortedQueue queue player).Pairwise
      (fun x y => pointsDiff x player ≤ pointsDiff y player) := by
  haveI : IsTotal QueueEntry (fun x y => pointsDiff x player ≤ pointsDiff y player) :=
    ⟨fun x y => Nat.le_total _ _⟩
  haveI : IsTrans QueueEntry (fun x y => pointsDiff x player ≤ pointsDiff y player) :=
    ⟨fun x y z hxy hyz => Nat.le_trans hxy hyz⟩
  exact List.sorted_insertionSort _ queue

/-- The loop of `findMatch` over the sorted copy returns the candidate that the
specification describes. -/
theorem findMatch_eq_bestCandidate (queue : Queue) (now : Nat) (player : QueueEntry) :
    findMatch queue now player = bestCandidate now player queue := by
  induction queue with
  | nil => rfl
  | cons a rest ih =>
    have hstep := find?_orderedInsert now player a (sortedQueue rest player)
      (pairwise_sortedQueue rest player)
    unfold findMatch at ih ⊢
    have hsort : sortedQueue (a :: rest) player
        = (sortedQueue rest player).orderedInsert
            (fun x y => pointsDiff x player ≤ pointsDiff y player) a := rfl
    rw [hsort, hstep, ih]
    conv_rhs => rw [bestCandidate]

theorem bestCandidate_eq_none (now : Nat) (player : QueueEntry) (queue : Queue) :
    bestCandidate now player queue = none ↔ ∀ d ∈ queue, withinRange now d player = false := by
  induction queue with
  | nil => simp [bestCandidate]
  | cons a rest ih =>
    rw [bestCandidate]
    cases hrest : bestCandidate now player rest with
    | none =>
      have hall := ih.mp hrest
      cases ha : withinRange now a player with
      | true => simp [ha]
      | false =>
        simp only [Bool.false_eq_true, if_false, true_iff]
        intro d hd
        rcases List.mem_cons.mp hd with rfl | hd
        · exact ha
        · exact hall d hd
    | some c =>
      have hne : ¬ ∀ d ∈ rest, withinRange now d player = false := fun h => by
        rw [ih.mpr h] at hrest
        cases hrest
      simp only
      constructor
      · intro h
        split at h <;> cases h
      · intro h
        exact absurd (fun d hd => h d (List.mem_cons_of_mem _ hd)) hne

/-- The candidate of the specification is an entry `c` of the queue that
passes the test, such that every passing entry before it in the queue is
strictly farther from the player and every passing entry after it is at least
as far. -/
theorem bestCandidate_eq_some (now : Nat) (player : QueueEntry) (queue : Queue) (c : QueueEntry) :
    bestCandidate now player queue = some c ↔
      ∃ pre post, queue = pre ++ c :: post ∧ withinRange now c player = true ∧
        (∀ d ∈ pre, withinRange now d player = true → pointsDiff c player < pointsDiff d player) ∧
        (∀ d ∈ post, withinRange now d player = true → pointsDiff c player ≤ pointsDiff d player) := by
  induction queue generalizing c with
  | nil => simp [bestCandidate]
  | cons a rest ih =>
    rw [bestCandidate]
    cases hrest : bestCandidate now player rest with
    | none =>
      have hall := (bestCandidate_eq_none now player rest).mp hrest
      simp only
      constructor
      · intro h
        split at h
        · next ha =>
          cases h
          refine ⟨[], rest, rfl, ha, by simp, ?_⟩
          intro d hd hdw
          rw [hall d hd] at hdw
          cases hdw
        · cases h
      · rintro ⟨pre, post, hsplit, hc, -, -⟩
        cases pre with
        | nil =>
          simp only [List.nil_append, List.cons.injEq] at hsplit
          rw [← hsplit.1] at hc
          rw [if_pos hc, hsplit.1]
        | cons a0 pre0 =>
          simp only [List.cons_append, List.cons.injEq] at hsplit
          have hmem : c ∈ rest := by
            rw [hsplit.2]
            simp
          rw [hall c hmem] at hc
          cases hc
    | some c0 =>
      obtain ⟨pre0, post0, hsplit0, hc0, hpre0, hpost0⟩ := (ih c0).mp hrest
      have hleast : ∀ d ∈ rest, withinRange now d player = true →
          pointsDiff c0 player ≤ pointsDiff d player := by
        intro d hd hdw
        rw [hsplit0] at hd
        rcases List.mem_append.mp hd with hd | hd
        · exact Nat.le_of_lt (hpre0 d hd hdw)
        · rcases List.mem_cons.mp hd with rfl | hd
          · exact Nat.le_refl _
          · exact hpost0 d hd hdw
      have hc0mem : c0 ∈ rest := by
        rw [hsplit0]
        simp
      simp only
      constructor
      · intro h
        split at h
        · next hcond =>
          cases h
          refine ⟨[], rest, rfl, hcond.1, by simp, ?_⟩
          intro d hd hdw
          exact Nat.le_trans hcond.2 (hleast d hd hdw)
        · next hcond =>
          cases h
          refine ⟨a :: pre0, post0, by rw [hsplit0]; rfl, hc0, ?_, hpost0⟩
          intro d hd hdw
          rcases List.mem_cons.mp hd with rfl | hd
          · by_contra hlt
            exact hcond ⟨hdw, by omega⟩
          · exact hpre0 d hd hdw
      · rintro ⟨pre, post, hsplit, hc, hpre, hpost⟩
        cases pre with
        | nil =>
          simp only [List.nil_append, List.cons.injEq] at hsplit
          obtain ⟨rfl, rfl⟩ := hsplit
          rw [if_pos ⟨hc, hpost c0 hc0mem hc0⟩]
        | cons a0 pre1 =>
          simp only [List.cons_append, List.cons.injEq] at hsplit
          obtain ⟨rfl, hrestsplit⟩ := hsplit
          have hbest : bestCandidate now player rest = some c :=
            (ih c).mpr ⟨pre1, post, hrestsplit, hc,
              fun d hd hdw => hpre d (List.mem_cons_of_mem _ hd) hdw, hpost⟩
          rw [hrest] at hbest
          cases hbest
          rw [if_neg]
          intro hcond
          have := hpre a (List.mem_cons_self _ _) hcond.1
          omega

/-- In a queue without two entries of one id, taking out the first entry of an
id is taking out every entry of the id. -/
theorem spliceId_eq_filter {queue : Queue} (id : ConnId)
    (h : (queue.map (fun p => p.id)).Nodup) :
    spliceId queue id = queue.filter (fun p => p.id != id) := by
  rw [← spliceId_of_absent (not_mem_spliceId h)]
  unfold spliceId
  induction queue with
  | nil => rfl
  | cons q rest ih =>
    rw [List.map_cons, List.nodup_cons] at h
    by_cases hq : q.id = id
    · rw [List.eraseP_cons_of_pos (by simpa using hq), List.filter_cons_of_neg (by simpa using hq)]
      have habsent : ∀ p ∈ rest, p.id ≠ id := by
        intro p hp hpid
        apply h.1
        rw [hq, ← hpid]
        exact List.mem_map.mpr ⟨p, hp, rfl⟩
      have hrest : rest.eraseP (fun p => p.id == id) = rest :=
        List.eraseP_of_forall_not (fun p hp => by simpa using habsent p hp)
      rw [hrest]
      symm
      rw [List.filter_eq_self]
      intro p hp
      simpa using habsent p hp
    · rw [List.eraseP_cons_of_neg (by simpa using hq), List.filter_cons_of_pos (by simpa using hq),
        List.eraseP_cons_of_neg (by simpa using hq)]
      rw [ih h.2]

theorem addToQueue_eq (queue : Queue) (now : Nat) (playerId : ConnId) (playerData : PlayerData) :
    addToQueue queue now playerId playerData =
      match findMatch (spliceId queue playerId) now (newEntry now playerId playerData) with
      | some found =>
        (some { player1 := newEntry now playerId playerData, player2 := found },
          spliceId (spliceId queue playerId) found.id)
      | none => (none, spliceId queue playerId ++ [newEntry now playerId playerData]) := by
  unfold addToQueue newEntry
  simp only

/-! ## The matchmaking queue: claims -/

/-- C21. `findMatch(player)` at the time `now` returns the queue entry `c`
exactly when `c` passes the tolerance test
`|c.points - player.points| <= 100 + 10 * (now - c.joinedAt) / 1000`, every
entry that stands before `c` in the queue and passes its own test is strictly
farther from the player, and every entry that stands after `c` and passes its
own test is at least as far; so every entry strictly nearer than `c` fails
its test, and among equally near entries the earliest wins. It returns `null`
exactly when no entry of the queue passes its own test. -/
theorem findMatch_spec (queue : Queue) (now : Nat) (player : QueueEntry) :
    (∀ c, findMatch queue now player = some c ↔
      ∃ pre post, queue = pre ++ c :: post ∧ withinRange now c player = true ∧
        (∀ d ∈ pre, withinRange now d player = true →
          pointsDiff c player < pointsDiff d player) ∧
        (∀ d ∈ post, withinRange now d player = true →
          pointsDiff c player ≤ pointsDiff d player)) ∧
    (∀ c, findMatch queue now player = some c →
      c ∈ queue ∧ withinRange now c player = true ∧
      ∀ d ∈ queue, pointsDiff d player < pointsDiff c player →
        withinRange now d player = false) ∧
    (findMatch queue now player = none ↔ ∀ d ∈ queue, withinRange now d player = false) ∧
    (∀ c : QueueEntry, withinRange now c player = true ↔
      |(c.points : ℚ) - (player.points : ℚ)|
        ≤ 100 + 10 * ((now : ℚ) - (c.joinedAt : ℚ)) / 1000) := by
  rw [findMatch_eq_bestCandidate]
  refine ⟨bestCandidate_eq_some now player queue, ?_, bestCandidate_eq_none now player queue, ?_⟩
  · intro c hc
    obtain ⟨pre, post, hsplit, hcw, hpre, hpost⟩ := (bestCandidate_eq_some now player queue c).mp hc
    refine ⟨by rw [hsplit]; simp, hcw, ?_⟩
    intro d hd hlt
    cases hdw : withinRange now d player with
    | false => rfl
    | true =>
      exfalso
      rw [hsplit] at hd
      rcases List.mem_append.mp hd with hd | hd
      · have := hpre d hd hdw
        omega
      · rcases List.mem_cons.mp hd with rfl | hd
        · omega
        · have := hpost d hd hdw
          omega
  · intro c
    rw [withinRange_iff]
    have habs : ((pointsDiff c player : ℕ) : ℚ) = |(c.points : ℚ) - (player.points : ℚ)| := by
      unfold pointsDiff
      rw [Int.cast_natAbs, Int.cast_abs, Int.cast_sub]
    rw [habs]
    have hwait : ((((now : Int) - (c.joinedAt : Int) : Int) : ℚ) / 1000) * 10
        = 10 * ((now : ℚ) - (c.joinedAt : ℚ)) / 1000 := by
      push_cast
      ring
    rw [hwait]

/-- C21, on the queue that holds `A` (0 points) and `B` (1000 points), both
queued at the time 0: at the time 10 a player with 950 points gets `B`, a
player with 500 points gets `null`; at the time 40000, when the tolerance has
grown to 500, the player with 500 points gets `A`, the earlier of the two
equally near entries. -/
theorem findMatch_spec_witness :
    findMatch queueTwo 10 ⟨"C", "Cy", 950, 10⟩ = some ⟨"B", "Bob", 1000, 0⟩ ∧
    findMatch queueTwo 10 ⟨"C", "Cy", 500, 10⟩ = none ∧
    findMatch queueTwo 40000 ⟨"C", "Cy", 500, 40000⟩ = some ⟨"A", "Ann", 0, 0⟩ := by
  refine ⟨?_, ?_, ?_⟩
  · exact ((findMatch_spec queueTwo 10 ⟨"C", "Cy", 950, 10⟩).1 _).mpr
      ⟨[⟨"A", "Ann", 0, 0⟩], [], rfl, by decide, by decide, by decide⟩
  · exact (findMatch_spec queueTwo 10 ⟨"C", "Cy", 500, 10⟩).2.2.1.mpr (by decide)
  · exact ((findMatch_spec queueTwo 40000 ⟨"C", "Cy", 500, 40000⟩).1 _).mpr
      ⟨[], [⟨"B", "Bob", 1000, 0⟩], rfl, by decide, by decide, by decide⟩

/-- C22. In every reachable queue, whenever `addToQueue(playerId, data)`
returns a match, `player1` is the entry of the arriving player (its id is
`playerId`), `player2` is an entry that was in the queue, with another id; the
queue afterwards holds no entry of either id and is the queue before with
exactly the entries of these two ids taken out, the others in their order. -/
theorem addToQueue_match (queue : Queue) (h : QueueReachable queue) (now : Nat)
    (playerId : ConnId) (playerData : PlayerData) (found : MatchPair) (queue1 : Queue)
    (hmatch : addToQueue queue now playerId playerData = (some found, queue1)) :
    found.player1 = newEntry now playerId playerData ∧ found.player1.id = playerId ∧
    found.player2 ∈ queue ∧ found.player2.id ≠ playerId ∧
    withinRange now found.player2 found.player1 = true ∧
    (∀ p ∈ queue1, p.id ≠ playerId ∧ p.id ≠ found.player2.id) ∧
    queue1 = queue.filter (fun p => p.id != playerId && p.id != found.player2.id) ∧
    queue1.Sublist queue := by
  have hnodup := nodup_of_queueReachable h
  have hnodup1 : ((spliceId queue playerId).map (fun p => p.id)).Nodup :=
    hnodup.sublist ((spliceId_sublist queue playerId).map _)
  rw [addToQueue_eq] at hmatch
  cases hfind : findMatch (spliceId queue playerId) now (newEntry now playerId playerData) with
  | none =>
    rw [hfind] at hmatch
    simp at hmatch
  | some c =>
    rw [hfind] at hmatch
    simp only [Prod.mk.injEq, Option.some.injEq] at hmatch
    obtain ⟨hfound, hqueue⟩ := hmatch
    subst hfound
    subst hqueue
    have hmem : c ∈ spliceId queue playerId := findMatch_mem hfind
    have hwithin : withinRange now c (newEntry now playerId playerData) = true := by
      rw [findMatch_eq_bestCandidate] at hfind
      obtain ⟨_, _, _, hcw, -⟩ := (bestCandidate_eq_some _ _ _ _).mp hfind
      exact hcw
    refine ⟨rfl, rfl, (spliceId_sublist queue playerId).subset hmem,
      not_mem_spliceId hnodup c hmem, hwithin, ?_, ?_, ?_⟩
    · intro p hp
      exact ⟨not_mem_spliceId hnodup p ((spliceId_sublist _ _).subset hp),
        not_mem_spliceId hnodup1 p hp⟩
    · rw [spliceId_eq_filter _ hnodup1, spliceId_eq_filter _ hnodup, List.filter_filter]
      apply List.filter_congr
      intro p _
      exact Bool.and_comm _ _
    · exact (spliceId_sublist _ _).trans (spliceId_sublist _ _)

/-- C22, on the queue that holds `A` and `B`: `C` arrives with 950 points and
is matched with `B`; `A` stays. -/
theorem addToQueue_match_witness :
    addToQueue queueTwo 10 "C" ⟨"Cy", some 950⟩
      = (some ⟨⟨"C", "Cy", 950, 10⟩, ⟨"B", "Bob", 1000, 0⟩⟩, [⟨"A", "Ann", 0, 0⟩]) ∧
    (⟨"B", "Bob", 1000, 0⟩ : QueueEntry).id ≠ "C" := by
  have hev : addToQueue queueTwo 10 "C" ⟨"Cy", some 950⟩
      = (some ⟨⟨"C", "Cy", 950, 10⟩, ⟨"B", "Bob", 1000, 0⟩⟩, [⟨"A", "Ann", 0, 0⟩]) := by decide
  exact ⟨hev, (addToQueue_match queueTwo queueReachable_queueTwo 10 "C" ⟨"Cy", some 950⟩
    _ _ hev).2.2.2.1⟩

/-- The position of an id whose only entry is the last one is the length of
the queue. -/
theorem getQueuePosition_append_last {queue : Queue} {entry : QueueEntry}
    (h : ∀ p ∈ queue, p.id ≠ entry.id) :
    getQueuePosition (queue ++ [entry]) entry.id = (queue ++ [entry]).length := by
  unfold getQueuePosition
  have hnone : queue.findIdx? (fun p => p.id == entry.id) = none := by
    rw [List.findIdx?_eq_none_iff]
    intro p hp
    simpa using h p hp
  rw [List.findIdx?_append, hnone]
  simp

/-- C23. In every reachable queue, whenever no entry of another player passes
the tolerance test against the arriving player, `addToQueue(playerId, data)`
returns `null`, and the queue afterwards is the queue before without the
entry of `playerId`, followed by one new entry for `playerId` with
`points = data.points` (0 when missing) and `joinedAt = now`; it is the only
entry of `playerId`, and `getQueuePosition(playerId)` is the length of the
queue. -/
theorem addToQueue_no_match (queue : Queue) (h : QueueReachable queue) (now : Nat)
    (playerId : ConnId) (playerData : PlayerData)
    (hnone : ∀ d ∈ queue, d.id ≠ playerId →
      withinRange now d (newEntry now playerId playerData) = false) :
    (addToQueue queue now playerId playerData).1 = none ∧
    (addToQueue queue now playerId playerData).2
      = queue.filter (fun p => p.id != playerId) ++ [newEntry now playerId playerData] ∧
    (newEntry now playerId playerData).id = playerId ∧
    (newEntry now playerId playerData).points = playerData.points.getD 0 ∧
    (newEntry now playerId playerData).joinedAt = now ∧
    (∀ p ∈ queue.filter (fun p => p.id != playerId), p.id ≠ playerId) ∧
    getQueuePosition (addToQueue queue now playerId playerData).2 playerId
      = (addToQueue queue now playerId playerData).2.length := by
  have hnodup := nodup_of_queueReachable h
  have hfind : findMatch (spliceId queue playerId) now (newEntry now playerId playerData) = none := by
    rw [findMatch_eq_bestCandidate, bestCandidate_eq_none]
    intro d hd
    exact hnone d ((spliceId_sublist queue playerId).subset hd) (not_mem_spliceId hnodup d hd)
  have habsent : ∀ p ∈ queue.filter (fun p => p.id != playerId), p.id ≠ playerId := by
    intro p hp
    simpa using (List.mem_filter.mp hp).2
  have hqueue : (addToQueue queue now playerId playerData).2
      = queue.filter (fun p => p.id != playerId) ++ [newEntry now playerId playerData] := by
    rw [addToQueue_eq, hfind, spliceId_eq_filter _ hnodup]
  refine ⟨?_, hqueue, rfl, rfl, rfl, habsent, ?_⟩
  · rw [addToQueue_eq, hfind]
  · rw [hqueue]
    exact getQueuePosition_append_last habsent

/-- C23, on the queue that holds `A` and `B`: `A` joins again at the time 10
with 500 points and no points at all; nobody is within tolerance, the old
entry of `A` is gone and the new one is last, at position 2. -/
theorem addToQueue_no_match_witness :
    addToQueue queueTwo 10 "A" ⟨"Ann", some 500⟩
      = (none, [⟨"B", "Bob", 1000, 0⟩, ⟨"A", "Ann", 500, 10⟩]) ∧
    addToQueue queueTwo 10 "A" ⟨"Ann", none⟩
      = (none, [⟨"B", "Bob", 1000, 0⟩, ⟨"A", "Ann", 0, 10⟩]) ∧
    getQueuePosition (addToQueue queueTwo 10 "A" ⟨"Ann", some 500⟩).2 "A" = 2 := by
  have h := addToQueue_no_match queueTwo queueReachable_queueTwo 10 "A" ⟨"Ann", some 500⟩
    (by decide)
  refine ⟨by decide, by decide, ?_⟩
  rw [h.2.2.2.2.2.2, h.2.1]
  decide

/-- C24. Let `c` be the only entry of another player in the queue and `G`
its points difference to the arriving player, of any size, so also when
`G > 100`. If `c` has waited at
least `(G - 100) / 10` seconds when the player arrives, `addToQueue` returns
the match of the two and leaves the queue empty, and if `c` has waited less,
it returns `null`; the same holds when the arriving player still has an entry
of its own in the queue, before or after `c`, whatever the time at which it
joined and its points were. -/
theorem addToQueue_after_wait (c : QueueEntry) (now : Nat) (playerId : ConnId)
    (playerData : PlayerData) (hid : c.id ≠ playerId) :
    (((pointsDiff c (newEntry now playerId playerData) : ℚ) - 100) / 10
        ≤ ((now : ℚ) - (c.joinedAt : ℚ)) / 1000 →
      addToQueue [c] now playerId playerData
        = (some { player1 := newEntry now playerId playerData, player2 := c }, []) ∧
      ∀ old : QueueEntry, old.id = playerId →
        addToQueue [old, c] now playerId playerData
          = (some { player1 := newEntry now playerId playerData, player2 := c }, []) ∧
        addToQueue [c, old] now playerId playerData
          = (some { player1 := newEntry now playerId playerData, player2 := c }, [])) ∧
    (((now : ℚ) - (c.joinedAt : ℚ)) / 1000
        < ((pointsDiff c (newEntry now playerId playerData) : ℚ) - 100) / 10 →
      addToQueue [c] now playerId playerData = (none, [c, newEntry now playerId playerData]) ∧
      ∀ old : QueueEntry, old.id = playerId →
        addToQueue [old, c] now playerId playerData
          = (none, [c, newEntry now playerId playerData]) ∧
        addToQueue [c, old] now playerId playerData
          = (none, [c, newEntry now playerId playerData])) := by
  have hwithin : withinRange now c (newEntry now playerId playerData) = true ↔
      ((pointsDiff c (newEntry now playerId playerData) : ℚ) - 100) / 10
        ≤ ((now : ℚ) - (c.joinedAt : ℚ)) / 1000 := by
    rw [withinRange_iff]
    push_cast
    constructor <;> intro h <;> linarith
  have hsplice1 : spliceId [c] playerId = [c] :=
    spliceId_of_absent (by simpa using hid)
  have hsplice2 : ∀ old : QueueEntry, old.id = playerId → spliceId [old, c] playerId = [c] := by
    intro old hold
    unfold spliceId
    rw [List.eraseP_cons_of_pos (by simpa using hold)]
  have hsplice3 : ∀ old : QueueEntry, old.id = playerId → spliceId [c, old] playerId = [c] := by
    intro old hold
    unfold spliceId
    rw [List.eraseP_cons_of_neg (by simpa using hid), List.eraseP_cons_of_pos (by simpa using hold)]
  have hself : spliceId [c] c.id = [] := by
    unfold spliceId
    rw [List.eraseP_cons_of_pos (by simp)]
  have hfind : findMatch [c] now (newEntry now playerId playerData)
      = if withinRange now c (newEntry now playerId playerData) then some c else none := by
    rw [findMatch_eq_bestCandidate]
    rfl
  constructor
  · intro hwait
    have hw := hwithin.mpr hwait
    have hadd : ∀ queue : Queue, spliceId queue playerId = [c] →
        addToQueue queue now playerId playerData
          = (some { player1 := newEntry now playerId playerData, player2 := c }, []) := by
      intro queue hq
      rw [addToQueue_eq, hq, hfind, if_pos hw]
      simp only [hself]
    exact ⟨hadd _ hsplice1, fun old hold => ⟨hadd _ (hsplice2 old hold), hadd _ (hsplice3 old hold)⟩⟩
  · intro hwait
    have hw : withinRange now c (newEntry now playerId playerData) = false := by
      cases hcase : withinRange now c (newEntry now playerId playerData) with
      | false => rfl
      | true =>
        have := hwithin.mp hcase
        linarith
    have hadd : ∀ queue : Queue, spliceId queue playerId = [c] →
        addToQueue queue now playerId playerData
          = (none, [c, newEntry now playerId playerData]) := by
      intro queue hq
      rw [addToQueue_eq, hq, hfind, hw]
      rfl
    exact ⟨hadd _ hsplice1, fun old hold => ⟨hadd _ (hsplice2 old hold), hadd _ (hsplice3 old hold)⟩⟩

/-- C24, for `A` (0 points, queued at the time 0) and `B` with 1000 points,
a gap of 1000: `B` arriving after 89999 ms gets `null`, `B` arriving after 90
seconds is matched with `A`. -/
theorem addToQueue_after_wait_witness :
    addToQueue [⟨"A", "Ann", 0, 0⟩] 89999 "B" ⟨"Bob", some 1000⟩
      = (none, [⟨"A", "Ann", 0, 0⟩, ⟨"B", "Bob", 1000, 89999⟩]) ∧
    addToQueue [⟨"A", "Ann", 0, 0⟩] 90000 "B" ⟨"Bob", some 1000⟩
      = (some ⟨⟨"B", "Bob", 1000, 90000⟩, ⟨"A", "Ann", 0, 0⟩⟩, []) := by
  have h1 := (addToQueue_after_wait ⟨"A", "Ann", 0, 0⟩ 89999 "B" ⟨"Bob", some 1000⟩
    (by decide)).2
  have h2 := (addToQueue_after_wait ⟨"A", "Ann", 0, 0⟩ 90000 "B" ⟨"Bob", some 1000⟩
    (by decide)).1
  refine ⟨(h1 ?_).1, (h2 ?_).1⟩
  · have hd : pointsDiff ⟨"A", "Ann", 0, 0⟩ (newEntry 89999 "B" ⟨"Bob", some 1000⟩) = 1000 := by
      decide
    rw [hd]
    norm_num
  · have hd : pointsDiff ⟨"A", "Ann", 0, 0⟩ (newEntry 90000 "B" ⟨"Bob", some 1000⟩) = 1000 := by
      decide
    rw [hd]
    norm_num

/-- C25 as stated fails: an entry that joined at the time 0 is, at the time
300000, not older than the threshold, and `cleanupQueue` drops it. -/
theorem cleanupQueue_drops_at_threshold :
    ¬ ((300000 : Int) - ((0 : Nat) : Int) > 300000) ∧
    cleanupQueue [⟨"A", "Ann", 0, 0⟩] 300000 = [] ∧
    cleanupQueue [⟨"A", "Ann", 0, 0⟩] 299999 = [⟨"A", "Ann", 0, 0⟩] :=
  ⟨by decide, by decide, by decide⟩

/-- C25, amended. `cleanupQueue` at the time `now` keeps exactly the entries
that have waited less than 5 minutes (`now - joinedAt < 300000`), in their
order, and drops exactly the entries that have waited 5 minutes or more
(`now - joinedAt >= 300000`). -/
theorem cleanupQueue_spec (queue : Queue) (now : Nat) :
    (∀ p, p ∈ cleanupQueue queue now ↔
      p ∈ queue ∧ (now : Int) - (p.joinedAt : Int) < 300000) ∧
    (∀ p ∈ queue, p ∉ cleanupQueue queue now ↔ (now : Int) - (p.joinedAt : Int) ≥ 300000) ∧
    (cleanupQueue queue now).Sublist queue ∧
    cleanupQueue queue now
      = queue.filter (fun p => decide ((now : Int) - (p.joinedAt : Int) < 300000)) := by
  have hmem : ∀ p, p ∈ cleanupQueue queue now ↔
      p ∈ queue ∧ (now : Int) - (p.joinedAt : Int) < 300000 := by
    intro p
    unfold cleanupQueue maxWaitTime
    rw [List.mem_filter, decide_eq_true_iff]
    constructor
    · rintro ⟨hp, hlt⟩
      exact ⟨hp, by omega⟩
    · rintro ⟨hp, hlt⟩
      exact ⟨hp, by omega⟩
  refine ⟨hmem, ?_, ?_, ?_⟩
  · intro p hp
    rw [hmem p]
    constructor
    · intro h
      by_contra hlt
      exact h ⟨hp, by omega⟩
    · intro h hin
      omega
  · unfold cleanupQueue
    exact List.filter_sublist queue
  · unfold cleanupQueue maxWaitTime
    apply List.filter_congr
    intro p _
    have : ((5 : Int) * 60 * 1000) = 300000 := by norm_num
    rw [this]

/-- C25, amended, on the queue that holds `A` and `B`, both queued at the time
0: at the time 299999 both are kept, at the time 300000 both are dropped. -/
theorem cleanupQueue_spec_witness :
    cleanupQueue queueTwo 299999 = queueTwo ∧ cleanupQueue queueTwo 300000 = [] := by
  have h := (cleanupQueue_spec queueTwo 300000).2.1 ⟨"A", "Ann", 0, 0⟩ (by decide)
  exact ⟨by decide, by decide⟩

/-! ## The disconnect handler -/

theorem mapGet_mapDelete_self {α : Type} (m : List (String × α)) (key : String) :
    mapGet (mapDelete m key) key = none := by
  unfold mapGet mapDelete
  induction m with
  | nil => rfl
  | cons e rest ih =>
    obtain ⟨k, v⟩ := e
    by_cases he : k = key
    · simp only [List.filter_cons, he, bne_self_eq_false, Bool.false_eq_true, if_false]
      exact ih
    · have hne : (k != key) = true := by simpa using he
      have hkey : (key == k) = false := by
        simpa using fun h => he h.symm
      simp only [List.filter_cons, hne, if_true]
      rw [List.lookup_cons, hkey]
      exact ih

/-- When the session of the connection points at a stored room whose game
has been started, the disconnect handler ends normally and removes the
session, the queue entry of the connection and that room; a later `joinRoom`
with the code of the room is answered `'Room not found'`. -/
theorem onDisconnect_of_current_room {server : Server} {socketId : ConnId} {user : User}
    {code : String} {room : Room} {gameState : GameState}
    (huser : mapGet server.users socketId = some user)
    (hcurrent : user.currentRoom = some code) (hcode : code ≠ "")
    (hroom : getRoom server.rooms code = some room)
    (hgame : room.gameState = some gameState) :
    onDisconnect server socketId =
      { server :=
          { users := mapDelete server.users socketId
            rooms := removeRoom server.rooms code
            queue := (removeFromQueue server.queue socketId).2 }
        response := none
        uncaught := none } ∧
    ∀ playerId username,
      joinRoom (onDisconnect server socketId).server.rooms code playerId username
        = Except.error (Exception.error "Room not found") := by
  have htruthy : truthy (some code) = true := by
    simpa [truthy] using hcode
  have hresult : onDisconnect server socketId =
      { server :=
          { users := mapDelete server.users socketId
            rooms := removeRoom server.rooms code
            queue := (removeFromQueue server.queue socketId).2 }
        response := none
        uncaught := none } := by
    unfold onDisconnect
    simp only [huser, hcurrent, htruthy, if_true, hroom, hgame]
  refine ⟨hresult, ?_⟩
  intro playerId username
  rw [hresult]
  unfold joinRoom removeRoom
  simp only [mapGet_mapDelete_self]

/-- C26 as stated fails: `H` and `G` are seated in the started room `ABCDEF`;
`H` then created the room `GHIJKL`, which `K` joined, so the session of `H`
points at `GHIJKL`. When `H` disconnects, the handler ends normally and
removes the session of `H` and the room `GHIJKL`, but the started room
`ABCDEF`, in which `H` holds the first seat, stays in the store: a later
`joinRoom` with the code `ABCDEF` is answered `'Room is full'`. -/
theorem disconnect_keeps_started_room :
    (getRoom serverTwoRooms.rooms "ABCDEF").map
      (fun r => (r.player1, r.player2, r.status, r.gameState.map (fun g => g.status)))
      = some ("H", some "G", Status.active, some Status.active) ∧
    (mapGet serverTwoRooms.users "H").map (fun u => u.currentRoom) = some (some "GHIJKL") ∧
    (onDisconnect serverTwoRooms "H").uncaught = none ∧
    mapGet (onDisconnect serverTwoRooms "H").server.users "H" = none ∧
    (onDisconnect serverTwoRooms "H").server.rooms.map (fun e => e.1) = ["ABCDEF"] ∧
    (onJoinRoom (onDisconnect serverTwoRooms "H").server 6000 "K" "ABCDEF").response
      = some (Response.failure (Exception.error "Room is full")) := by
  refine ⟨by decide, by decide, by decide, by decide, by decide, by decide⟩

/-- C27 as stated fails: `H` created the room `ABCDEF`, which nobody joined,
so the room is waiting, only its host is seated and its game state is absent.
When `H` disconnects, the handler reads `room.gameState.status` and a
`TypeError` leaves the handler; the session of `H` stays in the registry and
the room stays in the store. A `restartGame` with the code of that room lets
the error `'Not enough players'` of `startGame` leave the handler. The
handler `leaveRoom` ends normally on the same state. -/
theorem disconnect_of_waiting_host_throws :
    (getRoom serverHostWaiting.rooms "ABCDEF").map
      (fun r => (r.player1, r.player2, r.gameState, r.status))
      = some ("H", none, none, Status.waiting) ∧
    (mapGet serverHostWaiting.users "H").map (fun u => u.currentRoom)
      = some (some "ABCDEF") ∧
    (onDisconnect serverHostWaiting "H").uncaught = some Exception.typeError ∧
    (mapGet (onDisconnect serverHostWaiting "H").server.users "H").isSome = true ∧
    (getRoom (onDisconnect serverHostWaiting "H").server.rooms "ABCDEF").isSome = true ∧
    (onRestartGame serverHostWaiting 5000 "H" "ABCDEF").uncaught
      = some (Exception.error "Not enough players") ∧
    (onLeaveRoom serverHostWaiting "H").uncaught = none := by
  refine ⟨by decide, by decide, by decide, by decide, by decide, by decide, by decide⟩

/-- The started room `ABCDEF` while the sessions of both seats point at it:
after either seat disconnects the room is gone, and `joinRoom` with its code
is answered `'Room not found'`. -/
theorem onDisconnect_serverStarted :
    (onDisconnect serverStarted "H").server.rooms = [] ∧
    (onDisconnect serverStarted "G").server.rooms = [] ∧
    (onJoinRoom (onDisconnect serverStarted "G").server 6000 "K" "ABCDEF").response
      = some (Response.failure (Exception.error "Room not found")) := by
  refine ⟨by decide, by decide, by decide⟩

/-! ## The invariant of the game states -/

theorem filledSlots_set {board : Board} {i : Nat} (s : Symbol) (h : board[i]? = some none) :
    filledSlots (board.set i (some s)) = filledSlots board + 1 := by
  unfold filledSlots
  induction board generalizing i with
  | nil => simp at h
  | cons c rest ih =>
    cases i with
    | zero =>
      simp only [List.getElem?_cons_zero, Option.some.injEq] at h
      subst h
      simp [List.filter_cons]
    | succ i =>
      simp only [List.getElem?_cons_succ] at h
      simp only [List.set_cons_succ, List.filter_cons]
      split
      · simp only [List.length_cons]
        rw [ih h]
      · exact ih h

theorem filledSlots_boardAfter {gameState : GameState} {cellIndex : Int} (info : PlayerInfo)
    (h : boardGet gameState.board cellIndex = some none) :
    filledSlots (boardAfter gameState cellIndex info) = filledSlots gameState.board + 1 := by
  unfold boardAfter
  apply filledSlots_set
  have hnonneg := (boardGet_nonneg h).1
  unfold boardGet at h
  rw [if_neg (by omega)] at h
  exact h

theorem storeGameInv_mapSet {rooms : RoomStore} {code : String} {room : Room}
    (h : StoreGameInv rooms) (hroom : GameInv room) : StoreGameInv (mapSet rooms code room) := by
  intro e he
  rcases mem_mapSet he with he | he
  · exact h e he
  · rw [he]
    exact hroom

theorem gameInv_of_new {room : Room} (hgame : room.gameState = none)
    (hstatus : room.status = Status.waiting) : GameInv room := by
  refine ⟨⟨fun _ => hstatus, fun _ => hgame⟩, ?_⟩
  intro g hg
  rw [hgame] at hg
  cases hg

theorem storeGameInv_startGame {rooms rooms1 : RoomStore} {now : Nat} {code : String}
    {gameState : GameState} (h : StoreGameInv rooms)
    (hstart : startGame rooms now code = Except.ok (gameState, rooms1)) :
    StoreGameInv rooms1 := by
  unfold startGame at hstart
  cases hroom : mapGet rooms code with
  | none => simp [hroom] at hstart
  | some room =>
    simp only [hroom] at hstart
    split at hstart
    · cases hstart
    · simp only [Except.ok.injEq, Prod.mk.injEq] at hstart
      rw [← hstart.2]
      apply storeGameInv_mapSet h
      refine ⟨Iff.intro (fun hnone => nomatch hnone) (fun hw => nomatch hw), ?_⟩
      intro g hg
      simp only [Option.some.injEq] at hg
      subst hg
      exact ⟨by simp, rfl, Or.inl rfl⟩

theorem storeGameInv_joinRoomHandler {rooms : RoomStore} (now : Nat) (socketId : ConnId)
    (username roomCode : String) (hinv : StoreInv rooms) (h : StoreGameInv rooms) :
    StoreGameInv (joinRoomHandler rooms now socketId username roomCode).1 := by
  unfold joinRoomHandler
  cases hjoin : joinRoom rooms roomCode socketId username with
  | error e => exact h
  | ok r =>
    obtain ⟨room1, rooms1⟩ := r
    have h1 : StoreGameInv rooms1 := by
      unfold joinRoom at hjoin
      cases hroom : mapGet rooms roomCode with
      | none => simp [hroom] at hjoin
      | some room =>
        simp only [hroom] at hjoin
        split at hjoin
        · cases hjoin
        · next hfree =>
          simp only [Except.ok.injEq, Prod.mk.injEq] at hjoin
          rw [← hjoin.2]
          apply storeGameInv_mapSet h
          have hnone : room.gameState = none := by
            cases hgame : room.gameState with
            | none => rfl
            | some g => exact absurd (roomInv_of_mapGet hinv hroom g hgame).2.1 hfree
          have hroomInv := h (roomCode, room) (mapGet_mem hroom)
          exact gameInv_of_new hnone (hroomInv.1.mp hnone)
    simp only
    cases hstart : startGame rooms1 now roomCode with
    | error e => exact h1
    | ok r2 =>
      obtain ⟨g, rooms2⟩ := r2
      exact storeGameInv_startGame h1 hstart

theorem storeGameInv_matchFound {rooms rooms1 : RoomStore} {rnd : Nat → Fin 36}
    {fuel pos now : Nat} {player1Id player2Id : ConnId} {player1Username player2Username : String}
    {pos1 : Nat} (h : StoreGameInv rooms)
    (hmatch : matchFound rooms rnd fuel pos now player1Id player2Id player1Username
      player2Username = some (rooms1, pos1)) : StoreGameInv rooms1 := by
  unfold matchFound createMatchmakingRoom at hmatch
  cases hcode : generateRoomCode rooms rnd fuel pos with
  | none => simp [hcode] at hmatch
  | some r =>
    obtain ⟨code, pos2⟩ := r
    simp only [hcode] at hmatch
    split at hmatch
    · simp only [Option.some.injEq, Prod.mk.injEq] at hmatch
      rw [← hmatch.1]
      exact storeGameInv_mapSet h (gameInv_of_new rfl rfl)
    · next g rooms2 hstart =>
      simp only [Option.some.injEq, Prod.mk.injEq] at hmatch
      rw [← hmatch.1]
      exact storeGameInv_startGame (storeGameInv_mapSet h (gameInv_of_new rfl rfl)) hstart

theorem storeGameInv_makeMove {rooms : RoomStore} (now : Nat) (socketId : ConnId)
    (roomCode : String) (cellIndex : Int) (h : StoreGameInv rooms) :
    StoreGameInv (makeMove now socketId roomCode cellIndex rooms).rooms := by
  rcases makeMove_rooms_eq_or_accepted rooms now socketId roomCode cellIndex with hsame | hacc
  · rw [hsame]
    exact h
  · obtain ⟨room, gameState, info, hacc⟩ := hacc
    have hroom := h (roomCode, room) (mapGet_mem hacc.room_eq)
    obtain ⟨hlen, hcount, hturn⟩ := hroom.2 gameState hacc.game_eq
    have hstatus : ¬ room.status = Status.waiting := by
      intro hw
      have := hroom.1.mpr hw
      rw [hacc.game_eq] at this
      cases this
    have hlen1 : (boardAfter gameState cellIndex info).length = 9 := by
      simp [boardAfter, hlen]
    have hcount1 : filledSlots (boardAfter gameState cellIndex info) = gameState.moveCount + 1 := by
      rw [filledSlots_boardAfter info hacc.cell_empty, hcount]
    cases hw : checkWinner (boardAfter gameState cellIndex info) with
    | none =>
      rw [(makeMove_rooms_of_open now hacc hw).1]
      apply storeGameInv_mapSet h
      refine ⟨Iff.intro (fun hnone => nomatch hnone) (fun hwait => absurd hwait hstatus), ?_⟩
      intro g hg
      simp only [Option.some.injEq] at hg
      subst hg
      refine ⟨hlen1, hcount1, ?_⟩
      simp only
      split
      · exact Or.inr rfl
      · exact Or.inl rfl
    | some winner =>
      rw [makeMove_rooms_of_over now hacc hw]
      apply storeGameInv_mapSet h
      refine ⟨Iff.intro (fun hnone => nomatch hnone) (fun hwait => absurd hwait hstatus), ?_⟩
      intro g hg
      simp only [Option.some.injEq] at hg
      subst hg
      exact ⟨hlen1, hcount1, hturn⟩

theorem storeGameInv_restartGame {rooms rooms1 : RoomStore} {now : Nat} {roomCode : String}
    (h : StoreGameInv rooms) (hre : restartGame rooms now roomCode = Except.ok rooms1) :
    StoreGameInv rooms1 := by
  unfold restartGame at hre
  cases hroom : getRoom rooms roomCode with
  | none =>
    simp only [hroom, Except.ok.injEq] at hre
    rw [← hre]
    exact h
  | some room =>
    simp only [hroom] at hre
    cases hstart : startGame rooms now roomCode with
    | error e => simp [hstart] at hre
    | ok r =>
      obtain ⟨g, rooms2⟩ := r
      simp only [hstart, Except.ok.injEq] at hre
      rw [← hre]
      exact storeGameInv_startGame h hstart

theorem storeGameInv_spectateRoom {rooms : RoomStore} (socketId : ConnId) (roomCode : String)
    (h : StoreGameInv rooms) : StoreGameInv (spectateRoom rooms socketId roomCode).1 := by
  unfold spectateRoom
  cases hroom : getRoom rooms roomCode with
  | none => exact h
  | some room =>
    simp only
    split
    · exact h
    · exact storeGameInv_mapSet h (h (roomCode, room) (mapGet_mem hroom))

/-- Every room of a reachable store satisfies the invariant of the game
states. -/
theorem storeGameInv_of_reachable {rooms : RoomStore} (h : Reachable rooms) :
    StoreGameInv rooms := by
  induction h with
  | init =>
    intro e he
    cases he
  | step hreach hstep ih =>
    cases hstep
    case createRoom hcreate =>
      obtain ⟨-, hrooms, fields, -, hroom⟩ := createRoom_eq_some hcreate
      rw [hrooms]
      exact storeGameInv_mapSet ih (gameInv_of_new (by rw [hroom]) (by rw [hroom]))
    case joinRoom now socketId username roomCode =>
      exact storeGameInv_joinRoomHandler now socketId username roomCode
        (storeInv_of_reachable hreach) ih
    case leaveRoom roomCode => exact fun e he => ih e (mem_mapDelete he)
    case matchFound hmatch => exact storeGameInv_matchFound ih hmatch
    case makeMove now socketId roomCode cellIndex =>
      exact storeGameInv_makeMove now socketId roomCode cellIndex ih
    case restartGame hre => exact storeGameInv_restartGame ih hre
    case spectateRoom socketId roomCode => exact storeGameInv_spectateRoom socketId roomCode ih

/-! ## The invariants of the game state: claims -/

/-- C28. In every store that the server can reach (by any sequence of room
creations, joins, matches, removals, restarts and `makeMove` requests with any
sender and any cell index, accepted or rejected), the game state of every room
has a board of exactly nine slots, each of them empty, X or O, and the number
of non-empty slots equals `moveCount`. -/
theorem moveCount_invariant (rooms : RoomStore) (h : Reachable rooms) (code : String)
    (gameState : GameState) (hgame : gameOf rooms code = some gameState) :
    gameState.board.length = 9 ∧ filledSlots gameState.board = gameState.moveCount ∧
    ∀ i, i < 9 →
      gameState.board[i]? = some none ∨ gameState.board[i]? = some (some Symbol.X) ∨
      gameState.board[i]? = some (some Symbol.O) := by
  unfold gameOf at hgame
  cases hroom : getRoom rooms code with
  | none => simp [hroom] at hgame
  | some room =>
    simp only [hroom, Option.some_bind] at hgame
    obtain ⟨hlen, hcount, -⟩ :=
      (storeGameInv_of_reachable h (code, room) (mapGet_mem hroom)).2 gameState hgame
    refine ⟨hlen, hcount, ?_⟩
    intro i hi
    have hlt : i < gameState.board.length := by omega
    rw [List.getElem?_eq_getElem hlt]
    cases hcell : gameState.board[i] with
    | none => exact Or.inl rfl
    | some s =>
      cases s
      · exact Or.inr (Or.inl rfl)
      · exact Or.inr (Or.inr rfl)

/-- C28 at the game won by `H` with the moves `H` 0, `G` 3, `H` 1, `G` 4,
`H` 2: the board has nine slots, five of them filled, and `moveCount` is 5. -/
theorem moveCount_invariant_witness :
    (gameOf roomsAfterWin "ABCDEF").map (fun g => g.moveCount) = some 5 ∧
    (gameOf roomsAfterWin "ABCDEF").map (fun g => (g.board.length, filledSlots g.board))
      = some (9, 5) := by
  have hcount : (gameOf roomsAfterWin "ABCDEF").map (fun g => g.moveCount) = some 5 := by decide
  refine ⟨hcount, ?_⟩
  cases hg : gameOf roomsAfterWin "ABCDEF" with
  | none =>
    rw [hg] at hcount
    cases hcount
  | some g =>
    have h := moveCount_invariant roomsAfterWin (reachable_play reachable_roomsStarted _)
      "ABCDEF" g hg
    rw [hg] at hcount
    simp only [Option.map_some', Option.some.injEq] at hcount
    rw [Option.map_some', h.1, h.2.1, hcount]

/-- C29. In every store that the server can reach, the game state of a room
is absent exactly when the status of the room is `'waiting'`; and when it is
present, `currentPlayer` is a connection id that is `room.player1` or
`room.player2`. -/
theorem turn_holder_invariant (rooms : RoomStore) (h : Reachable rooms) (code : String)
    (room : Room) (hroom : getRoom rooms code = some room) :
    (room.gameState = none ↔ room.status = Status.waiting) ∧
    ∀ gameState, room.gameState = some gameState →
      ∃ id, gameState.currentPlayer = some id ∧ (id = room.player1 ∨ room.player2 = some id) := by
  have hinv := storeGameInv_of_reachable h (code, room) (mapGet_mem hroom)
  refine ⟨hinv.1, ?_⟩
  intro gameState hgame
  obtain ⟨-, -, hturn⟩ := hinv.2 gameState hgame
  have hfull := (roomInv_of_mapGet (storeInv_of_reachable h) hroom gameState hgame).2.1
  rcases hturn with hturn | hturn
  · exact ⟨room.player1, hturn, Or.inl rfl⟩
  · cases hp2 : room.player2 with
    | none =>
      rw [hp2] at hfull
      cases hfull
    | some id => exact ⟨id, by rw [hturn, hp2], Or.inr rfl⟩

/-- C29 at the room `ABCDEF` after `H` played cell 0: the game state is
present, the status of the room is not `'waiting'` and the turn is with `G`,
the second seat; and in the room that nobody joined the game state is absent
and the status is `'waiting'`. -/
theorem turn_holder_invariant_witness :
    (getRoom roomsAfterFirstMove "ABCDEF").map (fun r => (r.player1, r.player2))
      = some ("H", some "G") ∧
    (gameOf roomsAfterFirstMove "ABCDEF").map (fun g => g.currentPlayer) = some (some "G") ∧
    (getRoom roomsAfterFirstMove "ABCDEF").map (fun r => r.status) ≠ some Status.waiting ∧
    (getRoom roomsCreated "ABCDEF").map (fun r => r.gameState) = some none ∧
    (getRoom roomsCreated "ABCDEF").map (fun r => r.status) = some Status.waiting := by
  have h := turn_holder_invariant roomsAfterFirstMove (reachable_play reachable_roomsStarted _)
    "ABCDEF" _ rfl
  have hwaiting := turn_holder_invariant roomsCreated reachable_roomsCreated "ABCDEF" _ rfl
  refine ⟨by decide, by decide, ?_, by decide, congrArg some (hwaiting.1.mp rfl)⟩
  intro hstatus
  exact nomatch h.1.mpr (Option.some.inj hstatus)

/-! ## Membership -/

theorem reachable_serverStarted : Reachable serverStarted.rooms :=
  Reachable.step
    (Reachable.step Reachable.init
      (Step.createRoom [] rndCount 1 0 1000 "H" "Player1" (SettingsArg.object ⟨none, none, none⟩) _
        serverHostWaiting.rooms 6 rfl))
    (Step.joinRoom serverHostWaiting.rooms 2000 "G" "Player2" "ABCDEF")

theorem reachable_serverAfterFirstMove : Reachable serverAfterFirstMove.rooms :=
  Reachable.step reachable_serverStarted (Step.makeMove serverStarted.rooms 3000 "H" "ABCDEF" 0)

/-- In a reachable store a `makeMove` of a connection that holds neither seat
of the room is rejected and leaves the store as it is. -/
theorem makeMove_of_outsider {rooms : RoomStore} (h : Reachable rooms) {code : String}
    {room : Room} {socketId : ConnId} (hroom : getRoom rooms code = some room)
    (hp1 : socketId ≠ room.player1) (hp2 : room.player2 ≠ some socketId) (now : Nat)
    (cellIndex : Int) :
    (makeMove now socketId code cellIndex rooms).rooms = rooms ∧
    (makeMove now socketId code cellIndex rooms).events = [] ∧
    ∃ e, (makeMove now socketId code cellIndex rooms).response = Response.failure e := by
  cases hgame : room.gameState with
  | none =>
    have hmove : makeMove now socketId code cellIndex rooms =
        { rooms := rooms, response := Response.failure Exception.typeError, events := [] } := by
      unfold makeMove
      simp only [hroom, hgame]
    rw [hmove]
    exact ⟨rfl, rfl, _, rfl⟩
  | some gameState =>
    have hturn : gameState.currentPlayer ≠ some socketId := by
      obtain ⟨-, -, hseat⟩ :=
        (storeGameInv_of_reachable h (code, room) (mapGet_mem hroom)).2 gameState hgame
      rcases hseat with hseat | hseat
      · rw [hseat]
        intro heq
        exact hp1 (Option.some.inj heq).symm
      · rw [hseat]
        exact hp2
    by_cases hcell : boardGet gameState.board cellIndex = some none
    · rw [makeMove_of_not_turn now hroom hgame hcell hturn]
      exact ⟨rfl, rfl, _, rfl⟩
    · rw [makeMove_of_cell_taken now socketId hroom hgame hcell]
      exact ⟨rfl, rfl, _, rfl⟩

/-- The handler `restartGame` on a room with both seats taken puts a fresh
game state into the room, whoever sent the event. -/
theorem onRestartGame_of_full {server : Server} {code : String} {room : Room}
    (hroom : getRoom server.rooms code = some room)
    (hp1 : truthy (some room.player1) = true) (hp2 : truthy room.player2 = true) (now : Nat)
    (socketId : ConnId) :
    (onRestartGame server now socketId code).uncaught = none ∧
    gameOf (onRestartGame server now socketId code).server.rooms code
      = some
        { board := List.replicate 9 none
          currentPlayer := some room.player1
          moveCount := 0
          timeLeft := if room.settings.timerEnabled then some room.settings.timeLimit else none
          startTime := now
          lastMoveTime := now
          status := Status.active
          winner := none } := by
  have hget : mapGet server.rooms code = some room := hroom
  have hstart : ∃ g rooms1, startGame server.rooms now code = Except.ok (g, rooms1) ∧
      gameOf rooms1 code = some
        { board := List.replicate 9 none
          currentPlayer := some room.player1
          moveCount := 0
          timeLeft := if room.settings.timerEnabled then some room.settings.timeLimit else none
          startTime := now
          lastMoveTime := now
          status := Status.active
          winner := none } := by
    unfold startGame
    simp only [hget, hp1, hp2, Bool.not_true, Bool.or_self, Bool.false_eq_true, if_false]
    exact ⟨_, _, rfl, gameOf_mapSet _ _ _⟩
  obtain ⟨g, rooms1, hstart, hgame⟩ := hstart
  have hre : onRestartGame server now socketId code =
      { server := { server with rooms := rooms1 }, response := none, uncaught := none } := by
    unfold onRestartGame restartGame
    simp only [hroom, hstart]
  rw [hre]
  exact ⟨rfl, hgame⟩

/-- C30 as stated fails for `restartGame`: `K` is connected and holds no seat
of the room `ABCDEF`, in which `H` has played cell 0 (`moveCount` 1, turn with
`G`). The `restartGame` of `K` with that code is carried out: the board of the
room is empty again, `moveCount` is 0 and the turn is with `H`. -/
theorem restartGame_by_outsider :
    (getRoom serverAfterFirstMove.rooms "ABCDEF").map (fun r => (r.player1, r.player2))
      = some ("H", some "G") ∧
    (mapGet serverAfterFirstMove.users "K").map (fun u => u.currentRoom) = some none ∧
    (gameOf serverAfterFirstMove.rooms "ABCDEF").map
      (fun g => (g.board, g.moveCount, g.currentPlayer))
      = some ([some Symbol.X, none, none, none, none, none, none, none, none], 1, some "G") ∧
    (onRestartGame serverAfterFirstMove 5000 "K" "ABCDEF").uncaught = none ∧
    (gameOf (onRestartGame serverAfterFirstMove 5000 "K" "ABCDEF").server.rooms "ABCDEF").map
      (fun g => (g.board, g.moveCount, g.currentPlayer))
      = some (List.replicate 9 none, 0, some "H") := by
  refine ⟨by decide, by decide, by decide, by decide, by decide⟩

/-- C30, amended. For every room of a reachable store and every connection
that holds neither seat of it: a `makeMove` of that connection with the code
of the room is answered with a failure, sends no event and leaves the stores
of the server as they are, so the board, `moveCount`, `currentPlayer`, status
and winner of the room are unchanged. A `restartGame` with the code of the
room is carried out for every sender: when both seats of the room are taken
it ends without an exception and the room then has a fresh game state (empty
board, `moveCount` 0, turn with `player1`, status `'active'`, no winner). -/
theorem outsider_intents (server : Server) (h : Reachable server.rooms) (code : String)
    (room : Room) (socketId : ConnId) (hroom : getRoom server.rooms code = some room)
    (hp1 : socketId ≠ room.player1) (hp2 : room.player2 ≠ some socketId) :
    (∀ now cellIndex,
      (onMakeMove server now socketId code cellIndex).server = server ∧
      (makeMove now socketId code cellIndex server.rooms).events = [] ∧
      ∃ e, (onMakeMove server now socketId code cellIndex).response
        = some (Response.failure e)) ∧
    (∀ now, truthy (some room.player1) = true → truthy room.player2 = true →
      (onRestartGame server now socketId code).uncaught = none ∧
      (gameOf (onRestartGame server now socketId code).server.rooms code).map
        (fun g => (g.board, g.moveCount, g.currentPlayer, g.status, g.winner))
        = some (List.replicate 9 none, 0, some room.player1, Status.active, none)) := by
  constructor
  · intro now cellIndex
    obtain ⟨hrooms, hevents, e, hresponse⟩ :=
      makeMove_of_outsider h hroom hp1 hp2 now cellIndex
    refine ⟨?_, hevents, e, ?_⟩
    · unfold onMakeMove
      simp only [hrooms]
    · unfold onMakeMove
      simp only [hresponse]
  · intro now hfull1 hfull2
    obtain ⟨hnone, hgame⟩ := onRestartGame_of_full hroom hfull1 hfull2 now socketId
    refine ⟨hnone, ?_⟩
    rw [hgame]
    rfl

/-- C30 amended, at the room `ABCDEF` after `H` played cell 0 and the
connection `K`, which holds no seat: the `makeMove` of `K` on the empty cell
4 leaves the server as it is, and the `restartGame` of `K` resets the game. -/
theorem outsider_intents_witness :
    (onMakeMove serverAfterFirstMove 4000 "K" "ABCDEF" 4).server = serverAfterFirstMove ∧
    (gameOf (onRestartGame serverAfterFirstMove 5000 "K" "ABCDEF").server.rooms "ABCDEF").map
      (fun g => (g.board, g.moveCount, g.currentPlayer, g.status, g.winner))
      = some (List.replicate 9 none, 0, some "H", Status.active, none) := by
  have h := outsider_intents serverAfterFirstMove reachable_serverAfterFirstMove "ABCDEF" _ "K"
    rfl (by decide) (by decide)
  exact ⟨(h.1 4000 4).1, (h.2 5000 (by decide) (by decide)).2⟩

end TicTacToe
